import Mathlib

/-! Lifecycle of a loadable module (`loader/src/loader/Mod.cpp`)

Shallow embedding of `Mod.cpp`.  A `World` holds the registry of modules (the
loader's list of `Mod` objects, a `Mod*` being an index into it), the files
of the save directories and the chronological trace of every effect the code
has on its collaborators.  The outcome of a collaborator call is read from an
`Env`, as a function of the call and of the time of the call (the number of
effects so far), so that a theorem quantified over `Env` covers every sequence
of outcomes.

`loadBinary`, `unloadBinary` and `updateDependencyStates` call one another
(through `Loader::updateAllDependencies`) without a bound in the source; they
are embedded by open recursion: each body takes the functions it calls as a
`Methods` record, and `methods env n` ties the knot for call depth `n`.
-/

namespace Geode

/-! ## Data model -/

/-- Resolution state of a dependency record (`ModResolveState`). -/
inductive ModResolveState where
  | Unloaded
  | Unresolved
  | Resolved
  | Loaded
  | Disabled
  deriving DecidableEq, Repr, Inhabited

/-- Kinds of lifecycle event (`ModEventType`). -/
inductive ModEventType where
  | Loaded
  | Unloaded
  | Enabled
  | Disabled
  | DataLoaded
  | DataSaved
  deriving DecidableEq, Repr, Inhabited

/-- Log severities used by `Mod.cpp`. -/
inductive Severity where
  | Debug
  | Warning
  | Error
  deriving DecidableEq, Repr, Inhabited

/-- JSON value (`nlohmann::json`); an object is its list of members. -/
inductive Json where
  | null
  | boolean (b : Bool)
  | number (n : Int)
  | string (s : String)
  | array (xs : List Json)
  | object (kvs : List (String × Json))
  deriving Inhabited

/-- Members iterated by `root.items()`: those of an object, none otherwise. -/
def Json.items : Json → List (String × Json)
  | .object kvs => kvs
  | _ => []

/-- Assignment `json[key] = value` on an object under construction: the member
is replaced when the key is present and added otherwise. -/
def Json.setKey (key : String) (value : Json) : List (String × Json) → List (String × Json)
  | [] => [(key, value)]
  | (k, v) :: kvs => if k = key then (key, value) :: kvs else (k, v) :: Json.setKey key value kvs

/-- `Result<>`: success, or failure with a message. -/
abbrev Result := Except String Unit

/-- `Ok()`. -/
abbrev Ok : Result := Except.ok ()

/-- `Err(msg)`. -/
abbrev Err (msg : String) : Result := Except.error msg

/-- Whether a result is a success (`operator bool` of `Result<>`). -/
def Result.isOk : Result → Bool
  | .ok _ => true
  | .error _ => false

/-- How a call of `uninstall` ends: it returns a `Result<>`, or it is left by the
exception `ghc::filesystem::filesystem_error` that `ghc::filesystem::remove`
throws, for which `Mod.cpp` has no handler. -/
inductive Completion where
  | returned (r : Result)
  | thrown (what : String)

/-- Whether a call ended by returning a success. -/
def Completion.isOk : Completion → Bool
  | .returned r => r.isOk
  | .thrown _ => false

/-- Hook handle: an opaque identifier, the hook engine owns its state. -/
structure Hook where
  m_handle : Nat
  deriving DecidableEq, Repr, Inhabited

/-- Patch handle: the address it rewrites, the patch engine owns its state. -/
structure Patch where
  m_address : Nat
  deriving DecidableEq, Repr, Inhabited

/-- Declared setting: an opaque handle into the setting store. -/
structure Setting where
  m_handle : Nat
  deriving DecidableEq, Repr, Inhabited

/-- Dependency record (`Dependency`); `m_mod` is the weak `Mod*`, an index
into the registry once the target has been found. -/
structure Dependency where
  m_id : String
  m_required : Bool
  m_state : ModResolveState
  m_mod : Option Nat
  deriving DecidableEq, Repr, Inhabited

/-- Package metadata (`ModInfo`), restricted to what `Mod.cpp` reads. -/
structure ModInfo where
  m_id : String
  m_path : String
  m_binaryName : String
  m_supportsDisabling : Bool
  m_supportsUnloading : Bool
  m_dependencies : List Dependency
  m_settings : List (String × Setting)
  deriving Inhabited

/-- Module entity (`Mod`). -/
structure Mod where
  m_info : ModInfo
  m_saveDirPath : String
  m_tempDirName : String
  m_binaryLoaded : Bool
  m_enabled : Bool
  m_resolved : Bool
  m_hooks : List Hook
  m_patches : List Patch
  m_saved : Json
  deriving Inhabited

/-- Calls made on the collaborators (archive, file system, platform loader,
hook and patch engines, setting store). -/
inductive Call where
  | createDirectoryAll (path : String)
  | unzipCreate (path : String)
  | unzipHasEntry (path name : String)
  | unzipExtractAllTo (path dest : String)
  | loadPlatformBinary (mod : Nat)
  | implicitLoadFunc (mod : Nat)
  | unloadPlatformBinary (mod : Nat)
  | enableHook (mod : Nat) (hook : Hook)
  | disableHook (mod : Nat) (hook : Hook)
  | patchApply (mod : Nat) (patch : Patch)
  | patchRestore (mod : Nat) (patch : Patch)
  | readString (path : String)
  | writeString (path text : String)
  | settingLoad (mod : Nat) (key : String) (sett : Setting) (value : Json)
  | settingSave (mod : Nat) (key : String) (sett : Setting)
  | remove (path : String)

/-- One entry of the trace: a collaborator call with its outcome (`none` is
success), an event posted with the module as the listeners see it at that
moment, or a log line. -/
inductive Effect where
  | call (c : Call) (failure : Option String)
  | post (mod : Nat) (type : ModEventType) (seen : Mod)
  | log (severity : Severity) (mod : Nat) (text : String)

/-- Behaviour of the collaborators.  `fails c t` is the outcome of call `c`
made at time `t`: `none` for success, `some e` for failure with message `e`. -/
structure Env where
  fails : Call → Nat → Option String
  /-- Parser `nlohmann::json::parse`: the value, or the text of the exception -/
  parse : String → Except String Json
  /-- Serialiser `json.dump(4)` -/
  dump : Json → String
  /-- Handles that the entry point of a module places when it runs at time `t` -/
  placed : Nat → Nat → List Hook × List Patch
  /-- Value that `sett->save` writes for a setting at time `t` -/
  saved : Setting → Nat → Json
  /-- Whether a failure of `ghc::filesystem::remove` at time `t` is the exception
  `filesystem_error` (the system refuses the removal) and not the return value
  `false` (there was nothing to remove) -/
  throws : String → Nat → Bool
  /-- Directory `getGeodeDirectory() / GEODE_TEMP_DIRECTORY` -/
  tempDir : String

/-- State of the process: the registry in iteration order, the files under the
save directories as path and content, and the trace so far. -/
structure World where
  mods : List Mod
  files : List (String × String)
  trace : List Effect

/-- Path concatenation `a / b` for a relative component `b`. -/
def pathJoin (a b : String) : String := a ++ "/" ++ b

/-! ## Access to the state -/

/-- The module behind a `Mod*`. -/
def World.mod (w : World) (i : Nat) : Mod := w.mods.getD i default

/-- Store a module back behind its `Mod*`. -/
def World.setMod (w : World) (i : Nat) (m : Mod) : World :=
  { w with mods := w.mods.set i m }

/-- Append an effect to the trace. -/
def World.emit (w : World) (e : Effect) : World :=
  { w with trace := w.trace ++ [e] }

/-- Post `ModStateEvent(this, type)`. -/
def World.post (w : World) (this : Nat) (type : ModEventType) : World :=
  w.emit (Effect.post this type (w.mod this))

/-- Write a log line. -/
def World.log (w : World) (severity : Severity) (this : Nat) (text : String) : World :=
  w.emit (Effect.log severity this text)

/-- Make a collaborator call: its outcome is the one the environment gives at
the current time, and the call is recorded. -/
def World.call (w : World) (env : Env) (c : Call) : Option String × World :=
  (env.fails c w.trace.length, w.emit (Effect.call c (env.fails c w.trace.length)))

/-- Content of a file, `none` when `ghc::filesystem::exists` is false. -/
def World.readFile (w : World) (path : String) : Option String :=
  (w.files.find? (fun f => f.1 == path)).map (fun f => f.2)

/-- Content of the files after a successful `writeString`. -/
def World.writeFile (w : World) (path text : String) : World :=
  { w with files := (path, text) :: w.files.filter (fun f => f.1 != path) }

/-- Dependency record `k` of a module. -/
def Mod.dep (m : Mod) (k : Nat) : Dependency := m.m_info.m_dependencies.getD k default

/-- Module with dependency record `k` replaced. -/
def Mod.setDep (m : Mod) (k : Nat) (d : Dependency) : Mod :=
  { m with m_info := { m.m_info with m_dependencies := m.m_info.m_dependencies.set k d } }

/-- Assignment `dep.m_state = s` on record `k` of module `this`. -/
def World.setDepState (w : World) (this k : Nat) (s : ModResolveState) : World :=
  w.setMod this ((w.mod this).setDep k { (w.mod this).dep k with m_state := s })

/-- Assignment `m_resolved = b` on module `this`. -/
def World.setResolved (w : World) (this : Nat) (b : Bool) : World :=
  w.setMod this { w.mod this with m_resolved := b }

/-- Modelled from the spec: `Loader::getLoadedMod` (the registry's `findById`),
which is not in `Mod.cpp`; it returns the module registered under the id, or
nothing when no such module is installed. -/
def World.getLoadedMod (w : World) (id : String) : Option Nat :=
  w.mods.findIdx? (fun m => m.m_info.m_id == id)

/-! ## Dependency records -/

/-- `Dependency::isUnresolved`. -/
def Dependency.isUnresolved (d : Dependency) : Bool :=
  d.m_required &&
    (d.m_state == ModResolveState.Unloaded || d.m_state == ModResolveState.Unresolved ||
      d.m_state == ModResolveState.Disabled)

/-- `Mod::hasUnresolvedDependencies`: the loop returns at the first unresolved
record. -/
def Mod.hasUnresolvedDependenciesIn : List Dependency → Bool
  | [] => false
  | dep :: deps => if dep.isUnresolved then true else Mod.hasUnresolvedDependenciesIn deps

/-- `Mod::hasUnresolvedDependencies`. -/
def Mod.hasUnresolvedDependencies (m : Mod) : Bool :=
  Mod.hasUnresolvedDependenciesIn m.m_info.m_dependencies

/-- `Mod::isEnabled`. -/
def Mod.isEnabled (m : Mod) : Bool := m.m_enabled

/-- `Mod::getSetting`: the first declared setting with the key. -/
def Mod.getSetting (m : Mod) (key : String) : Option Setting :=
  (m.m_info.m_settings.find? (fun s => s.1 == key)).map (fun s => s.2)

/-! ## Persisted data -/

/-- Loop of `Mod::loadData` over the members of `settings.json`: a known
setting loads its value and a failure returns, an unknown key is logged. -/
def Mod.loadSettings (env : Env) (this : Nat) :
    List (String × Json) → World → Result × World
  | [], w => (Ok, w)
  | (key, value) :: rest, w =>
    match (w.mod this).getSetting key with
    | some sett =>
      match w.call env (Call.settingLoad this key sett value) with
      | (some _, w1) => (Err ("Unable to load value for setting \"" ++ key ++ "\""), w1)
      | (none, w1) => Mod.loadSettings env this rest w1
    | none =>
      Mod.loadSettings env this rest
        (w.log Severity.Warning this
          ("Encountered unknown setting \"" ++ key ++ "\" while loading settings"))

/-- Second half of `Mod::loadData`: the saved values. -/
def Mod.loadSaved (env : Env) (this : Nat) (w : World) : Result × World :=
  match w.readFile (pathJoin (w.mod this).m_saveDirPath "saved.json") with
  | some data =>
    match w.call env (Call.readString (pathJoin (w.mod this).m_saveDirPath "saved.json")) with
    | (some e, w1) => (Err e, w1)
    | (none, w1) =>
      match env.parse data with
      | .ok json => (Ok, w1.setMod this { w1.mod this with m_saved := json })
      | .error e => (Err ("Unable to parse saved values: " ++ e), w1)
  | none => (Ok, w)

/-- `Mod::loadData`. -/
def Mod.loadData (env : Env) (this : Nat) (w : World) : Result × World :=
  let w0 := w.post this ModEventType.DataLoaded
  match w0.readFile (pathJoin (w0.mod this).m_saveDirPath "settings.json") with
  | some settData =>
    match w0.call env (Call.readString (pathJoin (w0.mod this).m_saveDirPath "settings.json")) with
    | (some e, w1) => (Err e, w1)
    | (none, w1) =>
      match env.parse settData with
      | .error e => (Err ("Unable to parse settings: " ++ e), w1)
      | .ok data =>
        match Mod.loadSettings env this data.items w1 with
        | (.error e, w2) => (Err e, w2)
        | (.ok _, w2) => Mod.loadSaved env this w2
  | none => Mod.loadSaved env this w0

/-- Loop of `Mod::saveData` over the declared settings, building the settings
object; a setting that cannot be saved returns. -/
def Mod.saveSettings (env : Env) (this : Nat) :
    List (String × Setting) → List (String × Json) → World →
      Except String (List (String × Json)) × World
  | [], json, w => (.ok json, w)
  | (key, sett) :: rest, json, w =>
    match w.call env (Call.settingSave this key sett) with
    | (some _, w1) => (.error ("Unable to save setting \"" ++ key ++ "\""), w1)
    | (none, w1) =>
      Mod.saveSettings env this rest (Json.setKey key (env.saved sett w.trace.length) json) w1

/-- `Mod::saveData`. -/
def Mod.saveData (env : Env) (this : Nat) (w : World) : Result × World :=
  let w0 := w.post this ModEventType.DataSaved
  match Mod.saveSettings env this (w0.mod this).m_info.m_settings [] w0 with
  | (.error e, w1) => (Err e, w1)
  | (.ok json, w1) =>
    match w1.call env (Call.writeString (pathJoin (w1.mod this).m_saveDirPath "settings.json")
        (env.dump (Json.object json))) with
    | (some e, w2) => (Err e, w2)
    | (none, w2) =>
      let w3 := w2.writeFile (pathJoin (w2.mod this).m_saveDirPath "settings.json")
        (env.dump (Json.object json))
      match w3.call env (Call.writeString (pathJoin (w3.mod this).m_saveDirPath "saved.json")
          (env.dump (w3.mod this).m_saved)) with
      | (some e, w4) => (Err e, w4)
      | (none, w4) =>
        (Ok, w4.writeFile (pathJoin (w4.mod this).m_saveDirPath "saved.json")
          (env.dump (w4.mod this).m_saved))

/-! ## Staging -/

/-- `Mod::createTempDir`. -/
def Mod.createTempDir (env : Env) (this : Nat) (w : World) : Result × World :=
  if (w.mod this).m_tempDirName ≠ "" then (Ok, w) else
  match w.call env (Call.createDirectoryAll env.tempDir) with
  | (some _, w1) => (Err "Unable to create Geode temp directory", w1)
  | (none, w1) =>
    match w1.call env (Call.createDirectoryAll (pathJoin env.tempDir (w1.mod this).m_info.m_id)) with
    | (some _, w2) => (Err "Unable to create mod temp directory", w2)
    | (none, w2) =>
      match w2.call env (Call.unzipCreate (w2.mod this).m_info.m_path) with
      | (some e, w3) => (Err e, w3)
      | (none, w3) =>
        match w3.call env
            (Call.unzipHasEntry (w3.mod this).m_info.m_path (w3.mod this).m_info.m_binaryName) with
        | (some _, w4) =>
          (Err ("Unable to find platform binary under the name \"" ++
            (w4.mod this).m_info.m_binaryName ++ "\""), w4)
        | (none, w4) =>
          match w4.call env (Call.unzipExtractAllTo (w4.mod this).m_info.m_path
              (pathJoin env.tempDir (w4.mod this).m_info.m_id)) with
          | (some e, w5) => (Err e, w5)
          | (none, w5) =>
            (Ok, w5.setMod this
              { w5.mod this with m_tempDirName := pathJoin env.tempDir (w5.mod this).m_info.m_id })

/-! ## Hooks and patches -/

/-- First loop of `Mod::enable`: `enableHook` on every hook, returning at the
first failure. -/
def Mod.enableHooks (env : Env) (this : Nat) : List Hook → World → Result × World
  | [], w => (Ok, w)
  | hook :: hooks, w =>
    match w.call env (Call.enableHook this hook) with
    | (some e, w1) => (Err e, w1)
    | (none, w1) => Mod.enableHooks env this hooks w1

/-- Second loop of `Mod::enable`: `apply` on every patch, returning at the
first failure. -/
def Mod.applyPatches (env : Env) (this : Nat) : List Patch → World → Result × World
  | [], w => (Ok, w)
  | patch :: patches, w =>
    match w.call env (Call.patchApply this patch) with
    | (some _, w1) => (Err ("Unable to apply patch at " ++ toString patch.m_address), w1)
    | (none, w1) => Mod.applyPatches env this patches w1

/-- First loop of `Mod::disable`: `disableHook` on every hook, returning at the
first failure. -/
def Mod.disableHooks (env : Env) (this : Nat) : List Hook → World → Result × World
  | [], w => (Ok, w)
  | hook :: hooks, w =>
    match w.call env (Call.disableHook this hook) with
    | (some e, w1) => (Err e, w1)
    | (none, w1) => Mod.disableHooks env this hooks w1

/-- Second loop of `Mod::disable`: `restore` on every patch, returning at the
first failure. -/
def Mod.restorePatches (env : Env) (this : Nat) : List Patch → World → Result × World
  | [], w => (Ok, w)
  | patch :: patches, w =>
    match w.call env (Call.patchRestore this patch) with
    | (some _, w1) => (Err ("Unable to restore patch at " ++ toString patch.m_address), w1)
    | (none, w1) => Mod.restorePatches env this patches w1

/-- `Mod::disable`. -/
def Mod.disable (env : Env) (this : Nat) (w : World) : Result × World :=
  if !(w.mod this).m_enabled then (Ok, w) else
  if !(w.mod this).m_info.m_supportsDisabling then (Err "Mod does not support disabling", w) else
  match Mod.disableHooks env this (w.mod this).m_hooks (w.post this ModEventType.Disabled) with
  | (.error e, w1) => (Err e, w1)
  | (.ok _, w1) =>
    match Mod.restorePatches env this (w1.mod this).m_patches w1 with
    | (.error e, w2) => (Err e, w2)
    | (.ok _, w2) => (Ok, w2.setMod this { w2.mod this with m_enabled := false })

/-! ## The mutually recursive operations -/

/-- The member functions that call one another across modules, as available
to a body: `none` is a call that does not return within the call depth. -/
structure Methods where
  loadBinary : Nat → World → Option (Result × World)
  unloadBinary : Nat → World → Option (Result × World)
  updateDependencyStates : Nat → World → Option (Bool × World)

/-- Modelled from the spec: `Loader::updateAllDependencies` (the registry's
notification that the dependency graph changed), which is not in `Mod.cpp`;
one resolution pass, `updateDependencyStates` on every module of the registry
in turn.  The list is the modules still to visit. -/
def Loader.updateAllDependenciesFrom (go : Methods) : List Nat → World → Option World
  | [], w => some w
  | i :: rest, w =>
    match go.updateDependencyStates i w with
    | none => none
    | some (_, w1) => Loader.updateAllDependenciesFrom go rest w1

/-- Modelled from the spec: `Loader::updateAllDependencies`, the pass over the
whole registry. -/
def Loader.updateAllDependencies (go : Methods) (w : World) : Option World :=
  Loader.updateAllDependenciesFrom go (List.range w.mods.length) w

/-- `Mod::enable`. -/
def Mod.enable (env : Env) (go : Methods) (this : Nat) (w : World) : Option (Result × World) :=
  if !(w.mod this).m_binaryLoaded then go.loadBinary this w else
  match Mod.enableHooks env this (w.mod this).m_hooks w with
  | (.error e, w1) => some (Err e, w1)
  | (.ok _, w1) =>
    match Mod.applyPatches env this (w1.mod this).m_patches w1 with
    | (.error e, w2) => some (Err e, w2)
    | (.ok _, w2) =>
      some (Ok, (w2.post this ModEventType.Enabled).setMod this
        { (w2.post this ModEventType.Enabled).mod this with m_enabled := true })

/-- The implicit entry point `m_implicitLoadFunc(this)`: the module's own code
runs and places its hooks and patches. -/
def Mod.implicitLoadFunc (env : Env) (this : Nat) (w : World) : World :=
  (w.emit (Effect.call (Call.implicitLoadFunc this) none)).setMod this
    { w.mod this with
      m_hooks := (w.mod this).m_hooks ++ (env.placed this w.trace.length).1
      m_patches := (w.mod this).m_patches ++ (env.placed this w.trace.length).2 }

/-- Lines 154 to 158 of `Mod::loadBinary`: the implicit entry point runs,
`m_binaryLoaded = true`, and the `Loaded` event is posted. -/
def Mod.markLoaded (env : Env) (this : Nat) (w : World) : World :=
  ((Mod.implicitLoadFunc env this w).setMod this
    { (Mod.implicitLoadFunc env this w).mod this with m_binaryLoaded := true }).post this
      ModEventType.Loaded

/-- Lines 160 to 163 of `Mod::loadBinary`: `loadData`, a failure of which is
only logged. -/
def Mod.loadDataOrWarn (env : Env) (this : Nat) (w : World) : World :=
  match Mod.loadData env this w with
  | (.error e, w1) =>
    w1.log Severity.Warning this
      ("Unable to load data for \"" ++ (w1.mod this).m_info.m_id ++ "\": " ++ e)
  | (.ok _, w1) => w1

/-- `Mod::loadBinary`.  A staging failure is returned through
`Result::expect`, which replaces its message. -/
def Mod.loadBinary (env : Env) (go : Methods) (this : Nat) (w : World) :
    Option (Result × World) :=
  if (w.mod this).m_binaryLoaded then some (Ok, w) else
  match Mod.createTempDir env this w with
  | (.error _, w1) => some (Err "Unable to create temp directory", w1)
  | (.ok _, w1) =>
    if (w1.mod this).hasUnresolvedDependencies then
      some (Err "Mod has unresolved dependencies", w1)
    else
      match w1.call env (Call.loadPlatformBinary this) with
      | (some e, w2) => some (Err e, w2)
      | (none, w2) =>
        match Loader.updateAllDependencies go
            (Mod.loadDataOrWarn env this (Mod.markLoaded env this w2)) with
        | none => none
        | some w3 =>
          match Mod.enable env go this w3 with
          | none => none
          | some (.error e, w4) => some (Err e, w4)
          | some (.ok _, w4) => some (Ok, w4)

/-- Lines 185 to 196 of `Mod::unloadBinary`: the `Unloaded` event is posted and
the hooks and patches are destroyed. -/
def Mod.destroyHandles (this : Nat) (w : World) : World :=
  (w.post this ModEventType.Unloaded).setMod this
    { (w.post this ModEventType.Unloaded).mod this with m_hooks := [], m_patches := [] }

/-- `Mod::unloadBinary`. -/
def Mod.unloadBinary (env : Env) (go : Methods) (this : Nat) (w : World) :
    Option (Result × World) :=
  if !(w.mod this).m_binaryLoaded then some (Ok, w) else
  if !(w.mod this).m_info.m_supportsUnloading then
    some (Err "Mod does not support unloading", w)
  else
    match Mod.saveData env this w with
    | (.error e, w1) => some (Err e, w1)
    | (.ok _, w1) =>
      match Mod.disable env this w1 with
      | (.error e, w2) => some (Err e, w2)
      | (.ok _, w2) =>
        match (Mod.destroyHandles this w2).call env (Call.unloadPlatformBinary this) with
        | (some e, w3) => some (Err e, w3)
        | (none, w3) =>
          match Loader.updateAllDependencies go
              (w3.setMod this { w3.mod this with m_binaryLoaded := false }) with
          | none => none
          | some w4 => some (Ok, w4)

/-- Last step of `Mod::uninstall`: `ghc::filesystem::remove` on the package,
the overload that throws.  It returns `true` when it has removed the file and
`false` when there was none, and it throws `filesystem_error` when the system
refuses; the exception leaves `uninstall`. -/
def Mod.removePackage (env : Env) (this : Nat) (w : World) : Completion × World :=
  match w.call env (Call.remove (w.mod this).m_info.m_path) with
  | (some e, w1) =>
    if env.throws (w.mod this).m_info.m_path w.trace.length then (Completion.thrown e, w1)
    else
      (Completion.returned
        (Err ("Unable to delete mod's .geode file! This might be due to insufficient " ++
          "permissions - try running GD as administrator.")), w1)
  | (none, w1) => (Completion.returned Ok, w1)

/-- `Mod::uninstall`. -/
def Mod.uninstall (env : Env) (go : Methods) (this : Nat) (w : World) :
    Option (Completion × World) :=
  if (w.mod this).m_info.m_supportsDisabling then
    match Mod.disable env this w with
    | (.error e, w1) => some (Completion.returned (Err e), w1)
    | (.ok _, w1) =>
      if (w1.mod this).m_info.m_supportsUnloading then
        match go.unloadBinary this w1 with
        | none => none
        | some (.error e, w2) => some (Completion.returned (Err e), w2)
        | some (.ok _, w2) => some (Mod.removePackage env this w2)
      else some (Mod.removePackage env this w1)
  else some (Mod.removePackage env this w)

/-- Lines 288 to 290 of `Mod::updateDependencyStates`, for the record `k` of
module `this`: a record without a target looks its id up in the registry. -/
def Mod.findDependency (this k : Nat) (w : World) : World :=
  if ((w.mod this).dep k).m_mod.isNone then
    w.setMod this ((w.mod this).setDep k
      { (w.mod this).dep k with m_mod := w.getLoadedMod ((w.mod this).dep k).m_id })
  else w

/-- Lines 291 to 319 of `Mod::updateDependencyStates`, for the record `k` of
module `this`: the state of the record is derived from its target. -/
def Mod.resolveDependency (go : Methods) (this k : Nat) (w : World) : Option World :=
  match ((w.mod this).dep k).m_mod with
  | some target =>
    match go.updateDependencyStates target w with
    | none => none
    | some (_, w1) =>
      if (w1.mod target).hasUnresolvedDependencies then
        some (w1.setDepState this k ModResolveState.Unresolved)
      else if !(w1.mod target).m_resolved then
        match go.loadBinary target
            ((w1.setResolved target true).setDepState this k ModResolveState.Resolved) with
        | none => none
        | some (.error e, w2) =>
          some ((w2.setDepState this k ModResolveState.Unloaded).log Severity.Error target e)
        | some (.ok _, w2) => some w2
      else if (w1.mod target).isEnabled then
        some (w1.setDepState this k ModResolveState.Loaded)
      else
        some (w1.setDepState this k ModResolveState.Disabled)
  | none => some (w.setDepState this k ModResolveState.Unloaded)

/-- Body of the loop of `Mod::updateDependencyStates` for the record `k` of
module `this`; the result tells whether the record was found unresolved. -/
def Mod.updateDependency (go : Methods) (this k : Nat) (w : World) : Option (Bool × World) :=
  match Mod.resolveDependency go this k (Mod.findDependency this k w) with
  | none => none
  | some w1 =>
    if ((w1.mod this).dep k).isUnresolved then
      match go.unloadBinary this (w1.setResolved this false) with
      | none => none
      | some (_, w2) => some (true, w2)
    else some (false, w1)

/-- Loop of `Mod::updateDependencyStates` over the records still to visit,
carrying the local `hasUnresolved`. -/
def Mod.updateDependenciesFrom (go : Methods) (this : Nat) :
    List Nat → Bool → World → Option (Bool × World)
  | [], hasUnresolved, w => some (hasUnresolved, w)
  | k :: rest, hasUnresolved, w =>
    match Mod.updateDependency go this k w with
    | none => none
    | some (unresolved, w1) =>
      Mod.updateDependenciesFrom go this rest (hasUnresolved || unresolved) w1

/-- Lines 327 and 328 of `Mod::updateDependencyStates`: the module is marked
resolved. -/
def Mod.markResolved (this : Nat) (w : World) : World :=
  (w.log Severity.Debug this
    ("All dependencies for " ++ (w.mod this).m_info.m_id ++ " found")).setResolved this true

/-- Lines 326 to 340 of `Mod::updateDependencyStates`: a module none of whose
records was found unresolved, and that was not resolved, is marked resolved and
is loaded if it is enabled.  The error line is the format
`"\x7b\x7d Error loading: \x7b\x7d"` with the arguments `this` and the message:
the module is the one of the log entry and its placeholder comes first in the
text, the rendering of a `Mod*` not being part of `Mod.cpp`. -/
def Mod.resolveSelf (go : Methods) (this : Nat) (hasUnresolved : Bool) (w : World) :
    Option (Bool × World) :=
  if !hasUnresolved && !(w.mod this).m_resolved then
    if ((Mod.markResolved this w).mod this).m_enabled then
      match go.loadBinary this
          ((Mod.markResolved this w).log Severity.Debug this
            ("Resolved & loading " ++ ((Mod.markResolved this w).mod this).m_info.m_id)) with
      | none => none
      | some (.error e, w1) =>
        some (hasUnresolved, w1.log Severity.Error this ("\x7b\x7d Error loading: " ++ e))
      | some (.ok _, w1) => some (hasUnresolved, w1)
    else
      some (hasUnresolved, (Mod.markResolved this w).log Severity.Debug this
        ("Resolved " ++ ((Mod.markResolved this w).mod this).m_info.m_id ++
          ", however not loading it as it is disabled"))
  else some (hasUnresolved, w)

/-- `Mod::updateDependencyStates`. -/
def Mod.updateDependencyStates (go : Methods) (this : Nat) (w : World) :
    Option (Bool × World) :=
  match Mod.updateDependenciesFrom go this
      (List.range (w.mod this).m_info.m_dependencies.length) false w with
  | none => none
  | some (hasUnresolved, w1) => Mod.resolveSelf go this hasUnresolved w1

/-- A call depth of zero: no call returns. -/
def Methods.bottom : Methods :=
  { loadBinary := fun _ _ => none
    unloadBinary := fun _ _ => none
    updateDependencyStates := fun _ _ => none }

/-- The member functions with calls nested at most `n` deep: a body at depth
`n + 1` calls the bodies at depth `n`. -/
def methods (env : Env) : Nat → Methods
  | 0 => Methods.bottom
  | n + 1 =>
    { loadBinary := fun this w => Mod.loadBinary env (methods env n) this w
      unloadBinary := fun this w => Mod.unloadBinary env (methods env n) this w
      updateDependencyStates := fun this w => Mod.updateDependencyStates (methods env n) this w }

/-! ## Running the operations -/

/-- The operations of the lifecycle controller and of the resolver, on the
module behind a `Mod*`, and the registry-wide pass. -/
inductive Op where
  | loadBinary (this : Nat)
  | unloadBinary (this : Nat)
  | enable (this : Nat)
  | disable (this : Nat)
  | uninstall (this : Nat)
  | updateDependencyStates (this : Nat)
  | updateAllDependencies

/-- State in which an operation ends, its calls nested at most `n` deep, and
`none` when it does not end within that depth; `uninstall` ends when it returns
or when the exception of the removal leaves it. -/
def Op.run (env : Env) (n : Nat) : Op → World → Option World
  | .loadBinary this, w => (Mod.loadBinary env (methods env n) this w).map (fun r => r.2)
  | .unloadBinary this, w => (Mod.unloadBinary env (methods env n) this w).map (fun r => r.2)
  | .enable this, w => (Mod.enable env (methods env n) this w).map (fun r => r.2)
  | .disable this, w => some (Mod.disable env this w).2
  | .uninstall this, w => (Mod.uninstall env (methods env n) this w).map (fun r => r.2)
  | .updateDependencyStates this, w =>
    (Mod.updateDependencyStates (methods env n) this w).map (fun r => r.2)
  | .updateAllDependencies, w => Loader.updateAllDependencies (methods env n) w

/-- A state reached from another by a sequence of operations that return. -/
inductive Runs (env : Env) : World → World → Prop where
  | refl (w : World) : Runs env w w
  | tail {w w1 w2 : World} (n : Nat) (op : Op) :
    Runs env w w1 → op.run env n w1 = some w2 → Runs env w w2

/-- The module as its `Loaded` events show it. -/
def Effect.seenLoaded : Effect → Option Mod
  | .post _ .Loaded seen => some seen
  | _ => none

/-! ## Scenarios -/

/-- Collaborators whose every call succeeds; the entry point of a module places
one hook and one patch. -/
def Scenario.env : Env :=
  { fails := fun _ _ => none
    parse := fun _ => .ok Json.null
    dump := fun _ => ""
    placed := fun this _ => ([Hook.mk this], [Patch.mk (4096 + this)])
    saved := fun _ _ => Json.null
    throws := fun _ _ => false
    tempDir := "temp" }

/-- Collaborators whose file system refuses to remove a file, by the exception,
and whose other calls succeed. -/
def Scenario.envRefused : Env :=
  { Scenario.env with
    fails := fun c _ =>
      match c with
      | Call.remove _ => some "Permission denied"
      | _ => none
    throws := fun _ _ => true }

/-- A freshly constructed module: nothing loaded, staged or resolved, every
dependency record required, `Unloaded` and without a target yet.  The flag
`enabled` is the initial value of `m_enabled`. -/
def Scenario.mkMod (id : String) (deps : List String) (supportsDisabling supportsUnloading : Bool)
    (enabled : Bool) : Mod :=
  { m_info :=
      { m_id := id
        m_path := id ++ ".geode"
        m_binaryName := id ++ ".so"
        m_supportsDisabling := supportsDisabling
        m_supportsUnloading := supportsUnloading
        m_dependencies := deps.map (fun d => Dependency.mk d true ModResolveState.Unloaded none)
        m_settings := [] }
    m_saveDirPath := "mods/" ++ id
    m_tempDirName := ""
    m_binaryLoaded := false
    m_enabled := enabled
    m_resolved := false
    m_hooks := []
    m_patches := []
    m_saved := Json.null }

/-- A registry holding one module without dependencies, loaded and enabled,
with one hook and one patch. -/
def Scenario.single (supportsDisabling supportsUnloading : Bool) : World :=
  { mods := [{ (Scenario.mkMod "a" [] supportsDisabling supportsUnloading true) with
      m_binaryLoaded := true, m_resolved := true, m_hooks := [⟨1⟩], m_patches := [⟨4096⟩] }]
    files := []
    trace := [] }

/-- The chain of the convergence property: `a` requires `b`, `b` requires `c`,
`c` has no dependency; each module with its two capabilities, all three with
the same initial value of `m_enabled`. -/
def Scenario.chainMods (da ua db ub dc uc enabled : Bool) : List Mod :=
  [Scenario.mkMod "a" ["b"] da ua enabled, Scenario.mkMod "b" ["c"] db ub enabled,
    Scenario.mkMod "c" [] dc uc enabled]

/-- The registry right after registration of the chain, the modules stored in
the order `layout` (a list of positions in `chainMods`). -/
def Scenario.chain (layout : List Nat) (da ua db ub dc uc enabled : Bool) : World :=
  { mods := layout.map (fun i => (Scenario.chainMods da ua db ub dc uc enabled).getD i default)
    files := []
    trace := [] }

/-- The six orders of three modules. -/
def Scenario.orders : List (List Nat) :=
  [[0, 1, 2], [0, 2, 1], [1, 0, 2], [1, 2, 0], [2, 0, 1], [2, 1, 0]]

/-- Whether every module of the registry is loaded and enabled. -/
def World.allLoadedEnabled (w : World) : Bool :=
  w.mods.all (fun m => m.m_binaryLoaded && m.m_enabled)

/-- Whether no module of the registry is loaded. -/
def World.noneLoaded (w : World) : Bool :=
  w.mods.all (fun m => !m.m_binaryLoaded)

/-- The chain of the convergence property, in a registry of three modules
stored at the positions `a`, `b` and `c`: the module at `a` has one record,
required and not yet pointing to a module, under whose id the registry has the
module at `b`; the module at `b` has one such record for the module at `c`; the
module at `c` has no record; and the three modules are neither loaded nor
marked resolved, as right after registration, with `m_enabled` set. -/
structure World.Chain (w : World) (a b c : Nat) : Prop where
  length : w.mods.length = 3
  positions : a < 3 ∧ b < 3 ∧ c < 3 ∧ a ≠ b ∧ a ≠ c ∧ b ≠ c
  recordsA : (w.mod a).m_info.m_dependencies.length = 1
  requiredA : ((w.mod a).dep 0).m_required = true
  pendingA : ((w.mod a).dep 0).m_mod = none
  targetA : w.getLoadedMod ((w.mod a).dep 0).m_id = some b
  recordsB : (w.mod b).m_info.m_dependencies.length = 1
  requiredB : ((w.mod b).dep 0).m_required = true
  pendingB : ((w.mod b).dep 0).m_mod = none
  targetB : w.getLoadedMod ((w.mod b).dep 0).m_id = some c
  recordsC : (w.mod c).m_info.m_dependencies = []
  fresh : ∀ t, t < 3 → (w.mod t).m_binaryLoaded = false ∧ (w.mod t).m_resolved = false
  enabled : ∀ t, t < 3 → (w.mod t).m_enabled = true

/-! ## Atomic steps of the operations -/

/-- The fields of a module that only the lifecycle operations and the resolver
write are equal: metadata with the dependency records, save directory, the
three flags and the owned handles. -/
structure Mod.SameCore (m m' : Mod) : Prop where
  info : m'.m_info = m.m_info
  saveDir : m'.m_saveDirPath = m.m_saveDirPath
  loaded : m'.m_binaryLoaded = m.m_binaryLoaded
  enabled : m'.m_enabled = m.m_enabled
  resolved : m'.m_resolved = m.m_resolved
  hooks : m'.m_hooks = m.m_hooks
  patches : m'.m_patches = m.m_patches

/-- A stretch of execution that leaves the registry as it is up to staging
directories and saved values, and posts no `Loaded` event: collaborator calls,
other events, log lines, file writes.  The saved values of a module change
only when its `saved.json` is read. -/
structure Frame (w w' : World) : Prop where
  length : w'.mods.length = w.mods.length
  core : ∀ i, Mod.SameCore (w.mod i) (w'.mod i)
  trace : ∃ l, w'.trace = w.trace ++ l ∧ ∀ e ∈ l, e.seenLoaded = none
  saved : ∀ i, (w'.mod i).m_saved = (w.mod i).m_saved ∨
    ∃ l r, w'.trace = w.trace ++ l ∧
      Effect.call (Call.readString (pathJoin (w.mod i).m_saveDirPath "saved.json")) r ∈ l

/-- The assignments of `Mod.cpp` to the flags `m_binaryLoaded` and `m_enabled`
and to the owned handles, each with what the code has established when it
makes it, and the stretches in between. -/
inductive FlagStep : World → World → Prop where
  | frame {w w' : World} : Frame w w' → FlagStep w w'
  /-- Entry point run, `m_binaryLoaded = true` and the `Loaded` event, in `loadBinary` -/
  | load {w w' : World} (this : Nat) (hooks : List Hook) (patches : List Patch) (e : Effect) :
    (w.mod this).m_binaryLoaded = false →
    (w.mod this).hasUnresolvedDependencies = false →
    e.seenLoaded = none →
    w'.mods = w.mods.set this
      { w.mod this with m_hooks := hooks, m_patches := patches, m_binaryLoaded := true } →
    w'.trace = w.trace ++ [e, Effect.post this ModEventType.Loaded (w'.mod this)] →
    FlagStep w w'
  /-- The `Enabled` event and `m_enabled = true`, in `enable` -/
  | enable {w w' : World} (this : Nat) :
    (w.mod this).m_binaryLoaded = true →
    w'.mods = w.mods.set this { w.mod this with m_enabled := true } →
    w'.trace = w.trace ++ [Effect.post this ModEventType.Enabled (w.mod this)] →
    FlagStep w w'
  /-- Assignment `m_enabled = false`, in `disable` -/
  | disable {w w' : World} (this : Nat) :
    w'.mods = w.mods.set this { w.mod this with m_enabled := false } →
    w'.trace = w.trace →
    FlagStep w w'
  /-- Destruction of the hooks and patches, in `unloadBinary` -/
  | clear {w w' : World} (this : Nat) :
    (w.mod this).m_enabled = false →
    w'.mods = w.mods.set this { w.mod this with m_hooks := [], m_patches := [] } →
    w'.trace = w.trace →
    FlagStep w w'
  /-- Assignment `m_binaryLoaded = false`, in `unloadBinary` -/
  | unload {w w' : World} (this : Nat) :
    (w.mod this).m_enabled = false →
    (w.mod this).m_hooks = [] →
    (w.mod this).m_patches = [] →
    w'.mods = w.mods.set this { w.mod this with m_binaryLoaded := false } →
    w'.trace = w.trace →
    FlagStep w w'

/-- The atomic steps of `Mod.cpp`: those of `FlagStep`, made by the lifecycle
operations, and the assignments that `updateDependencyStates` makes to
`m_resolved` and to the dependency records. -/
inductive Step : World → World → Prop where
  | flag {w w' : World} : FlagStep w w' → Step w w'
  /-- Assignment to `m_resolved`, in `updateDependencyStates` -/
  | setResolved {w w' : World} (this : Nat) (b : Bool) :
    (b = false → (w.mod this).hasUnresolvedDependencies = true) →
    w'.mods = w.mods.set this { w.mod this with m_resolved := b } →
    w'.trace = w.trace →
    Step w w'
  /-- Assignment `dep.m_mod = getLoadedMod(dep.m_id)`, in `updateDependencyStates` -/
  | setDepMod {w w' : World} (this k : Nat) :
    ((w.mod this).dep k).m_mod = none →
    w'.mods = w.mods.set this ((w.mod this).setDep k
      { (w.mod this).dep k with m_mod := w.getLoadedMod ((w.mod this).dep k).m_id }) →
    w'.trace = w.trace →
    Step w w'
  /-- Assignment to `dep.m_state`, in `updateDependencyStates` -/
  | setDepState {w w' : World} (this k : Nat) (s : ModResolveState) :
    (((w.mod this).dep k).m_mod = none → s = ModResolveState.Unloaded) →
    w'.mods = w.mods.set this ((w.mod this).setDep k { (w.mod this).dep k with m_state := s }) →
    w'.trace = w.trace →
    Step w w'

/-- What the lifecycle operations do between the calls they make to the three
mutually recursive functions: a sequence of flag steps and of calls, a call
being any transition of the relation `C`. -/
abbrev FlagRuns (C : World → World → Prop) : World → World → Prop :=
  Relation.ReflTransGen (fun w w' => FlagStep w w' ∨ C w w')

/-- Every call of the three functions that returns is a transition of `C`. -/
structure Methods.Within (go : Methods) (C : World → World → Prop) : Prop where
  loadBinary : ∀ this w r w', go.loadBinary this w = some (r, w') → C w w'
  unloadBinary : ∀ this w r w', go.unloadBinary this w = some (r, w') → C w w'
  updateDependencyStates :
    ∀ this w r w', go.updateDependencyStates this w = some (r, w') → C w w'

/-- A sequence of atomic steps. -/
abbrev Steps : World → World → Prop := Relation.ReflTransGen Step

/-- Every call of the three functions that returns is a sequence of atomic
steps. -/
abbrev Methods.Sound (go : Methods) : Prop := go.Within Steps

/-! ## Invariants -/

/-- The invariant `enabled ⟹ binaryLoaded`, on every module of the registry. -/
def World.EnabledImpliesLoaded (w : World) : Prop :=
  ∀ m ∈ w.mods, m.m_enabled = true → m.m_binaryLoaded = true

/-- A module with a dependency on a module that is not installed: the record
`k` of module `this` is unresolved (required, and in one of the states
`Unloaded`, `Unresolved`, `Disabled`), has no target, its id is not in the
registry, and the module is not loaded. -/
structure World.MissingDependency (w : World) (this k : Nat) : Prop where
  unresolved : ((w.mod this).dep k).isUnresolved = true
  noTarget : ((w.mod this).dep k).m_mod = none
  absent : w.getLoadedMod ((w.mod this).dep k).m_id = none
  notLoaded : (w.mod this).m_binaryLoaded = false

/-- Collaborators that refuse to create a directory and succeed otherwise. -/
def Scenario.envNoDirectory : Env :=
  { Scenario.env with
    fails := fun c _ =>
      match c with
      | Call.createDirectoryAll _ => some "denied"
      | _ => none }

/-- A registry holding one module, not loaded, that requires the module "z",
which is not installed. -/
def Scenario.orphan : World :=
  { mods := [Scenario.mkMod "a" ["z"] true true false]
    files := []
    trace := [] }

/-- The collaborator calls that `unloadBinary` makes for module `this` before
it notifies the registry: saving its settings, writing its two documents,
disabling its hooks, restoring its patches, unloading its binary. -/
def Call.unloads (this : Nat) : Call → Bool
  | .settingSave i _ _ => i == this
  | .writeString _ _ => true
  | .disableHook i _ => i == this
  | .patchRestore i _ => i == this
  | .unloadPlatformBinary i => i == this
  | _ => false

/-- The module is unloaded, disabled and owns no hook and no patch. -/
structure Mod.Unloaded (m : Mod) : Prop where
  notLoaded : m.m_binaryLoaded = false
  notEnabled : m.m_enabled = false
  noHooks : m.m_hooks = []
  noPatches : m.m_patches = []

/-! ## The forced unload cascade -/

/-- Module `a` requires module `b` through its record `k`: the record is
required and its target is `b`, already found or still to be looked up by id. -/
def World.Requires (w : World) (a k b : Nat) : Prop :=
  ((w.mod a).dep k).m_required = true ∧
    (((w.mod a).dep k).m_mod = some b ∨
      (((w.mod a).dep k).m_mod = none ∧ w.getLoadedMod ((w.mod a).dep k).m_id = some b))

/-- Module `b` has been loaded again since the state `w0`: a `Loaded` event of
`b` is among the effects added to the trace of `w0`. -/
def World.LoadedSince (w0 : World) (b : Nat) (w : World) : Prop :=
  ∃ l seen, w.trace = w0.trace ++ l ∧ Effect.post b ModEventType.Loaded seen ∈ l

/-- `disable` on module `a` does not refuse: the module is not enabled, or it
supports disabling (`disable` returns success on a module that is not enabled
before it looks at the capability). -/
def World.Calm (w : World) (a : Nat) : Prop :=
  (w.mod a).m_enabled = true → (w.mod a).m_info.m_supportsDisabling = true

/-- While `b` is down, `a` is held back: `b` is neither loaded nor enabled, `a`
is not resolved, its record `k` is unresolved and, when `c` is set, `a` is not
loaded and `disable` on it does not refuse. -/
structure World.Held (w : World) (a k b : Nat) (c : Bool) : Prop where
  targetNotLoaded : (w.mod b).m_binaryLoaded = false
  targetNotEnabled : (w.mod b).m_enabled = false
  notResolved : (w.mod a).m_resolved = false
  unresolved : ((w.mod a).dep k).isUnresolved = true
  notLoaded : c = true → (w.mod a).m_binaryLoaded = false
  calm : c = true → w.Calm a

/-- What is fixed through the cascade: `a` requires `b` through its record
`k` and, when `c` is set, `a` supports unloading. -/
def World.Static (w : World) (a k b : Nat) (c : Bool) : Prop :=
  w.Requires a k b ∧ (c = true → (w.mod a).m_info.m_supportsUnloading = true)

/-- The state the cascade starts from: `a` requires `b`, which is neither
loaded nor enabled, and when `c` is set, `a` can be unloaded. -/
structure World.Ready (w : World) (a k b : Nat) (c : Bool) : Prop where
  static : w.Static a k b c
  targetNotLoaded : (w.mod b).m_binaryLoaded = false
  targetNotEnabled : (w.mod b).m_enabled = false
  calm : c = true → w.Calm a

/-- A stretch of execution that keeps the cascade: a sequence of atomic steps
after which `a` is still held back if it was, unless `b` has been loaded again
in the stretch. -/
def World.Keeps (a k b : Nat) (c : Bool) (w w' : World) : Prop :=
  Steps w w' ∧ (w.Static a k b c → w.Held a k b c → w'.Held a k b c ∨ w.LoadedSince b w')

/-- A stretch of execution before the cascade: a sequence of atomic steps after
which the cascade can still start if it could, unless `b` has been loaded again
in the stretch. -/
def World.Quiet (a k b : Nat) (c : Bool) (w w' : World) : Prop :=
  Steps w w' ∧ (w.Ready a k b c → w'.Ready a k b c ∨ w.LoadedSince b w')

/-- A registry of two modules: `a`, loaded, enabled and resolved, requires `b`
through a record in state `Loaded` that points to it; `b` has no dependency and
is unloaded and disabled.  The flag is whether `a` supports unloading. -/
def Scenario.pair (supportsUnloading : Bool) : World :=
  { mods :=
      [{ (Scenario.mkMod "a" [] true supportsUnloading true) with
          m_info := { (Scenario.mkMod "a" [] true supportsUnloading true).m_info with
            m_dependencies := [Dependency.mk "b" true ModResolveState.Loaded (some 1)] }
          m_binaryLoaded := true, m_resolved := true, m_tempDirName := "temp/a" },
        { (Scenario.mkMod "b" [] true true false) with m_resolved := true }]
    files := []
    trace := [] }


/-- A registry of two modules that require each other: both are loaded, enabled
and resolved, support disabling and unloading, and the record of each points to
the other. -/
def Scenario.cycle : World :=
  { mods :=
      [{ (Scenario.mkMod "a" [] true true true) with
          m_info := { (Scenario.mkMod "a" [] true true true).m_info with
            m_dependencies := [Dependency.mk "b" true ModResolveState.Loaded (some 1)] }
          m_binaryLoaded := true, m_resolved := true, m_tempDirName := "temp/a" },
        { (Scenario.mkMod "b" [] true true true) with
          m_info := { (Scenario.mkMod "b" [] true true true).m_info with
            m_dependencies := [Dependency.mk "a" true ModResolveState.Loaded (some 0)] }
          m_binaryLoaded := true, m_resolved := true, m_tempDirName := "temp/b" }]
    files := []
    trace := [] }

/-! ## Effects of an operation -/

/-- The effects added to the trace between two states all satisfy `P`. -/
def World.Adds (P : Effect → Prop) (w w' : World) : Prop :=
  ∃ l, w'.trace = w.trace ++ l ∧ ∀ e ∈ l, P e

/-- Whether an effect deactivates a module: a hook disabled, a patch restored,
the platform binary unloaded, or the `Disabled` or `Unloaded` event. -/
def Effect.deactivates : Effect → Bool
  | .call (.disableHook _ _) _ => true
  | .call (.patchRestore _ _) _ => true
  | .call (.unloadPlatformBinary _) _ => true
  | .post _ .Disabled _ => true
  | .post _ .Unloaded _ => true
  | _ => false

/-- What `saveData` adds to the trace: the `DataSaved` event, the saving of the
settings and the writing of the two documents. -/
def Effect.savesData (this : Nat) (e : Effect) : Prop :=
  (∃ seen, e = Effect.post this ModEventType.DataSaved seen) ∨
    (∃ key sett r, e = Effect.call (Call.settingSave this key sett) r) ∨
    (∃ path text r, e = Effect.call (Call.writeString path text) r)


/-- Collaborators that refuse to write a file and succeed otherwise. -/
def Scenario.envNoWrite : Env :=
  { Scenario.env with
    fails := fun c _ =>
      match c with
      | Call.writeString _ _ => some "disk full"
      | _ => none }

/-- Collaborators that refuse to apply the patch at address 4097 and succeed
otherwise. -/
def Scenario.envNoPatch : Env :=
  { Scenario.env with
    fails := fun c _ =>
      match c with
      | Call.patchApply _ ⟨4097⟩ => some "refused"
      | _ => none }

/-- A registry holding one module, loaded and not enabled, with two hooks and
three patches. -/
def Scenario.patched : World :=
  { mods := [{ (Scenario.mkMod "a" [] true true false) with
      m_binaryLoaded := true, m_resolved := true, m_hooks := [⟨1⟩, ⟨2⟩],
      m_patches := [⟨4096⟩, ⟨4097⟩, ⟨4098⟩] }]
    files := []
    trace := [] }

/-! ## Sprite names -/

/-- `Mod::expandSpriteName`.  The function-local `static` map `expanded` is one
object for the whole process, shared by every module; it is passed in and
returned, as the list of its entries in insertion order.  A name that has an
entry returns it; otherwise the expansion `m_id + "/" + name` is entered under
the name and returned. -/
def Mod.expandSpriteName (m : Mod) (name : String) (expanded : List (String × String)) :
    String × List (String × String) :=
  match expanded.find? (fun kv => kv.1 == name) with
  | some kv => (kv.2, expanded)
  | none => (m.m_info.m_id ++ "/" ++ name, expanded ++ [(name, m.m_info.m_id ++ "/" ++ name)])

/-- The map `expanded` after a sequence of calls of `expandSpriteName`, each
given as the module it is called on and the name. -/
def World.expandAll (w : World) :
    List (Nat × String) → List (String × String) → List (String × String)
  | [], expanded => expanded
  | (i, name) :: calls, expanded =>
    w.expandAll calls ((w.mod i).expandSpriteName name expanded).2

/-! ## Loading the settings document -/

/-- What the loop of `loadData` over the settings document does for one member
when no value is rejected: the `load` of the setting declared under the key,
with the value, or the warning about an unknown key. -/
def Mod.settingEffect (m : Mod) (this : Nat) (kv : String × Json) : Effect :=
  match m.getSetting kv.1 with
  | some sett => Effect.call (Call.settingLoad this kv.1 sett kv.2) none
  | none =>
    Effect.log Severity.Warning this
      ("Encountered unknown setting \"" ++ kv.1 ++ "\" while loading settings")

/-- Collaborators whose parser accepts only the text of an empty object, as a document with
the one member `volume`, and whose other calls succeed. -/
def Scenario.envStrict : Env :=
  { Scenario.env with
    parse := fun text =>
      if text = "\x7b\x7d" then .ok (Json.object [("volume", Json.number 3)])
      else .error "syntax error" }

/-- A registry holding one module without declared settings, whose save
directory holds a settings document and a saved-values document that does not
parse. -/
def Scenario.stored : World :=
  { mods := [Scenario.mkMod "a" [] true true false]
    files := [("mods/a/settings.json", "\x7b\x7d"), ("mods/a/saved.json", "\x7b")]
    trace := [] }

/-- Collaborators whose parser reads the text "theme volume" as a document with
the members `theme` and `volume`, in this order, and whose calls succeed. -/
def Scenario.envSettings : Env :=
  { Scenario.env with
    parse := fun text =>
      if text = "theme volume" then
        .ok (Json.object [("theme", Json.string "dark"), ("volume", Json.number 3)])
      else .error "syntax error" }

/-- A registry holding one module that declares the setting `volume`, whose
save directory holds a settings document and no saved values. -/
def Scenario.configured : World :=
  { mods := [{ (Scenario.mkMod "a" [] true true false) with
      m_info := { (Scenario.mkMod "a" [] true true false).m_info with
        m_settings := [("volume", ⟨7⟩)] } }]
    files := [("mods/a/settings.json", "theme volume")]
    trace := [] }

/-- Whether an effect disables a hook or restores a patch. -/
def Effect.releasesHandle : Effect → Bool
  | .call (.disableHook _ _) _ => true
  | .call (.patchRestore _ _) _ => true
  | _ => false

/-- Whether an effect writes a file of persisted data. -/
def Effect.writesData : Effect → Bool
  | .call (.writeString _ _) _ => true
  | _ => false

/-- Collaborators whose parser rejects every text and whose calls succeed. -/
def Scenario.envNoParse : Env :=
  { Scenario.env with parse := fun _ => .error "syntax error" }

/-- A registry holding one module, freshly constructed, whose save directory
holds a saved-values document. -/
def Scenario.fresh : World :=
  { mods := [Scenario.mkMod "a" [] true true false]
    files := [("mods/a/saved.json", "\x7b")]
    trace := [] }

/-! ## Saved values -/

/-- Between two states the saved values of module `i` are kept unless its
`saved.json` has been read: the save directory is the same, the trace has only
grown, and `m_saved` is the same or a `readString` of the document is among the
effects added. -/
structure World.SavedKept (i : Nat) (w w' : World) : Prop where
  saveDir : (w'.mod i).m_saveDirPath = (w.mod i).m_saveDirPath
  grown : ∃ l, w'.trace = w.trace ++ l
  saved : (w'.mod i).m_saved = (w.mod i).m_saved ∨
    ∃ l r, w'.trace = w.trace ++ l ∧
      Effect.call (Call.readString (pathJoin (w.mod i).m_saveDirPath "saved.json")) r ∈ l

/-- Collaborators whose parser reads the dump of a string value back: the
serialiser writes a string value as its characters and any other value as the
empty text, the parser reads a text as the string value of its characters; the
calls succeed. -/
def Scenario.envRoundTrip : Env :=
  { Scenario.env with
    dump := fun json =>
      match json with
      | Json.string text => text
      | _ => ""
    parse := fun text => .ok (Json.string text) }

/-- The registry `Scenario.single true true` with the saved values "coins" in
its module. -/
def Scenario.keeper : World :=
  { mods := [{ (Scenario.single true true).mod 0 with m_saved := Json.string "coins" }]
    files := []
    trace := [] }

/-- The registry `Scenario.keeper` after its module has been unloaded with the
collaborators `Scenario.envRoundTrip`. -/
def Scenario.unloaded : World :=
  (((methods Scenario.envRoundTrip 3).unloadBinary 0 Scenario.keeper).map
    (fun p => p.2)).getD Scenario.keeper

/-- Deterministic collaborators: the outcome of a call and the value a setting
saves do not depend on the time the call is made. -/
structure Env.Deterministic (env : Env) : Prop where
  fails : ∀ c t t', env.fails c t = env.fails c t'
  saved : ∀ s t t', env.saved s t = env.saved s t'

/-- What `unloadBinary` reads of a module is the same in two states of it. -/
structure Mod.SameUnload (m m' : Mod) : Prop where
  loaded : m'.m_binaryLoaded = m.m_binaryLoaded
  enabled : m'.m_enabled = m.m_enabled
  supportsDisabling : m'.m_info.m_supportsDisabling = m.m_info.m_supportsDisabling
  supportsUnloading : m'.m_info.m_supportsUnloading = m.m_info.m_supportsUnloading
  settings : m'.m_info.m_settings = m.m_info.m_settings
  saveDir : m'.m_saveDirPath = m.m_saveDirPath
  saved : m'.m_saved = m.m_saved
  hooks : m'.m_hooks = m.m_hooks
  patches : m'.m_patches = m.m_patches

/-- A module that `unloadBinary` leaves as it is: it is not loaded, or does not
support unloading, or its data cannot be saved, or it is enabled and cannot be
disabled, or it is disabled without handles and the platform refuses to unload
it. -/
def World.Stuck (env : Env) (w : World) (t : Nat) : Prop :=
  (w.mod t).m_binaryLoaded = false ∨ (w.mod t).m_info.m_supportsUnloading = false ∨
    (Mod.saveData env t w).1.isOk = false ∨
    ((w.mod t).m_enabled = true ∧ (Mod.disable env t w).1.isOk = false) ∨
    ((w.mod t).m_enabled = false ∧ (w.mod t).m_hooks = [] ∧ (w.mod t).m_patches = [] ∧
      (env.fails (Call.unloadPlatformBinary t) 0).isSome = true)

/-- With deterministic collaborators, a stretch of execution keeps the modules
whose dependencies cannot be met and that are stuck as they are: stuck, and with
the same `m_enabled` and `m_binaryLoaded`. -/
def World.Kept (env : Env) (S : Nat → Bool) (w w' : World) : Prop :=
  env.Deterministic → ∀ t, S t = false → w.Stuck env t →
    w'.Stuck env t ∧ (w'.mod t).m_enabled = (w.mod t).m_enabled ∧
      (w'.mod t).m_binaryLoaded = (w.mod t).m_binaryLoaded

/-- The module a dependency record points to: its `m_mod` once it is set, and
before that the module the registry has under its id. -/
def World.target (w : World) (t k : Nat) : Option Nat :=
  match ((w.mod t).dep k).m_mod with
  | some b => some b
  | none => w.getLoadedMod ((w.mod t).dep k).m_id

/-- The dependency graph is acyclic and every target is a module of the
registry: along every record the rank goes down, and the ranks are below `N`. -/
structure World.Ranked (w : World) (rank : Nat → Nat) (N : Nat) : Prop where
  bound : ∀ t, rank t < N
  target : ∀ t k b, k < (w.mod t).m_info.m_dependencies.length → w.target t k = some b →
    b < w.mods.length ∧ rank b < rank t

/-- Whether the record `k` of module `t` can be met: it is not required, or
its target is present, enabled as `E` tells and itself satisfiable as `S`
tells. -/
def World.satisfiedAt (w : World) (E S : Nat → Bool) (t k : Nat) : Bool :=
  !((w.mod t).dep k).m_required ||
    match w.target t k with
    | some b => E b && S b
    | none => false

/-- Whether every record of module `t` can be met. -/
def World.satisfied (w : World) (E S : Nat → Bool) (t : Nat) : Bool :=
  (List.range (w.mod t).m_info.m_dependencies.length).all (fun k => w.satisfiedAt E S t k)

/-- Whether the dependencies of a module can be met, looking `n` records deep:
every required record has a present and enabled target of which the same
holds. -/
def World.sat (w : World) (E : Nat → Bool) : Nat → Nat → Bool
  | 0, _ => true
  | n + 1, t => w.satisfied E (w.sat E n) t

/-- The state `updateDependencyStates` gives to a record, from its target. -/
def World.canonical (E S : Nat → Bool) : Option Nat → ModResolveState
  | none => ModResolveState.Unloaded
  | some b =>
    if S b then (if E b then ModResolveState.Loaded else ModResolveState.Disabled)
    else ModResolveState.Unresolved

/-- The registry agrees with `E`, `S` and `R`: `S` tells of every module whether
its dependencies can be met, the modules of which it holds are enabled as `E`
tells, and those of them that are not marked resolved were not when the pass
began, as `R` tells. -/
structure World.Base (w : World) (rank : Nat → Nat) (N : Nat) (E S R : Nat → Bool) : Prop where
  ranked : w.Ranked rank N
  fix : ∀ t, S t = w.satisfied E S t
  enabled : ∀ t, S t = true → (w.mod t).m_enabled = E t
  unresolved : ∀ t, S t = true → (w.mod t).m_resolved = false → R t = false

/-- The records of module `t` and its `m_resolved` are as a resolution pass
leaves them, and with deterministic collaborators the module is stuck if its
dependencies cannot be met. -/
structure World.Settled (w : World) (env : Env) (E S : Nat → Bool) (t : Nat) : Prop where
  records : ∀ k, k < (w.mod t).m_info.m_dependencies.length →
    ((w.mod t).dep k).m_state = World.canonical E S (w.target t k)
  resolved : (w.mod t).m_resolved = S t
  stuck : env.Deterministic → S t = false → w.Stuck env t

/-- A module whose binary is not where the pass will leave it: loaded while its
dependencies cannot be met, or enabled with all dependencies met and not
loaded. -/
def World.misplaced (w : World) (E S : Nat → Bool) (t : Nat) : Bool :=
  ((w.mod t).m_binaryLoaded && !S t) || (!(w.mod t).m_binaryLoaded && S t && E t)

/-- Number of misplaced modules of the registry. -/
def World.misplacedCount (w : World) (E S : Nat → Bool) : Nat :=
  (List.range w.mods.length).countP (fun t => w.misplaced E S t)

/-- The graph of two states is the same: modules, records, what is required
and the targets. -/
structure World.SameGraph (w w' : World) : Prop where
  length : w'.mods.length = w.mods.length
  deps : ∀ t, (w'.mod t).m_info.m_dependencies.length = (w.mod t).m_info.m_dependencies.length
  required : ∀ t k, ((w'.mod t).dep k).m_required = ((w.mod t).dep k).m_required
  target : ∀ t k, w'.target t k = w.target t k

/-- What a stretch of a resolution pass does to a registry that agrees with
`E`, `S` and `R`: the graph stays, a module whose dependencies can be met keeps
`m_enabled`, `m_binaryLoaded` changes only to what `S` tells, and to `true`
only on an enabled module that was not marked resolved when the pass began,
a `m_resolved` that is as the pass leaves it stays so, and the state of a
record changes only to the state the pass gives it. -/
structure World.Pass (E S R : Nat → Bool) (w w' : World) : Prop where
  graph : World.SameGraph w w'
  enabled : ∀ t, S t = true → (w'.mod t).m_enabled = (w.mod t).m_enabled
  loaded : ∀ t, (w'.mod t).m_binaryLoaded = (w.mod t).m_binaryLoaded ∨
    ((w'.mod t).m_binaryLoaded = S t ∧ (S t = true → E t = true ∧ R t = false))
  resolved : ∀ t, (w.mod t).m_resolved = S t → (w'.mod t).m_resolved = S t
  states : ∀ t k, ((w'.mod t).dep k).m_state = ((w.mod t).dep k).m_state ∨
    ((w'.mod t).dep k).m_state = World.canonical E S (w.target t k)

/-- Module `t` has landed: if its dependencies can be met and it is enabled and
marked resolved, its binary is loaded. -/
def World.Landed (S : Nat → Bool) (w : World) (t : Nat) : Prop :=
  S t = true → (w.mod t).m_enabled = true → (w.mod t).m_resolved = true →
    (w.mod t).m_binaryLoaded = true

/-- With collaborators whose calls all succeed, a stretch of execution leaves
landed the modules that had landed. -/
def World.Lands (env : Env) (S : Nat → Bool) (w w' : World) : Prop :=
  (∀ c x, env.fails c x = none) → ∀ t, w.Landed S t → w'.Landed S t

/-- With collaborators whose calls all succeed, a stretch of execution that
loads module `t`, which has no unresolved dependency, leaves `t` landed, and
the other modules that had landed. -/
def World.LandsBut (env : Env) (S : Nat → Bool) (t : Nat) (w w' : World) : Prop :=
  (∀ c x, env.fails c x = none) → (w.mod t).hasUnresolvedDependencies = false →
    ∀ u, (u ≠ t → w.Landed S u) → w'.Landed S u

/-- Calls of `updateDependencyStates` on modules of rank at most `r`, in a
registry that agrees with `E` and `S` and has at most `M` misplaced modules,
return: they tell whether the dependencies cannot be met, leave the module
settled and, with succeeding collaborators, leave landed what had landed. -/
def Methods.Resolves (go : Methods) (env : Env) (rank : Nat → Nat) (N : Nat)
    (E S R : Nat → Bool) (M r : Nat) : Prop :=
  ∀ t w, w.Base rank N E S R → w.misplacedCount E S ≤ M → rank t ≤ r → t < w.mods.length →
    ∃ w', go.updateDependencyStates t w = some (!S t, w') ∧ World.Pass E S R w w' ∧
      World.Kept env S w w' ∧ World.Lands env S w w' ∧ w'.Settled env E S t

/-- Calls of `unloadBinary` on modules whose dependencies cannot be met return,
in a registry with at most `M` misplaced modules; with deterministic
collaborators they leave the module stuck, and with succeeding collaborators
they leave landed what had landed. -/
def Methods.Unloads (go : Methods) (env : Env) (rank : Nat → Nat) (N : Nat)
    (E S R : Nat → Bool) (M : Nat) : Prop :=
  ∀ t w, w.Base rank N E S R → w.misplacedCount E S ≤ M → t < w.mods.length → S t = false →
    ∃ r w', go.unloadBinary t w = some (r, w') ∧ World.Pass E S R w w' ∧
      World.Kept env S w w' ∧ World.Lands env S w w' ∧ (env.Deterministic → w'.Stuck env t)

/-- Calls of `loadBinary` on enabled modules whose dependencies can be met and
that were not marked resolved when the pass began return, in a registry with at
most `M` misplaced modules; with succeeding collaborators they leave the module
landed if it has no unresolved dependency. -/
def Methods.Loads (go : Methods) (env : Env) (rank : Nat → Nat) (N : Nat)
    (E S R : Nat → Bool) (M : Nat) : Prop :=
  ∀ t w, w.Base rank N E S R → w.misplacedCount E S ≤ M → t < w.mods.length → S t = true →
    E t = true → R t = false →
    ∃ r w', go.loadBinary t w = some (r, w') ∧ World.Pass E S R w w' ∧
      World.Kept env S w w' ∧ World.LandsBut env S t w w'

/-- Every call that returns in `go` returns the same in `go'`. -/
structure Methods.Below (go go' : Methods) : Prop where
  loadBinary : ∀ t w x, go.loadBinary t w = some x → go'.loadBinary t w = some x
  unloadBinary : ∀ t w x, go.unloadBinary t w = some x → go'.unloadBinary t w = some x
  updateDependencyStates : ∀ t w x,
    go.updateDependencyStates t w = some x → go'.updateDependencyStates t w = some x

/-- The registry `Scenario.pair true` after a registry-wide resolution pass with
the collaborators `Scenario.env`. -/
def Scenario.settled : World :=
  (Loader.updateAllDependencies (methods Scenario.env 6) (Scenario.pair true)).getD
    (Scenario.pair true)

/-! ## Reading and writing the state -/

section Access

variable (w : World) (i j k : Nat) (m : Mod) (e : Effect)

@[simp] theorem World.emit_mods : (w.emit e).mods = w.mods := rfl
@[simp] theorem World.emit_mod : (w.emit e).mod i = w.mod i := rfl
@[simp] theorem World.emit_trace : (w.emit e).trace = w.trace ++ [e] := rfl
@[simp] theorem World.emit_files : (w.emit e).files = w.files := rfl
@[simp] theorem World.post_mods (t : ModEventType) : (w.post i t).mods = w.mods := rfl
@[simp] theorem World.post_mod (t : ModEventType) : (w.post i t).mod j = w.mod j := rfl
@[simp] theorem World.post_files (t : ModEventType) : (w.post i t).files = w.files := rfl
@[simp] theorem World.post_trace (t : ModEventType) :
    (w.post i t).trace = w.trace ++ [Effect.post i t (w.mod i)] := rfl
@[simp] theorem World.log_mods (s : Severity) (x : String) : (w.log s i x).mods = w.mods := rfl
@[simp] theorem World.log_mod (s : Severity) (x : String) : (w.log s i x).mod j = w.mod j := rfl
@[simp] theorem World.log_files (s : Severity) (x : String) : (w.log s i x).files = w.files := rfl
@[simp] theorem World.log_trace (s : Severity) (x : String) :
    (w.log s i x).trace = w.trace ++ [Effect.log s i x] := rfl
@[simp] theorem World.setMod_trace : (w.setMod i m).trace = w.trace := rfl
@[simp] theorem World.setMod_files : (w.setMod i m).files = w.files := rfl
@[simp] theorem World.setMod_length : (w.setMod i m).mods.length = w.mods.length := by
  simp [World.setMod]
@[simp] theorem World.writeFile_mods (p x : String) : (w.writeFile p x).mods = w.mods := rfl
@[simp] theorem World.writeFile_mod (p x : String) : (w.writeFile p x).mod i = w.mod i := rfl
@[simp] theorem World.writeFile_trace (p x : String) : (w.writeFile p x).trace = w.trace := rfl

theorem World.setMod_mod :
    (w.setMod i m).mod j = if i = j ∧ i < w.mods.length then m else w.mod j := by
  simp only [World.setMod, World.mod, List.getD_eq_getElem?_getD, List.getElem?_set]
  by_cases h : i = j
  · subst h
    by_cases h2 : i < w.mods.length
    · simp [h2]
    · simp [h2, List.getElem?_eq_none (Nat.le_of_not_lt h2)]
  · simp [h]

theorem World.setMod_mod_self (h : i < w.mods.length) : (w.setMod i m).mod i = m := by
  simp [World.setMod_mod, h]

theorem World.setMod_mod_ne (h : i ≠ j) : (w.setMod i m).mod j = w.mod j := by
  simp [World.setMod_mod, h]

theorem World.mod_of_le (h : w.mods.length ≤ i) : w.mod i = default := by
  unfold World.mod
  exact List.getD_eq_default _ _ h

theorem World.setMod_of_le (h : w.mods.length ≤ i) : w.setMod i m = w := by
  simp [World.setMod, List.set_eq_of_length_le h]

theorem World.call_fst (env : Env) (c : Call) :
    (w.call env c).1 = env.fails c w.trace.length := rfl

theorem World.call_snd (env : Env) (c : Call) :
    (w.call env c).2 = w.emit (Effect.call c (env.fails c w.trace.length)) := rfl

theorem World.call_eq {env : Env} {c : Call} {r : Option String} {w1 : World}
    (h : w.call env c = (r, w1)) :
    r = env.fails c w.trace.length ∧ w1 = w.emit (Effect.call c r) := by
  simp only [World.call, Prod.mk.injEq] at h
  obtain ⟨h1, h2⟩ := h
  subst h1
  exact ⟨rfl, h2.symm⟩

end Access

/-! ## Dependency records (C9) -/

theorem Mod.hasUnresolvedDependenciesIn_iff (deps : List Dependency) :
    Mod.hasUnresolvedDependenciesIn deps = true ↔ ∃ d ∈ deps, d.isUnresolved = true := by
  induction deps with
  | nil => simp [Mod.hasUnresolvedDependenciesIn]
  | cons d ds ih =>
    by_cases h : d.isUnresolved = true
    · simp [Mod.hasUnresolvedDependenciesIn, h]
    · simp [Mod.hasUnresolvedDependenciesIn, h, ih]

/-- C9: a dependency record is unresolved exactly when it is required and its
state is `Unloaded`, `Unresolved` or `Disabled`, and a module has unresolved
dependencies exactly when one of its records is unresolved. -/
theorem isUnresolved_iff_hasUnresolvedDependencies_iff :
    (∀ d : Dependency, d.isUnresolved = true ↔
      (d.m_required = true ∧ (d.m_state = ModResolveState.Unloaded ∨
        d.m_state = ModResolveState.Unresolved ∨ d.m_state = ModResolveState.Disabled))) ∧
    (∀ m : Mod, m.hasUnresolvedDependencies = true ↔
      ∃ d ∈ m.m_info.m_dependencies, d.isUnresolved = true) := by
  refine ⟨fun d => ?_, fun m => Mod.hasUnresolvedDependenciesIn_iff _⟩
  simp [Dependency.isUnresolved, or_assoc]

/-! ## Operations that return at once (C2, C6, C8) -/

/-- C2: on a module whose binary is loaded, `loadBinary` returns success and
the state it returns is the one it was called in (registry, files and trace:
no field changes and no collaborator, registry or `enable` call is made),
whatever the functions it could have called do. -/
theorem loadBinary_idempotent (env : Env) (go : Methods) (n : Nat) (this : Nat) (w : World)
    (h : (w.mod this).m_binaryLoaded = true) :
    Mod.loadBinary env go this w = some (Ok, w) ∧
      (methods env (n + 1)).loadBinary this w = some (Ok, w) := by
  have key : ∀ go : Methods, Mod.loadBinary env go this w = some (Ok, w) := by
    intro go
    simp [Mod.loadBinary, h]
  exact ⟨key go, key _⟩

theorem loadBinary_idempotent_witness :
    ((Scenario.single true true).mod 0).m_binaryLoaded = true ∧
      (Mod.loadBinary Scenario.env Methods.bottom 0 (Scenario.single true true) =
          some (Ok, Scenario.single true true) ∧
        (methods Scenario.env (0 + 1)).loadBinary 0 (Scenario.single true true) =
          some (Ok, Scenario.single true true)) :=
  ⟨rfl, loadBinary_idempotent Scenario.env Methods.bottom 0 0 (Scenario.single true true) rfl⟩

/-- C6: on an enabled module that does not support disabling, `disable`
returns the error "Mod does not support disabling" in the state it was called
in: `m_enabled` stays true, no field changes, no event is posted and no hook
or patch is touched. -/
theorem disable_unsupported (env : Env) (this : Nat) (w : World)
    (he : (w.mod this).m_enabled = true)
    (hs : (w.mod this).m_info.m_supportsDisabling = false) :
    Mod.disable env this w = (Err "Mod does not support disabling", w) ∧
      ((Mod.disable env this w).2.mod this).m_enabled = true := by
  have h : Mod.disable env this w = (Err "Mod does not support disabling", w) := by
    simp [Mod.disable, he, hs]
  exact ⟨h, by rw [h]; exact he⟩

theorem disable_unsupported_witness :
    ((Scenario.single false true).mod 0).m_enabled = true ∧
      ((Scenario.single false true).mod 0).m_info.m_supportsDisabling = false ∧
      (Mod.disable Scenario.env 0 (Scenario.single false true) =
          (Err "Mod does not support disabling", Scenario.single false true) ∧
        ((Mod.disable Scenario.env 0 (Scenario.single false true)).2.mod 0).m_enabled = true) :=
  ⟨rfl, rfl, disable_unsupported Scenario.env 0 (Scenario.single false true) rfl rfl⟩

/-- C8: on a module that supports neither disabling nor unloading, `uninstall`
makes exactly one collaborator call, the removal of the package file, posts no
event, changes no module and no file of the save directories, calls neither
`disable` nor `unloadBinary`, and returns success exactly when the removal
succeeds; when the removal fails it returns the error about the package file if
there was nothing to remove, and is left by the exception if the system
refused. -/
theorem uninstall_without_support (env : Env) (go : Methods) (this : Nat) (w : World)
    (hd : (w.mod this).m_info.m_supportsDisabling = false)
    (_hu : (w.mod this).m_info.m_supportsUnloading = false) :
    ∃ c : Completion,
      Mod.uninstall env go this w =
        some (c, w.emit (Effect.call (Call.remove (w.mod this).m_info.m_path)
          (env.fails (Call.remove (w.mod this).m_info.m_path) w.trace.length))) ∧
      (c = Completion.returned Ok ↔
        env.fails (Call.remove (w.mod this).m_info.m_path) w.trace.length = none) ∧
      ∀ e, env.fails (Call.remove (w.mod this).m_info.m_path) w.trace.length = some e →
        c = if env.throws (w.mod this).m_info.m_path w.trace.length then Completion.thrown e
          else Completion.returned
            (Err ("Unable to delete mod's .geode file! This might be due to insufficient " ++
              "permissions - try running GD as administrator.")) := by
  cases hf : env.fails (Call.remove (w.mod this).m_info.m_path) w.trace.length with
  | none =>
    refine ⟨Completion.returned Ok, ?_, by simp, by simp⟩
    simp [Mod.uninstall, hd, Mod.removePackage, World.call, hf]
  | some e =>
    by_cases ht : env.throws (w.mod this).m_info.m_path w.trace.length = true
    · refine ⟨Completion.thrown e, ?_, by simp, by simp [ht]⟩
      simp [Mod.uninstall, hd, Mod.removePackage, World.call, hf, ht]
    · refine ⟨Completion.returned
        (Err ("Unable to delete mod's .geode file! This might be due to insufficient " ++
          "permissions - try running GD as administrator.")), ?_, by simp, by simp [ht]⟩
      simp [Mod.uninstall, hd, Mod.removePackage, World.call, hf, ht]

theorem uninstall_without_support_witness :
    ((Scenario.single false false).mod 0).m_info.m_supportsDisabling = false ∧
      ((Scenario.single false false).mod 0).m_info.m_supportsUnloading = false ∧
      ∃ c : Completion,
        Mod.uninstall Scenario.envRefused Methods.bottom 0 (Scenario.single false false) =
          some (c, (Scenario.single false false).emit
            (Effect.call (Call.remove ((Scenario.single false false).mod 0).m_info.m_path)
              (Scenario.envRefused.fails
                (Call.remove ((Scenario.single false false).mod 0).m_info.m_path)
                (Scenario.single false false).trace.length))) ∧
        (c = Completion.returned Ok ↔ Scenario.envRefused.fails
          (Call.remove ((Scenario.single false false).mod 0).m_info.m_path)
            (Scenario.single false false).trace.length = none) ∧
        ∀ e, Scenario.envRefused.fails
            (Call.remove ((Scenario.single false false).mod 0).m_info.m_path)
            (Scenario.single false false).trace.length = some e →
          c = if Scenario.envRefused.throws ((Scenario.single false false).mod 0).m_info.m_path
              (Scenario.single false false).trace.length then Completion.thrown e
            else Completion.returned
              (Err ("Unable to delete mod's .geode file! This might be due to insufficient " ++
                "permissions - try running GD as administrator.")) :=
  ⟨rfl, rfl,
    uninstall_without_support Scenario.envRefused Methods.bottom 0 (Scenario.single false false)
      rfl rfl⟩

/-! ## Frames -/

theorem Mod.SameCore.refl_core (m : Mod) : Mod.SameCore m m :=
  ⟨rfl, rfl, rfl, rfl, rfl, rfl, rfl⟩

theorem Mod.SameCore.trans_core {m1 m2 m3 : Mod} (h1 : Mod.SameCore m1 m2) (h2 : Mod.SameCore m2 m3) :
    Mod.SameCore m1 m3 :=
  ⟨h2.info.trans h1.info, h2.saveDir.trans h1.saveDir, h2.loaded.trans h1.loaded,
    h2.enabled.trans h1.enabled, h2.resolved.trans h1.resolved, h2.hooks.trans h1.hooks,
    h2.patches.trans h1.patches⟩

theorem Frame.refl_frame (w : World) : Frame w w :=
  ⟨rfl, fun _ => Mod.SameCore.refl_core _, ⟨[], by simp, by simp⟩, fun _ => Or.inl rfl⟩

theorem Frame.trans_frame {w1 w2 w3 : World} (h1 : Frame w1 w2) (h2 : Frame w2 w3) : Frame w1 w3 := by
  obtain ⟨l1, e1, n1⟩ := h1.trace
  obtain ⟨l2, e2, n2⟩ := h2.trace
  refine ⟨h2.length.trans h1.length, fun i => (h1.core i).trans_core (h2.core i),
    ⟨l1 ++ l2, ?_, ?_⟩, fun i => ?_⟩
  · rw [e2, e1, List.append_assoc]
  · intro e he
    rcases List.mem_append.mp he with h | h
    · exact n1 e h
    · exact n2 e h
  · rcases h2.saved i with a2 | ⟨m2, r, t2, x2⟩
    · rcases h1.saved i with a1 | ⟨m1, r, t1, x1⟩
      · exact Or.inl (a2.trans a1)
      · exact Or.inr ⟨m1 ++ l2, r, by rw [e2, t1, List.append_assoc],
          List.mem_append_left _ x1⟩
    · rw [(h1.core i).saveDir] at x2
      exact Or.inr ⟨l1 ++ m2, r, by rw [t2, e1, List.append_assoc],
        List.mem_append_right _ x2⟩

theorem Frame.emit (w : World) (e : Effect) (h : e.seenLoaded = none) : Frame w (w.emit e) :=
  ⟨rfl, fun _ => Mod.SameCore.refl_core _, ⟨[e], rfl, by simpa using h⟩, fun _ => Or.inl rfl⟩

theorem Frame.log (w : World) (s : Severity) (i : Nat) (x : String) : Frame w (w.log s i x) :=
  Frame.emit w _ rfl

theorem Frame.call (w : World) (env : Env) (c : Call) : Frame w (w.call env c).2 :=
  Frame.emit w _ rfl

theorem Frame.of_call {w w1 : World} {env : Env} {c : Call} {r : Option String}
    (h : w.call env c = (r, w1)) : Frame w w1 := by
  have := Frame.call w env c
  rwa [h] at this

theorem Frame.of_eq {α : Type} {w w' : World} {p : α × World} {r : α} (hf : Frame w p.2)
    (h : p = (r, w')) : Frame w w' := by
  subst h
  exact hf

theorem Frame.writeFile (w : World) (p x : String) : Frame w (w.writeFile p x) :=
  ⟨rfl, fun _ => Mod.SameCore.refl_core _, ⟨[], by simp, by simp⟩, fun _ => Or.inl rfl⟩

theorem Frame.setMod (w : World) (i : Nat) (m : Mod) (h : Mod.SameCore (w.mod i) m)
    (hs : m.m_saved = (w.mod i).m_saved) : Frame w (w.setMod i m) := by
  refine ⟨by simp, fun j => ?_, ⟨[], by simp, by simp⟩, fun j => Or.inl ?_⟩
  · rw [World.setMod_mod]
    split
    · rename_i hj
      rw [← hj.1]
      exact h
    · exact Mod.SameCore.refl_core _
  · rw [World.setMod_mod]
    split
    · rename_i hj
      rw [← hj.1]
      exact hs
    · rfl

theorem Frame.loadSettings (env : Env) (this : Nat) (items : List (String × Json)) (w : World) :
    Frame w (Mod.loadSettings env this items w).2 := by
  induction items generalizing w with
  | nil => exact Frame.refl_frame w
  | cons kv rest ih =>
    obtain ⟨key, value⟩ := kv
    unfold Mod.loadSettings
    split
    · split
      · rename_i h
        exact Frame.of_call h
      · rename_i h
        exact (Frame.of_call h).trans_frame (ih _)
    · exact (Frame.log _ _ _ _).trans_frame (ih _)

theorem Frame.loadSaved (env : Env) (this : Nat) (w : World) :
    Frame w (Mod.loadSaved env this w).2 := by
  unfold Mod.loadSaved
  split
  · split
    · rename_i h
      exact Frame.of_call h
    · rename_i h
      obtain ⟨-, rfl⟩ := World.call_eq _ h
      split
      · refine ⟨by simp, fun j => ?_, ⟨[_], rfl, by simp [Effect.seenLoaded]⟩,
          fun j => ?_⟩
        · rw [World.setMod_mod]
          split
          · rename_i hj
            rw [← hj.1]
            exact ⟨rfl, rfl, rfl, rfl, rfl, rfl, rfl⟩
          · exact Mod.SameCore.refl_core _
        · rw [World.setMod_mod]
          split
          · rename_i hj
            rw [← hj.1]
            exact Or.inr ⟨[_], _, rfl, List.mem_singleton.2 rfl⟩
          · exact Or.inl rfl
      · exact Frame.emit _ _ rfl
  · exact Frame.refl_frame w

theorem Frame.post (w : World) (this : Nat) (t : ModEventType) (h : t ≠ ModEventType.Loaded) :
    Frame w (w.post this t) := by
  refine Frame.emit w _ ?_
  cases t <;> simp_all [Effect.seenLoaded]

theorem Frame.loadData (env : Env) (this : Nat) (w : World) :
    Frame w (Mod.loadData env this w).2 := by
  have h0 : Frame w (w.post this ModEventType.DataLoaded) := Frame.post w this _ (by decide)
  unfold Mod.loadData
  simp only
  split
  · split
    · rename_i h
      exact h0.trans_frame (Frame.of_call h)
    · rename_i h
      split
      · exact h0.trans_frame (Frame.of_call h)
      · split
        · rename_i h2
          exact h0.trans_frame ((Frame.of_call h).trans_frame (Frame.of_eq (Frame.loadSettings _ _ _ _) h2))
        · rename_i h2
          exact h0.trans_frame ((Frame.of_call h).trans_frame
            ((Frame.of_eq (Frame.loadSettings _ _ _ _) h2).trans_frame (Frame.loadSaved env this _)))
  · exact h0.trans_frame (Frame.loadSaved env this _)

theorem Frame.saveSettings (env : Env) (this : Nat) (setts : List (String × Setting))
    (json : List (String × Json)) (w : World) :
    Frame w (Mod.saveSettings env this setts json w).2 := by
  induction setts generalizing w json with
  | nil => exact Frame.refl_frame w
  | cons kv rest ih =>
    obtain ⟨key, sett⟩ := kv
    unfold Mod.saveSettings
    split
    · rename_i h
      exact Frame.of_call h
    · rename_i h
      exact (Frame.of_call h).trans_frame (ih _ _)

theorem Frame.saveData (env : Env) (this : Nat) (w : World) :
    Frame w (Mod.saveData env this w).2 := by
  have h0 : Frame w (w.post this ModEventType.DataSaved) := Frame.post w this _ (by decide)
  unfold Mod.saveData
  simp only
  split
  · rename_i h
    exact h0.trans_frame (Frame.of_eq (Frame.saveSettings _ _ _ _ _) h)
  · rename_i h
    have h1 := h0.trans_frame (Frame.of_eq (Frame.saveSettings _ _ _ _ _) h)
    split
    · rename_i h2
      exact h1.trans_frame (Frame.of_call h2)
    · rename_i h2
      refine (h1.trans_frame (Frame.of_call h2)).trans_frame ?_
      split
      · rename_i h4
        exact (Frame.writeFile _ _ _).trans_frame (Frame.of_call h4)
      · rename_i h4
        exact ((Frame.writeFile _ _ _).trans_frame (Frame.of_call h4)).trans_frame (Frame.writeFile _ _ _)

theorem Frame.createTempDir (env : Env) (this : Nat) (w : World) :
    Frame w (Mod.createTempDir env this w).2 := by
  unfold Mod.createTempDir
  split
  · exact Frame.refl_frame w
  · split
    · rename_i h
      exact Frame.of_call h
    · rename_i h1
      split
      · rename_i h
        exact (Frame.of_call h1).trans_frame (Frame.of_call h)
      · rename_i h2
        split
        · rename_i h
          exact ((Frame.of_call h1).trans_frame (Frame.of_call h2)).trans_frame (Frame.of_call h)
        · rename_i h3
          split
          · rename_i h
            exact (((Frame.of_call h1).trans_frame (Frame.of_call h2)).trans_frame (Frame.of_call h3)).trans_frame
              (Frame.of_call h)
          · rename_i h4
            split
            · rename_i h
              exact ((((Frame.of_call h1).trans_frame (Frame.of_call h2)).trans_frame
                (Frame.of_call h3)).trans_frame (Frame.of_call h4)).trans_frame (Frame.of_call h)
            · rename_i h
              exact (((((Frame.of_call h1).trans_frame (Frame.of_call h2)).trans_frame
                (Frame.of_call h3)).trans_frame (Frame.of_call h4)).trans_frame (Frame.of_call h)).trans_frame
                (Frame.setMod _ _ _ ⟨rfl, rfl, rfl, rfl, rfl, rfl, rfl⟩ rfl)

theorem Frame.enableHooks (env : Env) (this : Nat) (hooks : List Hook) (w : World) :
    Frame w (Mod.enableHooks env this hooks w).2 := by
  induction hooks generalizing w with
  | nil => exact Frame.refl_frame w
  | cons hook rest ih =>
    unfold Mod.enableHooks
    split
    · rename_i h
      exact Frame.of_call h
    · rename_i h
      exact (Frame.of_call h).trans_frame (ih _)

theorem Frame.applyPatches (env : Env) (this : Nat) (patches : List Patch) (w : World) :
    Frame w (Mod.applyPatches env this patches w).2 := by
  induction patches generalizing w with
  | nil => exact Frame.refl_frame w
  | cons patch rest ih =>
    unfold Mod.applyPatches
    split
    · rename_i h
      exact Frame.of_call h
    · rename_i h
      exact (Frame.of_call h).trans_frame (ih _)

theorem Frame.disableHooks (env : Env) (this : Nat) (hooks : List Hook) (w : World) :
    Frame w (Mod.disableHooks env this hooks w).2 := by
  induction hooks generalizing w with
  | nil => exact Frame.refl_frame w
  | cons hook rest ih =>
    unfold Mod.disableHooks
    split
    · rename_i h
      exact Frame.of_call h
    · rename_i h
      exact (Frame.of_call h).trans_frame (ih _)

theorem Frame.restorePatches (env : Env) (this : Nat) (patches : List Patch) (w : World) :
    Frame w (Mod.restorePatches env this patches w).2 := by
  induction patches generalizing w with
  | nil => exact Frame.refl_frame w
  | cons patch rest ih =>
    unfold Mod.restorePatches
    split
    · rename_i h
      exact Frame.of_call h
    · rename_i h
      exact (Frame.of_call h).trans_frame (ih _)

theorem Frame.removePackage (env : Env) (this : Nat) (w : World) :
    Frame w (Mod.removePackage env this w).2 := by
  unfold Mod.removePackage
  split
  · rename_i h
    split
    · exact Frame.of_call h
    · exact Frame.of_call h
  · rename_i h
    exact Frame.of_call h

/-! ## The lifecycle operations as flag steps and calls -/

theorem FlagRuns.frame_runs {C : World → World → Prop} {w w' : World} (h : Frame w w') :
    FlagRuns C w w' :=
  Relation.ReflTransGen.single (Or.inl (FlagStep.frame h))

theorem FlagRuns.step {C : World → World → Prop} {w w' : World} (h : FlagStep w w') :
    FlagRuns C w w' :=
  Relation.ReflTransGen.single (Or.inl h)

theorem FlagRuns.call_runs {C : World → World → Prop} {w w' : World} (h : C w w') :
    FlagRuns C w w' :=
  Relation.ReflTransGen.single (Or.inr h)

theorem Mod.disable_runs (C : World → World → Prop) (env : Env) (this : Nat) (w : World) :
    FlagRuns C w (Mod.disable env this w).2 := by
  unfold Mod.disable
  split
  · exact Relation.ReflTransGen.refl
  · split
    · exact Relation.ReflTransGen.refl
    · have f0 := Frame.post w this ModEventType.Disabled (by decide)
      split
      · rename_i h
        exact FlagRuns.frame_runs (f0.trans_frame (Frame.of_eq (Frame.disableHooks _ _ _ _) h))
      · rename_i h
        have f1 := f0.trans_frame (Frame.of_eq (Frame.disableHooks _ _ _ _) h)
        split
        · rename_i h2
          exact FlagRuns.frame_runs (f1.trans_frame (Frame.of_eq (Frame.restorePatches _ _ _ _) h2))
        · rename_i h2
          exact (FlagRuns.frame_runs (f1.trans_frame (Frame.of_eq (Frame.restorePatches _ _ _ _) h2))).trans
            (FlagRuns.step (FlagStep.disable this rfl rfl))

theorem Mod.disable_runs_of_eq {C : World → World → Prop} {env : Env} {this : Nat}
    {w w' : World} {r : Result} (h : Mod.disable env this w = (r, w')) : FlagRuns C w w' := by
  have := Mod.disable_runs C env this w
  rwa [h] at this

theorem Mod.enable_runs {C : World → World → Prop} {env : Env} {go : Methods}
    (hs : go.Within C) {this : Nat} {w w' : World}
    {r : Result} (h : Mod.enable env go this w = some (r, w')) : FlagRuns C w w' := by
  unfold Mod.enable at h
  split at h
  · exact FlagRuns.call_runs (hs.loadBinary _ _ _ _ h)
  · rename_i hl
    split at h
    · rename_i h1
      simp only [Option.some.injEq, Prod.mk.injEq] at h
      obtain ⟨-, rfl⟩ := h
      exact FlagRuns.frame_runs (Frame.of_eq (Frame.enableHooks _ _ _ _) h1)
    · rename_i h1
      have f1 := Frame.of_eq (Frame.enableHooks _ _ _ _) h1
      split at h
      · rename_i h2
        simp only [Option.some.injEq, Prod.mk.injEq] at h
        obtain ⟨-, rfl⟩ := h
        exact FlagRuns.frame_runs (f1.trans_frame (Frame.of_eq (Frame.applyPatches _ _ _ _) h2))
      · rename_i h2
        simp only [Option.some.injEq, Prod.mk.injEq] at h
        obtain ⟨-, rfl⟩ := h
        have f2 := f1.trans_frame (Frame.of_eq (Frame.applyPatches _ _ _ _) h2)
        refine (FlagRuns.frame_runs f2).trans (FlagRuns.step (FlagStep.enable this ?_ rfl rfl))
        rw [(f2.core this).loaded]
        simpa using hl

theorem Loader.updateAllDependenciesFrom_runs {C : World → World → Prop} {go : Methods}
    (hs : go.Within C) (l : List Nat)
    {w w' : World} (h : Loader.updateAllDependenciesFrom go l w = some w') : FlagRuns C w w' := by
  induction l generalizing w with
  | nil =>
    simp only [Loader.updateAllDependenciesFrom, Option.some.injEq] at h
    subst h
    exact Relation.ReflTransGen.refl
  | cons i rest ih =>
    unfold Loader.updateAllDependenciesFrom at h
    split at h
    · exact absurd h (by simp)
    · rename_i h1
      exact (FlagRuns.call_runs (hs.updateDependencyStates _ _ _ _ h1)).trans (ih h)

theorem Loader.updateAllDependencies_runs {C : World → World → Prop} {go : Methods}
    (hs : go.Within C) {w w' : World} (h : Loader.updateAllDependencies go w = some w') :
    FlagRuns C w w' :=
  Loader.updateAllDependenciesFrom_runs hs _ h

theorem Mod.markLoaded_step (env : Env) (this : Nat) (w : World)
    (hl : (w.mod this).m_binaryLoaded = false)
    (hu : (w.mod this).hasUnresolvedDependencies = false) :
    FlagStep w (Mod.markLoaded env this w) := by
  refine FlagStep.load this ((w.mod this).m_hooks ++ (env.placed this w.trace.length).1)
    ((w.mod this).m_patches ++ (env.placed this w.trace.length).2)
    (Effect.call (Call.implicitLoadFunc this) none) hl hu rfl ?_ ?_
  · by_cases h : this < w.mods.length
    · simp [Mod.markLoaded, Mod.implicitLoadFunc, World.setMod, World.mod, h,
        List.getD_eq_getElem?_getD]
    · simp [Mod.markLoaded, Mod.implicitLoadFunc, World.setMod,
        List.set_eq_of_length_le (Nat.le_of_not_lt h)]
  · simp [Mod.markLoaded, Mod.implicitLoadFunc]

theorem Frame.loadDataOrWarn (env : Env) (this : Nat) (w : World) :
    Frame w (Mod.loadDataOrWarn env this w) := by
  unfold Mod.loadDataOrWarn
  split
  · rename_i h
    exact (Frame.of_eq (Frame.loadData _ _ _) h).trans_frame (Frame.log _ _ _ _)
  · rename_i h
    exact Frame.of_eq (Frame.loadData _ _ _) h

theorem Mod.loadBinary_runs {C : World → World → Prop} {env : Env} {go : Methods}
    (hs : go.Within C) {this : Nat}
    {w w' : World} {r : Result} (h : Mod.loadBinary env go this w = some (r, w')) :
    FlagRuns C w w' := by
  unfold Mod.loadBinary at h
  split at h
  · simp only [Option.some.injEq, Prod.mk.injEq] at h
    obtain ⟨-, rfl⟩ := h
    exact Relation.ReflTransGen.refl
  · rename_i hl
    split at h
    · rename_i h1
      simp only [Option.some.injEq, Prod.mk.injEq] at h
      obtain ⟨-, rfl⟩ := h
      exact FlagRuns.frame_runs (Frame.of_eq (Frame.createTempDir _ _ _) h1)
    · rename_i h1
      have f1 := Frame.of_eq (Frame.createTempDir _ _ _) h1
      split at h
      · simp only [Option.some.injEq, Prod.mk.injEq] at h
        obtain ⟨-, rfl⟩ := h
        exact FlagRuns.frame_runs f1
      · rename_i hu
        split at h
        · rename_i h2
          simp only [Option.some.injEq, Prod.mk.injEq] at h
          obtain ⟨-, rfl⟩ := h
          exact FlagRuns.frame_runs (f1.trans_frame (Frame.of_call h2))
        · rename_i x2 w2 h2
          have f2 := f1.trans_frame (Frame.of_call h2)
          have hstart : FlagRuns C w (Mod.loadDataOrWarn env this (Mod.markLoaded env this w2)) := by
            refine ((FlagRuns.frame_runs f2).trans
              (FlagRuns.step (Mod.markLoaded_step env this _ ?_ ?_))).trans
              (FlagRuns.frame_runs (Frame.loadDataOrWarn _ _ _))
            · rw [(f2.core this).loaded]
              simpa using hl
            · unfold Mod.hasUnresolvedDependencies
              rw [((Frame.of_call h2).core this).info]
              simpa [Mod.hasUnresolvedDependencies] using hu
          split at h
          · exact absurd h (by simp)
          · rename_i h3
            have s3 := hstart.trans (Loader.updateAllDependencies_runs hs h3)
            split at h
            · exact absurd h (by simp)
            · rename_i h4
              simp only [Option.some.injEq, Prod.mk.injEq] at h
              obtain ⟨-, rfl⟩ := h
              exact s3.trans (Mod.enable_runs hs h4)
            · rename_i h4
              simp only [Option.some.injEq, Prod.mk.injEq] at h
              obtain ⟨-, rfl⟩ := h
              exact s3.trans (Mod.enable_runs hs h4)

theorem Mod.disable_enabled (env : Env) (this : Nat) (w w' : World) (a : Unit)
    (h : Mod.disable env this w = (Except.ok a, w')) : (w'.mod this).m_enabled = false := by
  unfold Mod.disable at h
  split at h
  · rename_i he
    simp only [Prod.mk.injEq] at h
    obtain ⟨-, rfl⟩ := h
    simpa using he
  · rename_i he
    split at h
    · exact absurd h (by simp [Err])
    · split at h
      · exact absurd h (by simp [Err])
      · split at h
        · exact absurd h (by simp [Err])
        · simp only [Prod.mk.injEq] at h
          obtain ⟨-, rfl⟩ := h
          rename_i x w2 h2
          by_cases hr : this < w2.mods.length
          · rw [World.setMod_mod_self _ _ _ hr]
          · rw [World.setMod_of_le _ _ _ (Nat.le_of_not_lt hr),
              World.mod_of_le _ _ (Nat.le_of_not_lt hr)]
            rfl

theorem Mod.destroyHandles_runs (C : World → World → Prop) (this : Nat) (w : World)
    (he : (w.mod this).m_enabled = false) : FlagRuns C w (Mod.destroyHandles this w) :=
  (FlagRuns.frame_runs (Frame.post w this ModEventType.Unloaded (by decide))).trans
    (FlagRuns.step (FlagStep.clear this he rfl rfl))

theorem Mod.destroyHandles_mod (this : Nat) (w : World) (he : (w.mod this).m_enabled = false) :
    ((Mod.destroyHandles this w).mod this).m_enabled = false ∧
      ((Mod.destroyHandles this w).mod this).m_hooks = [] ∧
      ((Mod.destroyHandles this w).mod this).m_patches = [] := by
  unfold Mod.destroyHandles
  by_cases hr : this < w.mods.length
  · rw [World.setMod_mod_self _ _ _ (by simpa using hr)]
    exact ⟨he, rfl, rfl⟩
  · rw [World.setMod_of_le _ _ _ (by simpa using Nat.le_of_not_lt hr)]
    simp only [World.post_mod]
    rw [World.mod_of_le _ _ (Nat.le_of_not_lt hr)]
    exact ⟨rfl, rfl, rfl⟩

theorem Mod.unloadBinary_runs {C : World → World → Prop} {env : Env} {go : Methods}
    (hs : go.Within C) {this : Nat}
    {w w' : World} {r : Result} (h : Mod.unloadBinary env go this w = some (r, w')) :
    FlagRuns C w w' := by
  unfold Mod.unloadBinary at h
  split at h
  · simp only [Option.some.injEq, Prod.mk.injEq] at h
    obtain ⟨-, rfl⟩ := h
    exact Relation.ReflTransGen.refl
  · split at h
    · simp only [Option.some.injEq, Prod.mk.injEq] at h
      obtain ⟨-, rfl⟩ := h
      exact Relation.ReflTransGen.refl
    · split at h
      · rename_i h1
        simp only [Option.some.injEq, Prod.mk.injEq] at h
        obtain ⟨-, rfl⟩ := h
        exact FlagRuns.frame_runs (Frame.of_eq (Frame.saveData _ _ _) h1)
      · rename_i x1 a1 w1 h1
        have s1 : FlagRuns C w w1 := FlagRuns.frame_runs (Frame.of_eq (Frame.saveData _ _ _) h1)
        split at h
        · rename_i h2
          simp only [Option.some.injEq, Prod.mk.injEq] at h
          obtain ⟨-, rfl⟩ := h
          exact s1.trans (Mod.disable_runs_of_eq h2)
        · rename_i x2 a2 w2 h2
          have he := Mod.disable_enabled env this w1 w2 a2 h2
          have s2 := (s1.trans (Mod.disable_runs_of_eq h2)).trans
            (Mod.destroyHandles_runs C this w2 he)
          obtain ⟨he3, hh3, hp3⟩ := Mod.destroyHandles_mod this w2 he
          split at h
          · rename_i h3
            simp only [Option.some.injEq, Prod.mk.injEq] at h
            obtain ⟨-, rfl⟩ := h
            exact s2.trans (FlagRuns.frame_runs (Frame.of_call h3))
          · rename_i x3 w3 h3
            have f3 := Frame.of_call h3
            have s3 : FlagRuns C w
                (w3.setMod this { w3.mod this with m_binaryLoaded := false }) := by
              refine (s2.trans (FlagRuns.frame_runs f3)).trans
                (FlagRuns.step (FlagStep.unload this ?_ ?_ ?_ rfl rfl))
              · rw [(f3.core this).enabled]; exact he3
              · rw [(f3.core this).hooks]; exact hh3
              · rw [(f3.core this).patches]; exact hp3
            split at h
            · exact absurd h (by simp)
            · rename_i h4
              simp only [Option.some.injEq, Prod.mk.injEq] at h
              obtain ⟨-, rfl⟩ := h
              exact s3.trans (Loader.updateAllDependencies_runs hs h4)

theorem Mod.uninstall_runs {C : World → World → Prop} {env : Env} {go : Methods}
    (hs : go.Within C) {this : Nat}
    {w w' : World} {r : Completion} (h : Mod.uninstall env go this w = some (r, w')) :
    FlagRuns C w w' := by
  unfold Mod.uninstall at h
  split at h
  · split at h
    · rename_i h1
      simp only [Option.some.injEq, Prod.mk.injEq] at h
      obtain ⟨-, rfl⟩ := h
      exact Mod.disable_runs_of_eq h1
    · rename_i x1 a1 w1 h1
      have s1 : FlagRuns C w w1 := Mod.disable_runs_of_eq h1
      split at h
      · split at h
        · exact absurd h (by simp)
        · rename_i h2
          simp only [Option.some.injEq, Prod.mk.injEq] at h
          obtain ⟨-, rfl⟩ := h
          exact s1.trans (FlagRuns.call_runs (hs.unloadBinary _ _ _ _ h2))
        · rename_i h2
          simp only [Option.some.injEq] at h
          have s2 := s1.trans (FlagRuns.call_runs (hs.unloadBinary _ _ _ _ h2))
          exact s2.trans (FlagRuns.frame_runs (Frame.of_eq (Frame.removePackage _ _ _) h))
      · simp only [Option.some.injEq] at h
        exact s1.trans (FlagRuns.frame_runs (Frame.of_eq (Frame.removePackage _ _ _) h))
  · simp only [Option.some.injEq] at h
    exact FlagRuns.frame_runs (Frame.of_eq (Frame.removePackage _ _ _) h)

/-! ## Every operation is a sequence of atomic steps -/

theorem Steps.frame_steps {w w' : World} (h : Frame w w') : Steps w w' :=
  Relation.ReflTransGen.single (Step.flag (FlagStep.frame h))

theorem Steps.trans {w1 w2 w3 : World} (h1 : Steps w1 w2) (h2 : Steps w2 w3) : Steps w1 w3 :=
  Relation.ReflTransGen.trans h1 h2

theorem FlagRuns.steps_runs {w w' : World} (h : FlagRuns Steps w w') : Steps w w' := by
  induction h with
  | refl => exact Relation.ReflTransGen.refl
  | tail _ hs ih =>
    rcases hs with hs | hs
    · exact ih.tail (Step.flag hs)
    · exact ih.trans hs

theorem Step.ofSetResolved (w : World) (this : Nat) (b : Bool)
    (h : b = false → (w.mod this).hasUnresolvedDependencies = true) :
    Step w (w.setResolved this b) :=
  Step.setResolved this b h rfl rfl

theorem Step.ofSetDepState (w : World) (this k : Nat) (s : ModResolveState)
    (h : ((w.mod this).dep k).m_mod = none → s = ModResolveState.Unloaded) :
    Step w (w.setDepState this k s) :=
  Step.setDepState this k s h rfl rfl

theorem Mod.disable_steps (env : Env) (this : Nat) (w : World) :
    Steps w (Mod.disable env this w).2 :=
  (Mod.disable_runs Steps env this w).steps_runs

theorem Mod.disable_steps_of_eq {env : Env} {this : Nat} {w w' : World} {r : Result}
    (h : Mod.disable env this w = (r, w')) : Steps w w' :=
  (Mod.disable_runs_of_eq h).steps_runs

theorem Mod.enable_steps {env : Env} {go : Methods} (hs : go.Sound) {this : Nat} {w w' : World}
    {r : Result} (h : Mod.enable env go this w = some (r, w')) : Steps w w' :=
  (Mod.enable_runs hs h).steps_runs

theorem Loader.updateAllDependencies_steps {go : Methods} (hs : go.Sound)
    {w w' : World} (h : Loader.updateAllDependencies go w = some w') : Steps w w' :=
  (Loader.updateAllDependencies_runs hs h).steps_runs

theorem Mod.loadBinary_steps {env : Env} {go : Methods} (hs : go.Sound) {this : Nat}
    {w w' : World} {r : Result} (h : Mod.loadBinary env go this w = some (r, w')) :
    Steps w w' :=
  (Mod.loadBinary_runs hs h).steps_runs

theorem Mod.destroyHandles_steps (this : Nat) (w : World) (he : (w.mod this).m_enabled = false) :
    Steps w (Mod.destroyHandles this w) :=
  (Mod.destroyHandles_runs Steps this w he).steps_runs

theorem Mod.unloadBinary_steps {env : Env} {go : Methods} (hs : go.Sound) {this : Nat}
    {w w' : World} {r : Result} (h : Mod.unloadBinary env go this w = some (r, w')) :
    Steps w w' :=
  (Mod.unloadBinary_runs hs h).steps_runs

theorem Mod.uninstall_steps {env : Env} {go : Methods} (hs : go.Sound) {this : Nat}
    {w w' : World} {r : Completion} (h : Mod.uninstall env go this w = some (r, w')) :
    Steps w w' :=
  (Mod.uninstall_runs hs h).steps_runs

/-! ## Facts that hold along atomic steps -/

theorem World.mod_of_mods_eq {w w' : World} {this : Nat} {m : Mod}
    (h : w'.mods = w.mods.set this m) (j : Nat) :
    w'.mod j = if this = j ∧ this < w.mods.length then m else w.mod j := by
  have h2 : w'.mod j = (w.setMod this m).mod j := by
    simp only [World.mod, World.setMod, h]
  rw [h2, World.setMod_mod]

theorem World.length_of_mods_eq {w w' : World} {this : Nat} {m : Mod}
    (h : w'.mods = w.mods.set this m) : w'.mods.length = w.mods.length := by
  rw [h, List.length_set]

theorem Step.length_step {w w' : World} (h : Step w w') : w'.mods.length = w.mods.length := by
  cases h with
  | flag hf =>
    cases hf with
    | frame f => exact f.length
    | load this hooks patches e _ _ _ hm _ => exact World.length_of_mods_eq hm
    | enable this _ hm _ => exact World.length_of_mods_eq hm
    | disable this hm _ => exact World.length_of_mods_eq hm
    | clear this _ hm _ => exact World.length_of_mods_eq hm
    | unload this _ _ _ hm _ => exact World.length_of_mods_eq hm
  | setResolved this b _ hm _ => exact World.length_of_mods_eq hm
  | setDepMod this k _ hm _ => exact World.length_of_mods_eq hm
  | setDepState this k s _ hm _ => exact World.length_of_mods_eq hm

theorem Steps.induct {P : World → Prop} (hstep : ∀ w w', Step w w' → P w → P w')
    {w w' : World} (h : Steps w w') (hw : P w) : P w' := by
  induction h with
  | refl => exact hw
  | tail _ hs ih => exact hstep _ _ hs ih

theorem Steps.length {w w' : World} (h : Steps w w') : w'.mods.length = w.mods.length := by
  induction h with
  | refl => rfl
  | tail _ hs ih => exact (Step.length_step hs).trans ih

theorem Mod.dep_setDep (m : Mod) (k j : Nat) (d : Dependency) :
    (m.setDep k d).dep j =
      if k = j ∧ k < m.m_info.m_dependencies.length then d else m.dep j := by
  simp only [Mod.setDep, Mod.dep, List.getD_eq_getElem?_getD, List.getElem?_set]
  by_cases h : k = j
  · subst h
    by_cases h2 : k < m.m_info.m_dependencies.length
    · simp [h2]
    · simp [h2, List.getElem?_eq_none (Nat.le_of_not_lt h2)]
  · simp [h]

theorem Step.dep_mod_some_step {w w' : World} (h : Step w w') (i k t : Nat)
    (hp : ((w.mod i).dep k).m_mod = some t) : ((w'.mod i).dep k).m_mod = some t := by
  cases h with
  | flag hf =>
    cases hf with
    | frame f => simpa [Mod.dep, (f.core i).info] using hp
    | load this hooks patches e _ _ _ hm _ =>
      rw [World.mod_of_mods_eq hm]
      split
      · rename_i h
        obtain ⟨rfl, -⟩ := h
        exact hp
      · exact hp
    | enable this _ hm _ =>
      rw [World.mod_of_mods_eq hm]
      split
      · rename_i h
        obtain ⟨rfl, -⟩ := h
        exact hp
      · exact hp
    | disable this hm _ =>
      rw [World.mod_of_mods_eq hm]
      split
      · rename_i h
        obtain ⟨rfl, -⟩ := h
        exact hp
      · exact hp
    | clear this _ hm _ =>
      rw [World.mod_of_mods_eq hm]
      split
      · rename_i h
        obtain ⟨rfl, -⟩ := h
        exact hp
      · exact hp
    | unload this _ _ _ hm _ =>
      rw [World.mod_of_mods_eq hm]
      split
      · rename_i h
        obtain ⟨rfl, -⟩ := h
        exact hp
      · exact hp
  | setResolved this b _ hm _ =>
    rw [World.mod_of_mods_eq hm]
    split
    · rename_i h
      obtain ⟨rfl, -⟩ := h
      exact hp
    · exact hp
  | setDepMod this k2 hn hm _ =>
    rw [World.mod_of_mods_eq hm]
    split
    · rename_i h
      obtain ⟨rfl, -⟩ := h
      rw [Mod.dep_setDep]
      split
      · rename_i h2
        obtain ⟨rfl, -⟩ := h2
        rw [hn] at hp
        exact absurd hp (by simp)
      · exact hp
    · exact hp
  | setDepState this k2 s _ hm _ =>
    rw [World.mod_of_mods_eq hm]
    split
    · rename_i h
      obtain ⟨rfl, -⟩ := h
      rw [Mod.dep_setDep]
      split
      · rename_i h2
        obtain ⟨rfl, -⟩ := h2
        exact hp
      · exact hp
    · exact hp

theorem Steps.dep_mod_some {w w' : World} (h : Steps w w') (i k t : Nat)
    (hp : ((w.mod i).dep k).m_mod = some t) : ((w'.mod i).dep k).m_mod = some t :=
  Steps.induct (P := fun w => ((w.mod i).dep k).m_mod = some t)
    (fun _ _ hs hw => Step.dep_mod_some_step hs i k t hw) h hp

theorem Mod.hasUnresolvedDependencies_of_dep (m : Mod) (k : Nat)
    (h : (m.dep k).isUnresolved = true) : m.hasUnresolvedDependencies = true := by
  unfold Mod.hasUnresolvedDependencies
  rw [Mod.hasUnresolvedDependenciesIn_iff]
  by_cases hk : k < m.m_info.m_dependencies.length
  · refine ⟨m.dep k, ?_, h⟩
    unfold Mod.dep
    rw [List.getD_eq_getElem _ _ hk]
    exact List.getElem_mem hk
  · unfold Mod.dep at h
    rw [List.getD_eq_default _ _ (Nat.le_of_not_lt hk)] at h
    exact absurd h (by decide)

theorem Mod.findDependency_steps (this k : Nat) (w : World) :
    Steps w (Mod.findDependency this k w) := by
  unfold Mod.findDependency
  split
  · rename_i h
    refine Relation.ReflTransGen.single (Step.setDepMod this k ?_ rfl rfl)
    simpa [Option.isNone_iff_eq_none] using h
  · exact Relation.ReflTransGen.refl

theorem World.setResolved_dep (w : World) (i j k : Nat) (b : Bool) :
    ((w.setResolved i b).mod j).dep k = (w.mod j).dep k := by
  unfold World.setResolved
  rw [World.setMod_mod]
  split
  · rename_i h
    obtain ⟨rfl, -⟩ := h
    rfl
  · rfl

theorem Mod.resolveDependency_steps {go : Methods} (hs : go.Sound) {this k : Nat}
    {w w' : World} (h : Mod.resolveDependency go this k w = some w') : Steps w w' := by
  unfold Mod.resolveDependency at h
  split at h
  · rename_i target hp
    split at h
    · exact absurd h (by simp)
    · rename_i x1 b1 w1 h1
      have s1 := hs.updateDependencyStates _ _ _ _ h1
      have hp1 := s1.dep_mod_some this k target hp
      split at h
      · simp only [Option.some.injEq] at h
        subst h
        exact s1.tail (Step.ofSetDepState _ _ _ _ (by simp [hp1]))
      · split at h
        · have s2 : Steps w ((w1.setResolved target true).setDepState this k
              ModResolveState.Resolved) :=
            (s1.tail (Step.ofSetResolved _ _ _ (by simp))).tail
              (Step.ofSetDepState _ _ _ _ (by simp [World.setResolved_dep, hp1]))
          split at h
          · exact absurd h (by simp)
          · rename_i h2
            simp only [Option.some.injEq] at h
            subst h
            exact ((s2.trans (hs.loadBinary _ _ _ _ h2)).tail
              (Step.ofSetDepState _ _ _ _ (fun _ => rfl))).trans
                (Steps.frame_steps (Frame.log _ _ _ _))
          · rename_i h2
            simp only [Option.some.injEq] at h
            subst h
            exact s2.trans (hs.loadBinary _ _ _ _ h2)
        · split at h
          · simp only [Option.some.injEq] at h
            subst h
            exact s1.tail (Step.ofSetDepState _ _ _ _ (by simp [hp1]))
          · simp only [Option.some.injEq] at h
            subst h
            exact s1.tail (Step.ofSetDepState _ _ _ _ (by simp [hp1]))
  · simp only [Option.some.injEq] at h
    subst h
    exact Relation.ReflTransGen.single (Step.ofSetDepState _ _ _ _ (fun _ => rfl))

theorem Mod.updateDependency_steps {go : Methods} (hs : go.Sound) {this k : Nat}
    {w w' : World} {b : Bool} (h : Mod.updateDependency go this k w = some (b, w')) :
    Steps w w' := by
  unfold Mod.updateDependency at h
  split at h
  · exact absurd h (by simp)
  · rename_i w1 h1
    have s1 := (Mod.findDependency_steps this k w).trans (Mod.resolveDependency_steps hs h1)
    split at h
    · rename_i hu
      split at h
      · exact absurd h (by simp)
      · rename_i h2
        simp only [Option.some.injEq, Prod.mk.injEq] at h
        obtain ⟨-, rfl⟩ := h
        exact (s1.tail (Step.ofSetResolved _ _ _
          (fun _ => Mod.hasUnresolvedDependencies_of_dep _ _ hu))).trans
            (hs.unloadBinary _ _ _ _ h2)
    · simp only [Option.some.injEq, Prod.mk.injEq] at h
      obtain ⟨-, rfl⟩ := h
      exact s1

theorem Mod.updateDependenciesFrom_steps {go : Methods} (hs : go.Sound) {this : Nat}
    (l : List Nat) {b b' : Bool} {w w' : World}
    (h : Mod.updateDependenciesFrom go this l b w = some (b', w')) : Steps w w' := by
  induction l generalizing w b with
  | nil =>
    simp only [Mod.updateDependenciesFrom, Option.some.injEq, Prod.mk.injEq] at h
    obtain ⟨-, rfl⟩ := h
    exact Relation.ReflTransGen.refl
  | cons k rest ih =>
    unfold Mod.updateDependenciesFrom at h
    split at h
    · exact absurd h (by simp)
    · rename_i h1
      exact (Mod.updateDependency_steps hs h1).trans (ih h)

theorem Mod.markResolved_steps (this : Nat) (w : World) : Steps w (Mod.markResolved this w) :=
  (Steps.frame_steps (Frame.log _ _ _ _)).tail (Step.ofSetResolved _ _ _ (by simp))

theorem Mod.resolveSelf_steps {go : Methods} (hs : go.Sound) {this : Nat} {f : Bool}
    {w w' : World} {b : Bool} (h : Mod.resolveSelf go this f w = some (b, w')) :
    Steps w w' := by
  unfold Mod.resolveSelf at h
  split at h
  · have s2 := Mod.markResolved_steps this w
    split at h
    · split at h
      · exact absurd h (by simp)
      · rename_i h2
        simp only [Option.some.injEq, Prod.mk.injEq] at h
        obtain ⟨-, rfl⟩ := h
        exact ((s2.trans (Steps.frame_steps (Frame.log _ _ _ _))).trans
          (hs.loadBinary _ _ _ _ h2)).trans (Steps.frame_steps (Frame.log _ _ _ _))
      · rename_i h2
        simp only [Option.some.injEq, Prod.mk.injEq] at h
        obtain ⟨-, rfl⟩ := h
        exact (s2.trans (Steps.frame_steps (Frame.log _ _ _ _))).trans (hs.loadBinary _ _ _ _ h2)
    · simp only [Option.some.injEq, Prod.mk.injEq] at h
      obtain ⟨-, rfl⟩ := h
      exact s2.trans (Steps.frame_steps (Frame.log _ _ _ _))
  · simp only [Option.some.injEq, Prod.mk.injEq] at h
    obtain ⟨-, rfl⟩ := h
    exact Relation.ReflTransGen.refl

theorem Mod.updateDependencyStates_steps {go : Methods} (hs : go.Sound) {this : Nat}
    {w w' : World} {b : Bool} (h : Mod.updateDependencyStates go this w = some (b, w')) :
    Steps w w' := by
  unfold Mod.updateDependencyStates at h
  split at h
  · exact absurd h (by simp)
  · rename_i hasUnresolved w1 h1
    exact (Mod.updateDependenciesFrom_steps hs _ h1).trans (Mod.resolveSelf_steps hs h)

theorem methods_sound (env : Env) (n : Nat) : (methods env n).Sound := by
  induction n with
  | zero =>
    exact ⟨fun _ _ _ _ h => absurd h (by simp [methods, Methods.bottom]),
      fun _ _ _ _ h => absurd h (by simp [methods, Methods.bottom]),
      fun _ _ _ _ h => absurd h (by simp [methods, Methods.bottom])⟩
  | succ n ih =>
    exact ⟨fun _ _ _ _ h => Mod.loadBinary_steps ih h,
      fun _ _ _ _ h => Mod.unloadBinary_steps ih h,
      fun _ _ _ _ h => Mod.updateDependencyStates_steps ih h⟩

theorem Op.run_steps {env : Env} {n : Nat} {op : Op} {w w' : World}
    (h : op.run env n w = some w') : Steps w w' := by
  have hs := methods_sound env n
  cases op with
  | loadBinary this =>
    simp only [Op.run, Option.map_eq_some', Prod.exists] at h
    obtain ⟨r, w1, h1, rfl⟩ := h
    exact Mod.loadBinary_steps hs h1
  | unloadBinary this =>
    simp only [Op.run, Option.map_eq_some', Prod.exists] at h
    obtain ⟨r, w1, h1, rfl⟩ := h
    exact Mod.unloadBinary_steps hs h1
  | enable this =>
    simp only [Op.run, Option.map_eq_some', Prod.exists] at h
    obtain ⟨r, w1, h1, rfl⟩ := h
    exact Mod.enable_steps hs h1
  | disable this =>
    simp only [Op.run, Option.some.injEq] at h
    subst h
    exact Mod.disable_steps env this w
  | uninstall this =>
    simp only [Op.run, Option.map_eq_some', Prod.exists] at h
    obtain ⟨r, w1, h1, rfl⟩ := h
    exact Mod.uninstall_steps hs h1
  | updateDependencyStates this =>
    simp only [Op.run, Option.map_eq_some', Prod.exists] at h
    obtain ⟨r, w1, h1, rfl⟩ := h
    exact Mod.updateDependencyStates_steps hs h1
  | updateAllDependencies =>
    exact Loader.updateAllDependencies_steps hs h

theorem Runs.steps {env : Env} {w w' : World} (h : Runs env w w') : Steps w w' := by
  induction h with
  | refl => exact Relation.ReflTransGen.refl
  | tail n op _ h2 ih => exact ih.trans (Op.run_steps h2)

/-! ## The invariant `enabled ⟹ binaryLoaded` (C1) -/

theorem World.mod_mem (w : World) {i : Nat} (h : i < w.mods.length) : w.mod i ∈ w.mods := by
  unfold World.mod
  rw [List.getD_eq_getElem _ _ h]
  exact List.getElem_mem h

theorem World.exists_mod_of_mem (w : World) {m : Mod} (h : m ∈ w.mods) :
    ∃ i, i < w.mods.length ∧ w.mod i = m := by
  obtain ⟨i, hi, rfl⟩ := List.mem_iff_getElem.mp h
  exact ⟨i, hi, by unfold World.mod; rw [List.getD_eq_getElem _ _ hi]⟩

theorem World.enabledImpliesLoaded_iff (w : World) :
    w.EnabledImpliesLoaded ↔
      ∀ i, (w.mod i).m_enabled = true → (w.mod i).m_binaryLoaded = true := by
  constructor
  · intro h i he
    by_cases hi : i < w.mods.length
    · exact h _ (w.mod_mem hi) he
    · rw [World.mod_of_le _ _ (Nat.le_of_not_lt hi)] at he
      exact absurd he (by decide)
  · intro h m hm
    obtain ⟨i, -, rfl⟩ := w.exists_mod_of_mem hm
    exact h i

theorem Step.enabledImpliesLoaded {w w' : World} (h : Step w w')
    (hw : w.EnabledImpliesLoaded) : w'.EnabledImpliesLoaded := by
  rw [World.enabledImpliesLoaded_iff] at hw ⊢
  intro j
  cases h with
  | flag hf =>
    cases hf with
    | frame f =>
      rw [(f.core j).enabled, (f.core j).loaded]
      exact hw j
    | load this hooks patches e _ _ _ hm _ =>
      rw [World.mod_of_mods_eq hm]
      split
      · intro _
        rfl
      · exact hw j
    | enable this hl hm _ =>
      rw [World.mod_of_mods_eq hm]
      split
      · rename_i h
        obtain ⟨rfl, -⟩ := h
        intro _
        exact hl
      · exact hw j
    | disable this hm _ =>
      rw [World.mod_of_mods_eq hm]
      split
      · intro h
        exact absurd h (by simp)
      · exact hw j
    | clear this _ hm _ =>
      rw [World.mod_of_mods_eq hm]
      split
      · rename_i h
        obtain ⟨rfl, -⟩ := h
        exact hw this
      · exact hw j
    | unload this he _ _ hm _ =>
      rw [World.mod_of_mods_eq hm]
      split
      · rename_i h
        obtain ⟨rfl, -⟩ := h
        intro h2
        rw [he] at h2
        exact absurd h2 (by simp)
      · exact hw j
  | setResolved this b _ hm _ =>
    rw [World.mod_of_mods_eq hm]
    split
    · rename_i h
      obtain ⟨rfl, -⟩ := h
      exact hw this
    · exact hw j
  | setDepMod this k _ hm _ =>
    rw [World.mod_of_mods_eq hm]
    split
    · rename_i h
      obtain ⟨rfl, -⟩ := h
      exact hw this
    · exact hw j
  | setDepState this k s _ hm _ =>
    rw [World.mod_of_mods_eq hm]
    split
    · rename_i h
      obtain ⟨rfl, -⟩ := h
      exact hw this
    · exact hw j

/-- C1: `enabled ⟹ binaryLoaded` is an invariant of the registry: if it holds
of every module when `loadBinary`, `unloadBinary`, `enable`, `disable`,
`uninstall`, `updateDependencyStates` (on any module) or the registry-wide
pass is called, it holds of every module in the state in which the operation
returns, whatever the collaborators answer and whatever the result. -/
theorem enabled_implies_loaded_invariant (env : Env) (n : Nat) (op : Op) (w w' : World)
    (hinv : w.EnabledImpliesLoaded) (h : op.run env n w = some w') :
    w'.EnabledImpliesLoaded :=
  Steps.induct (P := World.EnabledImpliesLoaded)
    (fun _ _ hs hw => Step.enabledImpliesLoaded hs hw) (Op.run_steps h) hinv

theorem enabled_implies_loaded_invariant_witness :
    (Scenario.chain [0, 1, 2] true true true true true true false).EnabledImpliesLoaded ∧
      ∃ w', (Op.loadBinary 2).run Scenario.env 9
          (Scenario.chain [0, 1, 2] true true true true true true false) = some w' ∧
        w'.EnabledImpliesLoaded :=
  ⟨by unfold World.EnabledImpliesLoaded; decide,
    ((Op.loadBinary 2).run Scenario.env 9
      (Scenario.chain [0, 1, 2] true true true true true true false)).get (by decide!),
    (Option.some_get _).symm,
    enabled_implies_loaded_invariant Scenario.env 9 (Op.loadBinary 2)
      (Scenario.chain [0, 1, 2] true true true true true true false) _
      (by unfold World.EnabledImpliesLoaded; decide) (Option.some_get _).symm⟩

/-! ## A dependency that is not installed (C5) -/

/-- The ids of the registry, in order. -/
theorem World.getLoadedMod_congr {w w' : World}
    (h : w'.mods.map (fun m => m.m_info.m_id) = w.mods.map (fun m => m.m_info.m_id))
    (id : String) : w'.getLoadedMod id = w.getLoadedMod id := by
  have key : ∀ l : List Mod, l.findIdx? (fun m => m.m_info.m_id == id) =
      (l.map (fun m => m.m_info.m_id)).findIdx? (fun x => x == id) := by
    intro l
    induction l with
    | nil => rfl
    | cons a l ih => simp [List.findIdx?_cons, ih]
  unfold World.getLoadedMod
  rw [key, key, h]

theorem World.ids_of_mods_eq {w w' : World} {this : Nat} {m : Mod}
    (h : w'.mods = w.mods.set this m) (hid : m.m_info.m_id = (w.mod this).m_info.m_id) :
    w'.mods.map (fun m => m.m_info.m_id) = w.mods.map (fun m => m.m_info.m_id) := by
  apply List.ext_getElem?
  intro j
  rw [h]
  simp only [List.getElem?_map, List.getElem?_set]
  by_cases hj : this = j
  · subst hj
    by_cases hl : this < w.mods.length
    · simp [hl, hid, World.mod, List.getD_eq_getElem?_getD]
    · simp [hl, List.getElem?_eq_none (Nat.le_of_not_lt hl)]
  · simp [hj]

theorem Frame.ids_frame {w w' : World} (f : Frame w w') :
    w'.mods.map (fun m => m.m_info.m_id) = w.mods.map (fun m => m.m_info.m_id) := by
  apply List.ext_getElem?
  intro j
  simp only [List.getElem?_map]
  by_cases hj : j < w.mods.length
  · have hj' : j < w'.mods.length := by rw [f.length]; exact hj
    have := (f.core j).info
    simp only [World.mod, List.getD_eq_getElem?_getD, List.getElem?_eq_getElem hj,
      List.getElem?_eq_getElem hj', Option.getD_some] at this
    simp [List.getElem?_eq_getElem hj, List.getElem?_eq_getElem hj', this]
  · have hj' : ¬ j < w'.mods.length := by rw [f.length]; exact hj
    simp [List.getElem?_eq_none (Nat.le_of_not_lt hj), List.getElem?_eq_none (Nat.le_of_not_lt hj')]

theorem Step.ids {w w' : World} (h : Step w w') :
    w'.mods.map (fun m => m.m_info.m_id) = w.mods.map (fun m => m.m_info.m_id) := by
  cases h with
  | flag hf =>
    cases hf with
    | frame f => exact f.ids_frame
    | load this hooks patches e _ _ _ hm _ => exact World.ids_of_mods_eq hm rfl
    | enable this _ hm _ => exact World.ids_of_mods_eq hm rfl
    | disable this hm _ => exact World.ids_of_mods_eq hm rfl
    | clear this _ hm _ => exact World.ids_of_mods_eq hm rfl
    | unload this _ _ _ hm _ => exact World.ids_of_mods_eq hm rfl
  | setResolved this b _ hm _ => exact World.ids_of_mods_eq hm rfl
  | setDepMod this k _ hm _ => exact World.ids_of_mods_eq hm rfl
  | setDepState this k s _ hm _ => exact World.ids_of_mods_eq hm rfl

theorem Step.getLoadedMod {w w' : World} (h : Step w w') (id : String) :
    w'.getLoadedMod id = w.getLoadedMod id :=
  World.getLoadedMod_congr h.ids id

theorem World.MissingDependency.transfer {w w' : World} {this k : Nat}
    (hw : w.MissingDependency this k)
    (hg : ∀ id, w'.getLoadedMod id = w.getLoadedMod id)
    (hid : ((w'.mod this).dep k).m_id = ((w.mod this).dep k).m_id)
    (hu : ((w'.mod this).dep k).isUnresolved = true)
    (hn : ((w'.mod this).dep k).m_mod = none)
    (hl : (w'.mod this).m_binaryLoaded = false) : w'.MissingDependency this k :=
  ⟨hu, hn, by rw [hg, hid]; exact hw.absent, hl⟩

theorem Step.missingDependency {w w' : World} (h : Step w w') (this k : Nat)
    (hw : w.MissingDependency this k) : w'.MissingDependency this k := by
  have hg := h.getLoadedMod
  have hu := hw.unresolved
  have hn := hw.noTarget
  have hl := hw.notLoaded
  cases h with
  | flag hf =>
    cases hf with
    | frame f =>
      have hi := (f.core this).info
      refine hw.transfer hg ?_ ?_ ?_ ?_
      · simp [Mod.dep, hi]
      · simpa [Mod.dep, hi] using hu
      · simpa [Mod.dep, hi] using hn
      · rw [(f.core this).loaded]; exact hl
    | load i hooks patches e _ hnu _ hm _ =>
      have hmod := World.mod_of_mods_eq hm this
      split at hmod
      · rename_i hc
        obtain ⟨rfl, -⟩ := hc
        rw [Mod.hasUnresolvedDependencies_of_dep _ _ hu] at hnu
        exact absurd hnu (by simp)
      · exact hw.transfer hg (by rw [hmod]) (by rw [hmod]; exact hu) (by rw [hmod]; exact hn)
          (by rw [hmod]; exact hl)
    | enable i _ hm _ =>
      have hmod := World.mod_of_mods_eq hm this
      split at hmod
      · rename_i hc
        obtain ⟨rfl, -⟩ := hc
        exact hw.transfer hg (by rw [hmod]; rfl) (by rw [hmod]; exact hu)
          (by rw [hmod]; exact hn) (by rw [hmod]; exact hl)
      · exact hw.transfer hg (by rw [hmod]) (by rw [hmod]; exact hu) (by rw [hmod]; exact hn)
          (by rw [hmod]; exact hl)
    | disable i hm _ =>
      have hmod := World.mod_of_mods_eq hm this
      split at hmod
      · rename_i hc
        obtain ⟨rfl, -⟩ := hc
        exact hw.transfer hg (by rw [hmod]; rfl) (by rw [hmod]; exact hu)
          (by rw [hmod]; exact hn) (by rw [hmod]; exact hl)
      · exact hw.transfer hg (by rw [hmod]) (by rw [hmod]; exact hu) (by rw [hmod]; exact hn)
          (by rw [hmod]; exact hl)
    | clear i _ hm _ =>
      have hmod := World.mod_of_mods_eq hm this
      split at hmod
      · rename_i hc
        obtain ⟨rfl, -⟩ := hc
        exact hw.transfer hg (by rw [hmod]; rfl) (by rw [hmod]; exact hu)
          (by rw [hmod]; exact hn) (by rw [hmod]; exact hl)
      · exact hw.transfer hg (by rw [hmod]) (by rw [hmod]; exact hu) (by rw [hmod]; exact hn)
          (by rw [hmod]; exact hl)
    | unload i _ _ _ hm _ =>
      have hmod := World.mod_of_mods_eq hm this
      split at hmod
      · rename_i hc
        obtain ⟨rfl, -⟩ := hc
        exact hw.transfer hg (by rw [hmod]; rfl) (by rw [hmod]; exact hu)
          (by rw [hmod]; exact hn) (by rw [hmod])
      · exact hw.transfer hg (by rw [hmod]) (by rw [hmod]; exact hu) (by rw [hmod]; exact hn)
          (by rw [hmod]; exact hl)
  | setResolved i b _ hm _ =>
    have hmod := World.mod_of_mods_eq hm this
    split at hmod
    · rename_i hc
      obtain ⟨rfl, -⟩ := hc
      exact hw.transfer hg (by rw [hmod]; rfl) (by rw [hmod]; exact hu)
        (by rw [hmod]; exact hn) (by rw [hmod]; exact hl)
    · exact hw.transfer hg (by rw [hmod]) (by rw [hmod]; exact hu) (by rw [hmod]; exact hn)
        (by rw [hmod]; exact hl)
  | setDepMod i k2 _ hm _ =>
    have hmod := World.mod_of_mods_eq hm this
    split at hmod
    · rename_i hc
      obtain ⟨rfl, -⟩ := hc
      have hd := Mod.dep_setDep (w.mod i) k2 k
        { (w.mod i).dep k2 with m_mod := w.getLoadedMod ((w.mod i).dep k2).m_id }
      split at hd
      · rename_i hc2
        obtain ⟨rfl, -⟩ := hc2
        exact hw.transfer hg (by rw [hmod, hd]) (by rw [hmod, hd]; exact hu)
          (by rw [hmod, hd]; exact hw.absent) (by rw [hmod]; exact hl)
      · exact hw.transfer hg (by rw [hmod, hd]) (by rw [hmod, hd]; exact hu)
          (by rw [hmod, hd]; exact hn) (by rw [hmod]; exact hl)
    · exact hw.transfer hg (by rw [hmod]) (by rw [hmod]; exact hu) (by rw [hmod]; exact hn)
        (by rw [hmod]; exact hl)
  | setDepState i k2 s hs hm _ =>
    have hmod := World.mod_of_mods_eq hm this
    split at hmod
    · rename_i hc
      obtain ⟨rfl, -⟩ := hc
      have hd := Mod.dep_setDep (w.mod i) k2 k { (w.mod i).dep k2 with m_state := s }
      split at hd
      · rename_i hc2
        obtain ⟨rfl, -⟩ := hc2
        have hs2 := hs hn
        subst hs2
        have hreq : ((w.mod i).dep k2).m_required = true := by
          simp only [Dependency.isUnresolved, Bool.and_eq_true] at hu
          exact hu.1
        exact hw.transfer hg (by rw [hmod, hd]) (by rw [hmod, hd]; simp [Dependency.isUnresolved, hreq])
          (by rw [hmod, hd]; exact hn) (by rw [hmod]; exact hl)
      · exact hw.transfer hg (by rw [hmod, hd]) (by rw [hmod, hd]; exact hu)
          (by rw [hmod, hd]; exact hn) (by rw [hmod]; exact hl)
    · exact hw.transfer hg (by rw [hmod]) (by rw [hmod]; exact hu) (by rw [hmod]; exact hn)
        (by rw [hmod]; exact hl)

/-- C5, as the code has it: for a module that is not loaded and has a required
dependency whose target is not installed (its record unresolved and without
target, as from registration on), `loadBinary` returns a failure, whatever the
collaborators answer: the staging error "Unable to create temp directory" when
`createTempDir` fails, since staging comes first, and the dependency error
"Mod has unresolved dependencies" otherwise, in the state `createTempDir`
leaves; and the module stays unloaded, with its record as it was described,
through every operation that returns afterwards. -/
theorem missing_dependency_never_loads (env : Env) (n this k : Nat) (w : World)
    (h : w.MissingDependency this k) :
    (methods env (n + 1)).loadBinary this w =
        some (if (Mod.createTempDir env this w).1.isOk then Err "Mod has unresolved dependencies"
          else Err "Unable to create temp directory", (Mod.createTempDir env this w).2) ∧
      ∀ w', Runs env w w' →
        w'.MissingDependency this k ∧ (w'.mod this).m_binaryLoaded = false := by
  constructor
  · show Mod.loadBinary env (methods env n) this w = _
    have hf := Frame.createTempDir env this w
    have hu : ((Mod.createTempDir env this w).2.mod this).hasUnresolvedDependencies = true := by
      unfold Mod.hasUnresolvedDependencies
      rw [(hf.core this).info]
      exact Mod.hasUnresolvedDependencies_of_dep _ _ h.unresolved
    unfold Mod.loadBinary
    rw [if_neg (by simp [h.notLoaded])]
    split
    · rename_i hc
      simp [hc, Result.isOk]
    · rename_i hc
      rw [hc] at hu
      simp [hc, Result.isOk, hu]
  · intro w' hr
    have := Steps.induct (P := fun w => w.MissingDependency this k)
      (fun _ _ hs hw => Step.missingDependency hs this k hw) hr.steps h
    exact ⟨this, this.notLoaded⟩

theorem missing_dependency_never_loads_witness :
    Scenario.orphan.MissingDependency 0 0 ∧
      ((methods Scenario.env (0 + 1)).loadBinary 0 Scenario.orphan =
          some (if (Mod.createTempDir Scenario.env 0 Scenario.orphan).1.isOk then
              Err "Mod has unresolved dependencies"
            else Err "Unable to create temp directory",
            (Mod.createTempDir Scenario.env 0 Scenario.orphan).2) ∧
        ∀ w', Runs Scenario.env Scenario.orphan w' →
          w'.MissingDependency 0 0 ∧ (w'.mod 0).m_binaryLoaded = false) :=
  ⟨⟨by decide, by decide, by decide, by decide⟩,
    missing_dependency_never_loads Scenario.env 0 0 0 Scenario.orphan
      ⟨by decide, by decide, by decide, by decide⟩⟩

/-- C5 fails as stated: when the collaborators refuse to create the staging
directory, `loadBinary` on the module with the missing dependency returns the
staging error, not the dependency error. -/
theorem missing_dependency_staging_error :
    Scenario.orphan.MissingDependency 0 0 ∧
      ((methods Scenario.envNoDirectory 1).loadBinary 0 Scenario.orphan).map (fun r => r.1) =
        some (Err "Unable to create temp directory") :=
  ⟨⟨by decide, by decide, by decide, by decide⟩, rfl⟩

/-! ## What a step does to the flags and to the trace -/

theorem Mod.hasUnresolvedDependencies_congr {m m' : Mod} (h : m'.m_info = m.m_info) :
    m'.hasUnresolvedDependencies = m.hasUnresolvedDependencies := by
  unfold Mod.hasUnresolvedDependencies
  rw [h]

/-- Summary of an atomic step: the effects it adds; every `Loaded` event among
them shows a registered module loaded and without unresolved dependency; and a
module for which no `Loaded` event is added does not become loaded, becomes
enabled only if it is loaded, and gains no hook or patch. -/
theorem Step.summary_step {w w' : World} (h : Step w w') :
    ∃ l, w'.trace = w.trace ++ l ∧
      (∀ i seen, Effect.post i ModEventType.Loaded seen ∈ l → i < w.mods.length →
        seen.m_binaryLoaded = true ∧ seen.hasUnresolvedDependencies = false) ∧
      ∀ j, (∃ seen, Effect.post j ModEventType.Loaded seen ∈ l) ∨
        (((w'.mod j).m_binaryLoaded = true → (w.mod j).m_binaryLoaded = true) ∧
          ((w'.mod j).m_enabled = true →
            (w.mod j).m_enabled = true ∨ (w.mod j).m_binaryLoaded = true) ∧
          ((w'.mod j).m_hooks = (w.mod j).m_hooks ∨ (w'.mod j).m_hooks = []) ∧
          ((w'.mod j).m_patches = (w.mod j).m_patches ∨ (w'.mod j).m_patches = [])) := by
  cases h with
  | flag hf =>
    cases hf with
    | frame f =>
      obtain ⟨l, hl, hn⟩ := f.trace
      refine ⟨l, hl, ?_, fun j => Or.inr ?_⟩
      · intro i seen hmem
        have := hn _ hmem
        simp [Effect.seenLoaded] at this
      · rw [(f.core j).loaded, (f.core j).enabled, (f.core j).hooks, (f.core j).patches]
        exact ⟨id, Or.inl, Or.inl rfl, Or.inl rfl⟩
    | load this hooks patches e hl hu he hm ht =>
      refine ⟨_, ht, ?_, fun j => ?_⟩
      · intro i seen hmem hi
        simp only [List.mem_cons, List.mem_singleton, Effect.post.injEq, List.not_mem_nil,
          or_false] at hmem
        rcases hmem with hmem | hmem
        · subst hmem
          simp [Effect.seenLoaded] at he
        · obtain ⟨rfl, -, rfl⟩ := hmem
          rw [World.mod_of_mods_eq hm, if_pos ⟨rfl, hi⟩]
          exact ⟨rfl, by rw [← hu]; exact Mod.hasUnresolvedDependencies_congr rfl⟩
      · by_cases hj : this = j ∧ this < w.mods.length
        · obtain ⟨rfl, -⟩ := hj
          exact Or.inl ⟨w'.mod this, by simp⟩
        · refine Or.inr ?_
          rw [World.mod_of_mods_eq hm j, if_neg hj]
          exact ⟨id, Or.inl, Or.inl rfl, Or.inl rfl⟩
    | enable this hl hm ht =>
      refine ⟨_, ht, ?_, fun j => Or.inr ?_⟩
      · intro i seen hmem
        simp at hmem
      · rw [World.mod_of_mods_eq hm]
        split
        · rename_i hj
          obtain ⟨rfl, -⟩ := hj
          exact ⟨id, fun _ => Or.inr hl, Or.inl rfl, Or.inl rfl⟩
        · exact ⟨id, Or.inl, Or.inl rfl, Or.inl rfl⟩
    | disable this hm ht =>
      refine ⟨[], by simpa using ht, by simp, fun j => Or.inr ?_⟩
      rw [World.mod_of_mods_eq hm]
      split
      · rename_i hj
        obtain ⟨rfl, -⟩ := hj
        exact ⟨id, fun h => absurd h (by simp), Or.inl rfl, Or.inl rfl⟩
      · exact ⟨id, Or.inl, Or.inl rfl, Or.inl rfl⟩
    | clear this _ hm ht =>
      refine ⟨[], by simpa using ht, by simp, fun j => Or.inr ?_⟩
      rw [World.mod_of_mods_eq hm]
      split
      · rename_i hj
        obtain ⟨rfl, -⟩ := hj
        exact ⟨id, Or.inl, Or.inr rfl, Or.inr rfl⟩
      · exact ⟨id, Or.inl, Or.inl rfl, Or.inl rfl⟩
    | unload this _ _ _ hm ht =>
      refine ⟨[], by simpa using ht, by simp, fun j => Or.inr ?_⟩
      rw [World.mod_of_mods_eq hm]
      split
      · rename_i hj
        obtain ⟨rfl, -⟩ := hj
        exact ⟨fun h => absurd h (by simp), Or.inl, Or.inl rfl, Or.inl rfl⟩
      · exact ⟨id, Or.inl, Or.inl rfl, Or.inl rfl⟩
  | setResolved this b _ hm ht =>
    refine ⟨[], by simpa using ht, by simp, fun j => Or.inr ?_⟩
    rw [World.mod_of_mods_eq hm]
    split
    · rename_i hj
      obtain ⟨rfl, -⟩ := hj
      exact ⟨id, Or.inl, Or.inl rfl, Or.inl rfl⟩
    · exact ⟨id, Or.inl, Or.inl rfl, Or.inl rfl⟩
  | setDepMod this k _ hm ht =>
    refine ⟨[], by simpa using ht, by simp, fun j => Or.inr ?_⟩
    rw [World.mod_of_mods_eq hm]
    split
    · rename_i hj
      obtain ⟨rfl, -⟩ := hj
      exact ⟨id, Or.inl, Or.inl rfl, Or.inl rfl⟩
    · exact ⟨id, Or.inl, Or.inl rfl, Or.inl rfl⟩
  | setDepState this k s _ hm ht =>
    refine ⟨[], by simpa using ht, by simp, fun j => Or.inr ?_⟩
    rw [World.mod_of_mods_eq hm]
    split
    · rename_i hj
      obtain ⟨rfl, -⟩ := hj
      exact ⟨id, Or.inl, Or.inl rfl, Or.inl rfl⟩
    · exact ⟨id, Or.inl, Or.inl rfl, Or.inl rfl⟩

/-- Summary of a sequence of steps, as `Step.summary_step`. -/
theorem Steps.summary {w w' : World} (h : Steps w w') :
    ∃ l, w'.trace = w.trace ++ l ∧
      (∀ i seen, Effect.post i ModEventType.Loaded seen ∈ l → i < w.mods.length →
        seen.m_binaryLoaded = true ∧ seen.hasUnresolvedDependencies = false) ∧
      ∀ j, (∃ seen, Effect.post j ModEventType.Loaded seen ∈ l) ∨
        (((w'.mod j).m_binaryLoaded = true → (w.mod j).m_binaryLoaded = true) ∧
          ((w'.mod j).m_enabled = true →
            (w.mod j).m_enabled = true ∨ (w.mod j).m_binaryLoaded = true) ∧
          ((w'.mod j).m_hooks = (w.mod j).m_hooks ∨ (w'.mod j).m_hooks = []) ∧
          ((w'.mod j).m_patches = (w.mod j).m_patches ∨ (w'.mod j).m_patches = [])) := by
  induction h with
  | refl =>
    exact ⟨[], by simp, by simp, fun j => Or.inr ⟨id, Or.inl, Or.inl rfl, Or.inl rfl⟩⟩
  | tail hs hstep ih =>
    rename_i w1 w2
    obtain ⟨l1, ht1, he1, hm1⟩ := ih
    obtain ⟨l2, ht2, he2, hm2⟩ := hstep.summary_step
    refine ⟨l1 ++ l2, by rw [ht2, ht1, List.append_assoc], ?_, fun j => ?_⟩
    · intro i seen hmem hi
      rcases List.mem_append.mp hmem with hmem | hmem
      · exact he1 i seen hmem hi
      · exact he2 i seen hmem (by rw [Steps.length hs]; exact hi)
    · rcases hm1 j with ⟨seen, hs1⟩ | ⟨a1, b1, c1, d1⟩
      · exact Or.inl ⟨seen, List.mem_append_left _ hs1⟩
      · rcases hm2 j with ⟨seen, hs2⟩ | ⟨a2, b2, c2, d2⟩
        · exact Or.inl ⟨seen, List.mem_append_right _ hs2⟩
        · refine Or.inr ⟨fun h => a1 (a2 h), fun h => ?_, ?_, ?_⟩
          · rcases b2 h with h | h
            · exact b1 h
            · exact Or.inr (a1 h)
          · rcases c2 with h | h
            · rcases c1 with h1 | h1
              · exact Or.inl (h.trans h1)
              · exact Or.inr (h.trans h1)
            · exact Or.inr h
          · rcases d2 with h | h
            · rcases d1 with h1 | h1
              · exact Or.inl (h.trans h1)
              · exact Or.inr (h.trans h1)
            · exact Or.inr h

/-! ## When `m_binaryLoaded` becomes true (C10) -/

/-- C10, as the code has it: `loadBinary` does not read `m_resolved`; what it
has established when it sets `m_binaryLoaded` is that the module has no
unresolved dependency record.  For every operation that returns, with `l` the
effects it added to the trace: every `Loaded` event in `l` (posted right after
the flag is set) shows a registered module with `m_binaryLoaded` true and
`hasUnresolvedDependencies` false, and every module whose `m_binaryLoaded`
went from false to true has a `Loaded` event in `l`. -/
theorem loaded_only_without_unresolved_dependencies (env : Env) (n : Nat) (op : Op)
    (w w' : World) (h : op.run env n w = some w') :
    ∃ l, w'.trace = w.trace ++ l ∧
      (∀ i seen, Effect.post i ModEventType.Loaded seen ∈ l → i < w.mods.length →
        seen.m_binaryLoaded = true ∧ seen.hasUnresolvedDependencies = false) ∧
      ∀ i, (w.mod i).m_binaryLoaded = false → (w'.mod i).m_binaryLoaded = true →
        ∃ seen, Effect.post i ModEventType.Loaded seen ∈ l := by
  obtain ⟨l, ht, he, hm⟩ := (Op.run_steps h).summary
  refine ⟨l, ht, he, fun i h0 h1 => ?_⟩
  rcases hm i with hs | ⟨a, -, -, -⟩
  · exact hs
  · rw [a h1] at h0
    exact absurd h0 (by simp)

theorem loaded_only_without_unresolved_dependencies_witness :
    ∃ w', (Op.loadBinary 2).run Scenario.env 9
        (Scenario.chain [0, 1, 2] true true true true true true false) = some w' ∧
      ∃ l, w'.trace = (Scenario.chain [0, 1, 2] true true true true true true false).trace ++ l ∧
        (∀ i seen, Effect.post i ModEventType.Loaded seen ∈ l →
          i < (Scenario.chain [0, 1, 2] true true true true true true false).mods.length →
          seen.m_binaryLoaded = true ∧ seen.hasUnresolvedDependencies = false) ∧
        ∀ i, ((Scenario.chain [0, 1, 2] true true true true true true false).mod i).m_binaryLoaded
            = false → (w'.mod i).m_binaryLoaded = true →
          ∃ seen, Effect.post i ModEventType.Loaded seen ∈ l :=
  ⟨((Op.loadBinary 2).run Scenario.env 9
      (Scenario.chain [0, 1, 2] true true true true true true false)).get (by decide!),
    (Option.some_get _).symm,
    loaded_only_without_unresolved_dependencies Scenario.env 9 (Op.loadBinary 2)
      (Scenario.chain [0, 1, 2] true true true true true true false) _
      (Option.some_get _).symm⟩

/-- C10 fails as stated: `loadBinary` on a module without dependencies that has
never been resolved succeeds; its only `Loaded` event shows the module with
`m_binaryLoaded` true and `m_resolved` false. -/
theorem loaded_while_not_resolved :
    ((Scenario.chain [0, 1, 2] true true true true true true false).mod 2).m_binaryLoaded = false ∧
      ((Op.loadBinary 2).run Scenario.env 9
          (Scenario.chain [0, 1, 2] true true true true true true false)).map
        (fun w => ((w.mod 2).m_binaryLoaded,
          (w.trace.filterMap Effect.seenLoaded).map
            (fun seen => (seen.m_info.m_id, seen.m_binaryLoaded, seen.m_resolved)))) =
        some (true, [("c", true, false)]) := by
  decide!

/-! ## Unloading (C7) -/

theorem Mod.saveSettings_ok (env : Env) (this : Nat)
    (henv : ∀ c t, c.unloads this = true → env.fails c t = none)
    (setts : List (String × Setting)) (json : List (String × Json)) (w : World) :
    ∃ json' w', Mod.saveSettings env this setts json w = (Except.ok json', w') := by
  induction setts generalizing json w with
  | nil => exact ⟨json, w, rfl⟩
  | cons kv rest ih =>
    obtain ⟨key, sett⟩ := kv
    unfold Mod.saveSettings
    have hc : env.fails (Call.settingSave this key sett) w.trace.length = none :=
      henv _ _ (by simp [Call.unloads])
    simp only [World.call, hc]
    exact ih _ _

theorem Mod.saveData_ok (env : Env) (this : Nat)
    (henv : ∀ c t, c.unloads this = true → env.fails c t = none) (w : World) :
    ∃ w', Mod.saveData env this w = (Except.ok (), w') := by
  unfold Mod.saveData
  simp only
  obtain ⟨json, w1, h1⟩ := Mod.saveSettings_ok env this henv
    ((w.post this ModEventType.DataSaved).mod this).m_info.m_settings []
    (w.post this ModEventType.DataSaved)
  rw [h1]
  simp only [World.call, henv _ _ (show (Call.writeString _ _).unloads this = true from rfl)]
  exact ⟨_, rfl⟩

theorem Mod.disableHooks_ok (env : Env) (this : Nat)
    (henv : ∀ c t, c.unloads this = true → env.fails c t = none)
    (hooks : List Hook) (w : World) :
    ∃ w', Mod.disableHooks env this hooks w = (Except.ok (), w') := by
  induction hooks generalizing w with
  | nil => exact ⟨w, rfl⟩
  | cons hook rest ih =>
    unfold Mod.disableHooks
    have hc : env.fails (Call.disableHook this hook) w.trace.length = none :=
      henv _ _ (by simp [Call.unloads])
    simp only [World.call, hc]
    exact ih _

theorem Mod.restorePatches_ok (env : Env) (this : Nat)
    (henv : ∀ c t, c.unloads this = true → env.fails c t = none)
    (patches : List Patch) (w : World) :
    ∃ w', Mod.restorePatches env this patches w = (Except.ok (), w') := by
  induction patches generalizing w with
  | nil => exact ⟨w, rfl⟩
  | cons patch rest ih =>
    unfold Mod.restorePatches
    have hc : env.fails (Call.patchRestore this patch) w.trace.length = none :=
      henv _ _ (by simp [Call.unloads])
    simp only [World.call, hc]
    exact ih _

theorem Mod.disable_ok (env : Env) (this : Nat)
    (henv : ∀ c t, c.unloads this = true → env.fails c t = none) (w : World)
    (hd : (w.mod this).m_enabled = true → (w.mod this).m_info.m_supportsDisabling = true) :
    ∃ w', Mod.disable env this w = (Except.ok (), w') := by
  unfold Mod.disable
  by_cases he : (w.mod this).m_enabled = true
  · simp only [he, hd he, Bool.not_true, Bool.false_eq_true, if_false]
    obtain ⟨w1, h1⟩ := Mod.disableHooks_ok env this henv (w.mod this).m_hooks
      (w.post this ModEventType.Disabled)
    rw [h1]
    simp only
    obtain ⟨w2, h2⟩ := Mod.restorePatches_ok env this henv (w1.mod this).m_patches w1
    rw [h2]
    exact ⟨_, rfl⟩
  · simp only [Bool.not_eq_true] at he
    simp only [he, Bool.not_false, if_true]
    exact ⟨w, rfl⟩

/-! ## The forced unload cascade (C4) -/

theorem Steps.trace {w w' : World} (h : Steps w w') : ∃ l, w'.trace = w.trace ++ l := by
  obtain ⟨l, hl, -⟩ := h.summary
  exact ⟨l, hl⟩

theorem Step.requires_step {w w' : World} (h : Step w w') (a k b : Nat)
    (hw : w.Requires a k b) : w'.Requires a k b := by
  have hg := h.getLoadedMod
  obtain ⟨hreq, htar⟩ := hw
  have key : ∀ m' : Mod, w'.mod a = m' → m'.dep k = (w.mod a).dep k → w'.Requires a k b := by
    intro m' hm hd
    unfold World.Requires
    rw [hm, hd, hg]
    exact ⟨hreq, htar⟩
  cases h with
  | flag hf =>
    cases hf with
    | frame f =>
      exact key _ rfl (by simp [Mod.dep, (f.core a).info])
    | load this hooks patches e _ _ _ hm _ =>
      have hmod := World.mod_of_mods_eq hm a
      split at hmod
      · rename_i hc
        obtain ⟨rfl, -⟩ := hc
        exact key _ hmod rfl
      · exact key _ hmod rfl
    | enable this _ hm _ =>
      have hmod := World.mod_of_mods_eq hm a
      split at hmod
      · rename_i hc
        obtain ⟨rfl, -⟩ := hc
        exact key _ hmod rfl
      · exact key _ hmod rfl
    | disable this hm _ =>
      have hmod := World.mod_of_mods_eq hm a
      split at hmod
      · rename_i hc
        obtain ⟨rfl, -⟩ := hc
        exact key _ hmod rfl
      · exact key _ hmod rfl
    | clear this _ hm _ =>
      have hmod := World.mod_of_mods_eq hm a
      split at hmod
      · rename_i hc
        obtain ⟨rfl, -⟩ := hc
        exact key _ hmod rfl
      · exact key _ hmod rfl
    | unload this _ _ _ hm _ =>
      have hmod := World.mod_of_mods_eq hm a
      split at hmod
      · rename_i hc
        obtain ⟨rfl, -⟩ := hc
        exact key _ hmod rfl
      · exact key _ hmod rfl
  | setResolved this bv _ hm _ =>
    have hmod := World.mod_of_mods_eq hm a
    split at hmod
    · rename_i hc
      obtain ⟨rfl, -⟩ := hc
      exact key _ hmod rfl
    · exact key _ hmod rfl
  | setDepMod this k2 hn hm _ =>
    have hmod := World.mod_of_mods_eq hm a
    split at hmod
    · rename_i hc
      obtain ⟨rfl, -⟩ := hc
      have hd := Mod.dep_setDep (w.mod this) k2 k
        { (w.mod this).dep k2 with m_mod := w.getLoadedMod ((w.mod this).dep k2).m_id }
      split at hd
      · rename_i hc2
        obtain ⟨rfl, -⟩ := hc2
        unfold World.Requires
        rw [hmod, hd, hg]
        rcases htar with h1 | ⟨-, h2⟩
        · rw [hn] at h1
          exact absurd h1 (by simp)
        · exact ⟨hreq, Or.inl h2⟩
      · exact key _ hmod hd
    · exact key _ hmod rfl
  | setDepState this k2 s _ hm _ =>
    have hmod := World.mod_of_mods_eq hm a
    split at hmod
    · rename_i hc
      obtain ⟨rfl, -⟩ := hc
      have hd := Mod.dep_setDep (w.mod this) k2 k { (w.mod this).dep k2 with m_state := s }
      split at hd
      · rename_i hc2
        obtain ⟨rfl, -⟩ := hc2
        unfold World.Requires
        rw [hmod, hd, hg]
        exact ⟨hreq, htar⟩
      · exact key _ hmod hd
    · exact key _ hmod rfl

theorem Steps.requires {w w' : World} (h : Steps w w') (a k b : Nat)
    (hw : w.Requires a k b) : w'.Requires a k b :=
  Steps.induct (P := fun w => w.Requires a k b) (fun _ _ hs hw => hs.requires_step a k b hw) h hw

/-- An atomic step keeps the capabilities of a module. -/
theorem Step.supports_step {w w' : World} (h : Step w w') (a : Nat) :
    (w'.mod a).m_info.m_supportsUnloading = (w.mod a).m_info.m_supportsUnloading ∧
      (w'.mod a).m_info.m_supportsDisabling = (w.mod a).m_info.m_supportsDisabling := by
  have key : ∀ m' : Mod, w'.mod a = m' →
      m'.m_info.m_supportsUnloading = (w.mod a).m_info.m_supportsUnloading →
      m'.m_info.m_supportsDisabling = (w.mod a).m_info.m_supportsDisabling →
      (w'.mod a).m_info.m_supportsUnloading = (w.mod a).m_info.m_supportsUnloading ∧
        (w'.mod a).m_info.m_supportsDisabling = (w.mod a).m_info.m_supportsDisabling := by
    intro m' hm h1 h2
    rw [hm]
    exact ⟨h1, h2⟩
  cases h with
  | flag hf =>
    cases hf with
    | frame f => exact key _ rfl (by rw [(f.core a).info]) (by rw [(f.core a).info])
    | load this hooks patches e _ _ _ hm _ =>
      have hmod := World.mod_of_mods_eq hm a
      split at hmod
      · rename_i hc
        obtain ⟨rfl, -⟩ := hc
        exact key _ hmod rfl rfl
      · exact key _ hmod rfl rfl
    | enable this _ hm _ =>
      have hmod := World.mod_of_mods_eq hm a
      split at hmod
      · rename_i hc
        obtain ⟨rfl, -⟩ := hc
        exact key _ hmod rfl rfl
      · exact key _ hmod rfl rfl
    | disable this hm _ =>
      have hmod := World.mod_of_mods_eq hm a
      split at hmod
      · rename_i hc
        obtain ⟨rfl, -⟩ := hc
        exact key _ hmod rfl rfl
      · exact key _ hmod rfl rfl
    | clear this _ hm _ =>
      have hmod := World.mod_of_mods_eq hm a
      split at hmod
      · rename_i hc
        obtain ⟨rfl, -⟩ := hc
        exact key _ hmod rfl rfl
      · exact key _ hmod rfl rfl
    | unload this _ _ _ hm _ =>
      have hmod := World.mod_of_mods_eq hm a
      split at hmod
      · rename_i hc
        obtain ⟨rfl, -⟩ := hc
        exact key _ hmod rfl rfl
      · exact key _ hmod rfl rfl
  | setResolved this bv _ hm _ =>
    have hmod := World.mod_of_mods_eq hm a
    split at hmod
    · rename_i hc
      obtain ⟨rfl, -⟩ := hc
      exact key _ hmod rfl rfl
    · exact key _ hmod rfl rfl
  | setDepMod this k2 hn hm _ =>
    have hmod := World.mod_of_mods_eq hm a
    split at hmod
    · rename_i hc
      obtain ⟨rfl, -⟩ := hc
      exact key _ hmod rfl rfl
    · exact key _ hmod rfl rfl
  | setDepState this k2 s _ hm _ =>
    have hmod := World.mod_of_mods_eq hm a
    split at hmod
    · rename_i hc
      obtain ⟨rfl, -⟩ := hc
      exact key _ hmod rfl rfl
    · exact key _ hmod rfl rfl

/-- Atomic steps keep the capabilities of a module. -/
theorem Steps.supports {w w' : World} (h : Steps w w') (a : Nat) :
    (w'.mod a).m_info.m_supportsUnloading = (w.mod a).m_info.m_supportsUnloading ∧
      (w'.mod a).m_info.m_supportsDisabling = (w.mod a).m_info.m_supportsDisabling :=
  Steps.induct (P := fun x =>
      (x.mod a).m_info.m_supportsUnloading = (w.mod a).m_info.m_supportsUnloading ∧
        (x.mod a).m_info.m_supportsDisabling = (w.mod a).m_info.m_supportsDisabling)
    (fun _ _ hs hx => ⟨(hs.supports_step a).1.trans hx.1, (hs.supports_step a).2.trans hx.2⟩)
    h ⟨rfl, rfl⟩

theorem Steps.static {w w' : World} (h : Steps w w') {a k b : Nat} {c : Bool}
    (hw : w.Static a k b c) : w'.Static a k b c :=
  ⟨h.requires a k b hw.1, fun hc => ((h.supports a).1).trans (hw.2 hc)⟩

theorem Bool.false_of_imp {x y : Bool} (h : x = true → y = true) (hy : y = false) :
    x = false := by
  cases x
  · rfl
  · exact absurd ((h rfl).symm.trans hy) (by simp)

theorem World.Held.of_mods_eq {w w' : World} {a k b : Nat} {c : Bool} {this : Nat} {m : Mod}
    (hm : w'.mods = w.mods.set this m) (hw : w.Held a k b c)
    (hb : this = b → (m.m_binaryLoaded = true → (w.mod b).m_binaryLoaded = true) ∧
      (m.m_enabled = true → (w.mod b).m_enabled = true))
    (ha : this = a → (m.m_resolved = true → (w.mod a).m_resolved = true) ∧
      (m.dep k).isUnresolved = true ∧
      (m.m_binaryLoaded = true → (w.mod a).m_binaryLoaded = true))
    (hq : this = a → c = true → m.m_enabled = true → m.m_info.m_supportsDisabling = true) :
    w'.Held a k b c := by
  have hmb := World.mod_of_mods_eq hm b
  have hma := World.mod_of_mods_eq hm a
  refine ⟨?_, ?_, ?_, ?_, fun hc => ?_, fun hc => ?_⟩
  · rw [hmb]
    split
    · rename_i h
      exact Bool.false_of_imp (hb h.1).1 hw.targetNotLoaded
    · exact hw.targetNotLoaded
  · rw [hmb]
    split
    · rename_i h
      exact Bool.false_of_imp (hb h.1).2 hw.targetNotEnabled
    · exact hw.targetNotEnabled
  · rw [hma]
    split
    · rename_i h
      exact Bool.false_of_imp (ha h.1).1 hw.notResolved
    · exact hw.notResolved
  · rw [hma]
    split
    · rename_i h
      exact (ha h.1).2.1
    · exact hw.unresolved
  · rw [hma]
    split
    · rename_i h
      exact Bool.false_of_imp (ha h.1).2.2 (hw.notLoaded hc)
    · exact hw.notLoaded hc
  · unfold World.Calm
    rw [hma]
    split
    · rename_i h
      exact hq h.1 hc
    · exact hw.calm hc

theorem World.Calm.frame_calm {w w' : World} {a : Nat} (f : Frame w w') (hw : w.Calm a) :
    w'.Calm a := by
  unfold World.Calm
  rw [(f.core a).enabled, (f.core a).info]
  exact hw

theorem World.Held.frame {w w' : World} {a k b : Nat} {c : Bool} (f : Frame w w')
    (hw : w.Held a k b c) : w'.Held a k b c := by
  refine ⟨?_, ?_, ?_, ?_, fun hc => ?_, fun hc => (hw.calm hc).frame_calm f⟩
  · rw [(f.core b).loaded]; exact hw.targetNotLoaded
  · rw [(f.core b).enabled]; exact hw.targetNotEnabled
  · rw [(f.core a).resolved]; exact hw.notResolved
  · have := hw.unresolved
    simpa [Mod.dep, (f.core a).info] using this
  · rw [(f.core a).loaded]; exact hw.notLoaded hc

theorem World.setResolved_mods (w : World) (i : Nat) (bv : Bool) :
    (w.setResolved i bv).mods = w.mods.set i { w.mod i with m_resolved := bv } := rfl

theorem World.setDepState_mods (w : World) (i k : Nat) (s : ModResolveState) :
    (w.setDepState i k s).mods =
      w.mods.set i ((w.mod i).setDep k { (w.mod i).dep k with m_state := s }) := rfl

theorem World.Held.setResolved {w : World} {a k b : Nat} {c : Bool} (hw : w.Held a k b c)
    (i : Nat) (bv : Bool) (h : i = a → bv = false) : (w.setResolved i bv).Held a k b c := by
  refine World.Held.of_mods_eq (w.setResolved_mods i bv) hw (fun hb => ?_) (fun ha => ?_)
    (fun ha hc => ?_)
  · subst hb
    exact ⟨id, id⟩
  · subst ha
    refine ⟨fun hx => ?_, hw.unresolved, id⟩
    rw [h rfl] at hx
    exact absurd hx (by simp)
  · subst ha
    exact hw.calm hc

theorem Dependency.isUnresolved_state (d : Dependency) (s : ModResolveState)
    (hd : d.m_required = true)
    (hs : s = ModResolveState.Unloaded ∨ s = ModResolveState.Unresolved ∨
      s = ModResolveState.Disabled) :
    ({ d with m_state := s } : Dependency).isUnresolved = true := by
  rcases hs with rfl | rfl | rfl <;> simp [Dependency.isUnresolved, hd]

theorem Dependency.required_of_isUnresolved (d : Dependency) (h : d.isUnresolved = true) :
    d.m_required = true := by
  simp only [Dependency.isUnresolved, Bool.and_eq_true] at h
  exact h.1

theorem World.Held.setDepState {w : World} {a k b : Nat} {c : Bool} (hw : w.Held a k b c)
    (i k2 : Nat) (s : ModResolveState)
    (h : i = a → k2 = k → s = ModResolveState.Unloaded ∨ s = ModResolveState.Unresolved ∨
      s = ModResolveState.Disabled) : (w.setDepState i k2 s).Held a k b c := by
  refine World.Held.of_mods_eq (w.setDepState_mods i k2 s) hw (fun hb => ?_) (fun ha => ?_)
    (fun ha hc => ?_)
  · subst hb
    exact ⟨id, id⟩
  · subst ha
    refine ⟨id, ?_, id⟩
    rw [Mod.dep_setDep]
    split
    · rename_i hc
      obtain ⟨rfl, -⟩ := hc
      exact Dependency.isUnresolved_state _ _
        (Dependency.required_of_isUnresolved _ hw.unresolved) (h rfl rfl)
    · exact hw.unresolved
  · subst ha
    exact hw.calm hc

theorem World.Held.findDependency {w : World} {a k b : Nat} {c : Bool} (hw : w.Held a k b c)
    (i k2 : Nat) : (Mod.findDependency i k2 w).Held a k b c := by
  unfold Mod.findDependency
  split
  · refine World.Held.of_mods_eq (m := (w.mod i).setDep k2
      { (w.mod i).dep k2 with m_mod := w.getLoadedMod ((w.mod i).dep k2).m_id }) rfl hw
      (fun hb => ?_) (fun ha => ?_) (fun ha hc => ?_)
    · subst hb
      exact ⟨id, id⟩
    · subst ha
      refine ⟨id, ?_, id⟩
      rw [Mod.dep_setDep]
      split
      · rename_i hc
        obtain ⟨rfl, -⟩ := hc
        exact hw.unresolved
      · exact hw.unresolved
    · subst ha
      exact hw.calm hc
  · exact hw

theorem World.Requires.range {w : World} {a k b : Nat} (hw : w.Requires a k b) :
    a < w.mods.length ∧ k < (w.mod a).m_info.m_dependencies.length := by
  obtain ⟨hreq, -⟩ := hw
  have hk : k < (w.mod a).m_info.m_dependencies.length := by
    by_contra hk
    unfold Mod.dep at hreq
    rw [List.getD_eq_default _ _ (Nat.le_of_not_lt hk)] at hreq
    exact absurd hreq (by decide)
  refine ⟨?_, hk⟩
  by_contra ha
  rw [World.mod_of_le _ _ (Nat.le_of_not_lt ha)] at hk
  exact absurd hk (Nat.not_lt_zero k)

theorem World.setDepState_dep_self {w : World} {a k : Nat} (s : ModResolveState)
    (ha : a < w.mods.length) (hk : k < (w.mod a).m_info.m_dependencies.length) :
    ((w.setDepState a k s).mod a).dep k = { (w.mod a).dep k with m_state := s } := by
  unfold World.setDepState
  rw [World.setMod_mod_self _ _ _ ha, Mod.dep_setDep, if_pos ⟨rfl, hk⟩]

theorem World.Keeps.refl (a k b : Nat) (c : Bool) (w : World) : World.Keeps a k b c w w :=
  ⟨Relation.ReflTransGen.refl, fun _ h => Or.inl h⟩

theorem World.setResolved_self (w : World) (i : Nat) (bv : Bool) (h : i < w.mods.length) :
    ((w.setResolved i bv).mod i).m_resolved = bv := by
  unfold World.setResolved
  rw [World.setMod_mod_self _ _ _ h]

theorem Methods.Within.sound_of_quiet {go : Methods} {a k b : Nat} {c : Bool}
    (hq : go.Within (World.Quiet a k b c)) : go.Sound :=
  ⟨fun i w r w' h => (hq.loadBinary i w r w' h).1,
    fun i w r w' h => (hq.unloadBinary i w r w' h).1,
    fun i w r w' h => (hq.updateDependencyStates i w r w' h).1⟩

theorem World.Adds.same (P : Effect → Prop) (w : World) : World.Adds P w w :=
  ⟨[], by simp, by simp⟩

theorem World.Adds.append {P : Effect → Prop} {w1 w2 w3 : World} (h1 : World.Adds P w1 w2)
    (h2 : World.Adds P w2 w3) : World.Adds P w1 w3 := by
  obtain ⟨l1, e1, p1⟩ := h1
  obtain ⟨l2, e2, p2⟩ := h2
  refine ⟨l1 ++ l2, by rw [e2, e1, List.append_assoc], fun e he => ?_⟩
  rcases List.mem_append.1 he with h | h
  · exact p1 e h
  · exact p2 e h

theorem World.Adds.one {P : Effect → Prop} (w : World) (e : Effect) (h : P e) :
    World.Adds P w (w.emit e) :=
  ⟨[e], rfl, by simpa using h⟩

theorem World.Adds.of_trace_eq {P : Effect → Prop} {w w1 w2 : World} (h : World.Adds P w w1)
    (ht : w2.trace = w1.trace) : World.Adds P w w2 := by
  obtain ⟨l, e, p⟩ := h
  exact ⟨l, ht.trans e, p⟩

theorem World.Adds.mono {P Q : Effect → Prop} {w w' : World} (h : World.Adds P w w')
    (hpq : ∀ e, P e → Q e) : World.Adds Q w w' := by
  obtain ⟨l, e, p⟩ := h
  exact ⟨l, e, fun x hx => hpq x (p x hx)⟩

/-- `saveSettings` touches no module and only saves settings. -/
theorem Mod.saveSettings_quiet (env : Env) (this : Nat) (setts : List (String × Setting))
    (json : List (String × Json)) (w : World) :
    (Mod.saveSettings env this setts json w).2.mods = w.mods ∧
      (Mod.saveSettings env this setts json w).2.files = w.files ∧
      World.Adds (fun e => ∃ key sett r, e = Effect.call (Call.settingSave this key sett) r) w
        (Mod.saveSettings env this setts json w).2 := by
  induction setts generalizing w json with
  | nil => exact ⟨rfl, rfl, World.Adds.same _ w⟩
  | cons kv rest ih =>
    obtain ⟨key, sett⟩ := kv
    unfold Mod.saveSettings
    simp only [World.call]
    split
    · rename_i h
      simp only [Prod.mk.injEq] at h
      obtain ⟨-, rfl⟩ := h
      exact ⟨rfl, rfl, World.Adds.one w _ ⟨key, sett, _, rfl⟩⟩
    · rename_i h
      simp only [Prod.mk.injEq] at h
      obtain ⟨-, rfl⟩ := h
      obtain ⟨a, b, c⟩ := ih (Json.setKey key (env.saved sett w.trace.length) json)
        (w.emit (Effect.call (Call.settingSave this key sett) (env.fails (Call.settingSave this key sett) w.trace.length)))
      exact ⟨a, b, (World.Adds.one w _ ⟨key, sett, _, rfl⟩).append c⟩

/-- `saveData` touches no module and only saves. -/
theorem Mod.saveData_quiet (env : Env) (this : Nat) (w : World) :
    (Mod.saveData env this w).2.mods = w.mods ∧
      World.Adds (Effect.savesData this) w (Mod.saveData env this w).2 := by
  have h0 : World.Adds (Effect.savesData this) w (w.post this ModEventType.DataSaved) :=
    World.Adds.one w _ (Or.inl ⟨_, rfl⟩)
  obtain ⟨a, -, c⟩ := Mod.saveSettings_quiet env this
    ((w.post this ModEventType.DataSaved).mod this).m_info.m_settings []
    (w.post this ModEventType.DataSaved)
  have h1 := h0.append (c.mono (fun e he => Or.inr (Or.inl he)))
  unfold Mod.saveData
  simp only [World.call]
  split
  · rename_i h
    rw [h] at a h1
    exact ⟨a, h1⟩
  · rename_i json w1 h
    rw [h] at a h1
    simp only at a h1
    split
    · rename_i h2
      simp only [Prod.mk.injEq] at h2
      obtain ⟨-, rfl⟩ := h2
      exact ⟨a, h1.append (World.Adds.one _ _ (Or.inr (Or.inr ⟨_, _, _, rfl⟩)))⟩
    · rename_i h2
      simp only [Prod.mk.injEq] at h2
      obtain ⟨-, rfl⟩ := h2
      have h3 := h1.append (World.Adds.one w1
        (Effect.call (Call.writeString (pathJoin (w1.mod this).m_saveDirPath "settings.json")
          (env.dump (Json.object json)))
          (env.fails (Call.writeString (pathJoin (w1.mod this).m_saveDirPath "settings.json")
          (env.dump (Json.object json))) w1.trace.length)) (Or.inr (Or.inr ⟨_, _, _, rfl⟩)))
      split
      · rename_i h4
        simp only [Prod.mk.injEq] at h4
        obtain ⟨-, rfl⟩ := h4
        exact ⟨a, (h3.of_trace_eq rfl).append (World.Adds.one _ _ (Or.inr (Or.inr ⟨_, _, _, rfl⟩)))⟩
      · rename_i h4
        simp only [Prod.mk.injEq] at h4
        obtain ⟨-, rfl⟩ := h4
        exact ⟨a, ((h3.of_trace_eq rfl).append
          (World.Adds.one _ _ (Or.inr (Or.inr ⟨_, _, _, rfl⟩)))).of_trace_eq rfl⟩

theorem Effect.savesData_deactivates {this : Nat} {e : Effect} (h : e.savesData this) :
    e.deactivates = false := by
  rcases h with ⟨_, rfl⟩ | ⟨_, _, _, rfl⟩ | ⟨_, _, _, rfl⟩ <;> rfl

/-- C11: on a loaded module that supports unloading, when `saveData` fails,
`unloadBinary` returns the error of `saveData` in the state `saveData` leaves,
whatever the functions it could have called do (the registry is not notified):
no module of the registry has changed, so the module is still loaded with its
flags, hooks and patches, and no effect added to the trace disables a hook,
restores a patch, unloads the platform binary or is a `Disabled` or `Unloaded`
event. -/
theorem unloadBinary_save_failure (env : Env) (go : Methods) (this : Nat) (w : World)
    (e : String)
    (hl : (w.mod this).m_binaryLoaded = true)
    (hu : (w.mod this).m_info.m_supportsUnloading = true)
    (hs : (Mod.saveData env this w).1 = Err e) :
    Mod.unloadBinary env go this w = some (Err e, (Mod.saveData env this w).2) ∧
      (Mod.saveData env this w).2.mods = w.mods ∧
      ∃ l, (Mod.saveData env this w).2.trace = w.trace ++ l ∧
        ∀ x ∈ l, x.deactivates = false := by
  obtain ⟨a, l, hl1, hl2⟩ := Mod.saveData_quiet env this w
  refine ⟨?_, a, l, hl1, fun x hx => Effect.savesData_deactivates (hl2 x hx)⟩
  unfold Mod.unloadBinary
  rw [if_neg (by simp [hl]), if_neg (by simp [hu])]
  rcases hsd : Mod.saveData env this w with ⟨r, ws⟩
  rw [hsd] at hs
  simp only at hs
  subst hs
  rfl

theorem unloadBinary_save_failure_witness :
    Mod.unloadBinary Scenario.envNoWrite Methods.bottom 0 (Scenario.single true true) =
        some (Err "disk full", (Mod.saveData Scenario.envNoWrite 0 (Scenario.single true true)).2) ∧
      (Mod.saveData Scenario.envNoWrite 0 (Scenario.single true true)).2.mods =
        (Scenario.single true true).mods ∧
      ∃ l, (Mod.saveData Scenario.envNoWrite 0 (Scenario.single true true)).2.trace =
          (Scenario.single true true).trace ++ l ∧
        ∀ x ∈ l, x.deactivates = false :=
  unloadBinary_save_failure Scenario.envNoWrite Methods.bottom 0 (Scenario.single true true)
    "disk full" rfl rfl rfl

/-! ## `enable` does not roll back (C17) -/

theorem Mod.enableHooks_ok (env : Env) (this : Nat) (hooks : List Hook) (w : World)
    (h : ∀ i x, hooks[i]? = some x →
      env.fails (Call.enableHook this x) (w.trace.length + i) = none) :
    Mod.enableHooks env this hooks w =
      (Ok, { w with trace := (w.trace ++
        hooks.map (fun x => Effect.call (Call.enableHook this x) none)) }) := by
  induction hooks generalizing w with
  | nil => simp [Mod.enableHooks]
  | cons x rest ih =>
    have h0 := h 0 x (by simp)
    simp only [Nat.add_zero] at h0
    unfold Mod.enableHooks
    simp only [World.call, h0]
    rw [ih]
    · simp [World.emit]
    · intro i y hy
      have := h (i + 1) y (by simpa using hy)
      simpa [World.emit, Nat.add_assoc, Nat.add_comm 1 i] using this

theorem Mod.applyPatches_fail (env : Env) (this : Nat) (pre post : List Patch) (p : Patch)
    (e : String) (w : World)
    (hpre : ∀ i x, pre[i]? = some x →
      env.fails (Call.patchApply this x) (w.trace.length + i) = none)
    (hfail : env.fails (Call.patchApply this p) (w.trace.length + pre.length) = some e) :
    Mod.applyPatches env this (pre ++ p :: post) w =
      (Err ("Unable to apply patch at " ++ toString p.m_address),
        { w with trace := (w.trace ++
          pre.map (fun x => Effect.call (Call.patchApply this x) none) ++
          [Effect.call (Call.patchApply this p) (some e)]) }) := by
  induction pre generalizing w with
  | nil =>
    simp only [List.length_nil, Nat.add_zero] at hfail
    simp [Mod.applyPatches, World.call, hfail, World.emit]
  | cons x rest ih =>
    have h0 := hpre 0 x (by simp)
    simp only [Nat.add_zero] at h0
    simp only [List.cons_append]
    unfold Mod.applyPatches
    simp only [World.call, h0]
    rw [ih]
    · simp [World.emit]
    · intro i y hy
      have := hpre (i + 1) y (by simpa using hy)
      simpa [World.emit, Nat.add_assoc, Nat.add_comm 1 i] using this
    · simpa [World.emit, Nat.add_assoc, Nat.add_comm 1] using hfail

/-- C17: on a loaded module whose hooks all enable and whose patches `pre`
apply, the next patch `p` failing, `enable` returns the patch error for `p`,
whatever the functions it could have called do; no module of the registry has
changed, so `m_enabled` is as before; and the effects added to the trace are
exactly the successful `enableHook` of every hook, the successful `apply` of
every patch of `pre` and the failed `apply` of `p`: no `Enabled` event, nothing
undone, and the patches `post` not attempted. -/
theorem enable_patch_failure (env : Env) (go : Methods) (this : Nat) (w : World)
    (pre post : List Patch) (p : Patch) (e : String)
    (hl : (w.mod this).m_binaryLoaded = true)
    (hp : (w.mod this).m_patches = pre ++ p :: post)
    (hh : ∀ i x, (w.mod this).m_hooks[i]? = some x →
      env.fails (Call.enableHook this x) (w.trace.length + i) = none)
    (hpre : ∀ i x, pre[i]? = some x →
      env.fails (Call.patchApply this x)
        (w.trace.length + (w.mod this).m_hooks.length + i) = none)
    (hfail : env.fails (Call.patchApply this p)
      (w.trace.length + (w.mod this).m_hooks.length + pre.length) = some e) :
    ∃ w', Mod.enable env go this w =
        some (Err ("Unable to apply patch at " ++ toString p.m_address), w') ∧
      w'.mods = w.mods ∧
      w'.trace = w.trace ++
        (w.mod this).m_hooks.map (fun x => Effect.call (Call.enableHook this x) none) ++
        pre.map (fun x => Effect.call (Call.patchApply this x) none) ++
        [Effect.call (Call.patchApply this p) (some e)] := by
  have hm : ∀ t, World.mod { w with trace := t } this = w.mod this := fun _ => rfl
  have key : Mod.enable env go this w =
      some (Err ("Unable to apply patch at " ++ toString p.m_address),
        { w with trace := (w.trace ++
          (w.mod this).m_hooks.map (fun x => Effect.call (Call.enableHook this x) none) ++
          pre.map (fun x => Effect.call (Call.patchApply this x) none) ++
          [Effect.call (Call.patchApply this p) (some e)]) }) := by
    unfold Mod.enable
    rw [if_neg (by simp [hl]), Mod.enableHooks_ok env this _ w hh]
    simp only
    rw [hm, hp, Mod.applyPatches_fail env this pre post p e _ (by simpa using hpre)
      (by simpa using hfail)]
  exact ⟨_, key, rfl, rfl⟩

theorem enable_patch_failure_witness :
    ∃ w', Mod.enable Scenario.envNoPatch Methods.bottom 0 Scenario.patched =
        some (Err ("Unable to apply patch at " ++ toString (Patch.mk 4097).m_address), w') ∧
      w'.mods = Scenario.patched.mods ∧
      w'.trace = Scenario.patched.trace ++
        (Scenario.patched.mod 0).m_hooks.map (fun x => Effect.call (Call.enableHook 0 x) none) ++
        [Patch.mk 4096].map (fun x => Effect.call (Call.patchApply 0 x) none) ++
        [Effect.call (Call.patchApply 0 ⟨4097⟩) (some "refused")] :=
  enable_patch_failure Scenario.envNoPatch Methods.bottom 0 Scenario.patched
    [⟨4096⟩] [⟨4098⟩] ⟨4097⟩ "refused" rfl rfl (fun _ _ _ => rfl)
    (fun i x h => by
      cases i with
      | zero =>
        simp only [List.getElem?_cons_zero, Option.some.injEq] at h
        subst h
        rfl
      | succ i => simp at h)
    rfl

/-! ## Sprite names (C20) -/

theorem Mod.expandSpriteName_find (m : Mod) (name n : String)
    (expanded : List (String × String)) :
    ((m.expandSpriteName name expanded).2.find? (fun kv => kv.1 == n)).map (fun kv => kv.2) =
      ((expanded.find? (fun kv => kv.1 == n)).map (fun kv => kv.2)).orElse
        (fun _ => if name = n then some (m.m_info.m_id ++ "/" ++ n) else none) := by
  unfold Mod.expandSpriteName
  split
  · rename_i kv h
    simp only
    by_cases hn : name = n
    · subst hn
      simp [h]
    · cases hf : expanded.find? (fun kv => kv.1 == n) <;> simp [hn]
  · rename_i h
    simp only [List.find?_append]
    cases hf : expanded.find? (fun kv => kv.1 == n) with
    | some kv => simp
    | none =>
      by_cases hn : name = n
      · subst hn
        simp
      · simp [hn]

theorem World.expandAll_find (w : World) (calls : List (Nat × String)) (n : String)
    (expanded : List (String × String)) :
    ((w.expandAll calls expanded).find? (fun kv => kv.1 == n)).map (fun kv => kv.2) =
      ((expanded.find? (fun kv => kv.1 == n)).map (fun kv => kv.2)).orElse
        (fun _ => (calls.find? (fun c => c.2 == n)).map
          (fun c => (w.mod c.1).m_info.m_id ++ "/" ++ n)) := by
  induction calls generalizing expanded with
  | nil => cases hf : expanded.find? (fun kv => kv.1 == n) <;> simp [World.expandAll, hf]
  | cons c rest ih =>
    obtain ⟨i, name⟩ := c
    unfold World.expandAll
    rw [ih, Mod.expandSpriteName_find]
    cases expanded.find? (fun kv => kv.1 == n) with
    | some kv => simp
    | none =>
      by_cases hn : name = n
      · subst hn
        simp
      · simp [hn, List.find?_cons]

/-- Extent of the defect of `expandSpriteName`: the map `expanded` is keyed by
the name alone and shared by all modules, so after any sequence of calls from
the empty map the call on a module returns the expansion computed for the
module on which the first call with that name was made; it is the expansion of
the module itself only when no call with that name came before. -/
theorem Mod.expandSpriteName_cached (w : World) (calls : List (Nat × String)) (i : Nat)
    (n : String) :
    ((w.mod i).expandSpriteName n (w.expandAll calls [])).1 =
      ((calls.find? (fun c => c.2 == n)).map (fun c => (w.mod c.1).m_info.m_id)).getD
        (w.mod i).m_info.m_id ++ "/" ++ n := by
  have h := World.expandAll_find w calls n []
  unfold Mod.expandSpriteName
  cases hx : (w.expandAll calls []).find? (fun kv => kv.1 == n) with
  | none =>
    cases hc : calls.find? (fun c => c.2 == n) with
    | none => rfl
    | some c =>
      rw [hx, hc] at h
      simp at h
  | some kv =>
    cases hc : calls.find? (fun c => c.2 == n) with
    | none =>
      rw [hx, hc] at h
      simp at h
    | some c =>
      rw [hx, hc] at h
      simp only [List.find?_nil, Option.map_none', Option.map_some', Option.orElse_none,
        Option.some.injEq, Option.orElse] at h
      simp only [Option.map_some', Option.getD_some]
      rw [h]

/-- C20 does not hold of the code, by a defect of the cache: on module "b" the
function computes `m_id + "/" + name`, which is "b/x" and is what it returns
while the cache has no entry for "x"; after module "a" has expanded the name
"x", the call on module "b" with the same name returns "a/x". -/
theorem expandSpriteName_of_other_module :
    ((Scenario.pair true).mod 1).m_info.m_id = "b" ∧
      (((Scenario.pair true).mod 1).expandSpriteName "x" []).1 = "b/x" ∧
      (((Scenario.pair true).mod 1).expandSpriteName "x"
        ((Scenario.pair true).expandAll [(0, "x")] [])).1 = "a/x" := by
  decide

/-! ## Unknown keys of the settings document (C14) -/

theorem Mod.loadSettings_ok (env : Env) (this : Nat) (items : List (String × Json))
    (w : World)
    (hacc : ∀ kv ∈ items, ∀ sett, (w.mod this).getSetting kv.1 = some sett →
      ∀ t, env.fails (Call.settingLoad this kv.1 sett kv.2) t = none) :
    Mod.loadSettings env this items w =
      (Ok, { w with trace := (w.trace ++ items.map ((w.mod this).settingEffect this)) }) := by
  induction items generalizing w with
  | nil => simp [Mod.loadSettings]
  | cons kv rest ih =>
    obtain ⟨key, value⟩ := kv
    unfold Mod.loadSettings
    cases hg : (w.mod this).getSetting key with
    | none =>
      simp only
      rw [ih (w.log Severity.Warning this
        ("Encountered unknown setting \"" ++ key ++ "\" while loading settings"))
        (fun kv hkv => hacc kv (List.mem_cons_of_mem _ hkv))]
      simp only [World.log_mod, World.log_trace, World.log_mods, World.log_files, List.map_cons,
        List.append_assoc, List.singleton_append, Mod.settingEffect, hg]
    | some sett =>
      simp only [World.call, hacc (key, value) (List.mem_cons_self _ _) sett hg]
      rw [ih (w.emit (Effect.call (Call.settingLoad this key sett value) none))
        (fun kv hkv => hacc kv (List.mem_cons_of_mem _ hkv))]
      simp only [World.emit_mod, World.emit_trace, World.emit_mods, World.emit_files,
        List.map_cons, List.append_assoc, List.singleton_append, Mod.settingEffect, hg]

theorem Mod.loadSettings_error (env : Env) (this : Nat) (items : List (String × Json))
    (w : World) (e : String) (h : (Mod.loadSettings env this items w).1 = Err e) :
    ∃ kv ∈ items, ∃ sett t, (w.mod this).getSetting kv.1 = some sett ∧
      env.fails (Call.settingLoad this kv.1 sett kv.2) t ≠ none ∧
      e = "Unable to load value for setting \"" ++ kv.1 ++ "\"" := by
  induction items generalizing w with
  | nil => simp [Mod.loadSettings] at h
  | cons kv rest ih =>
    obtain ⟨key, value⟩ := kv
    unfold Mod.loadSettings at h
    cases hg : (w.mod this).getSetting key with
    | none =>
      rw [hg] at h
      simp only at h
      obtain ⟨kv, hkv, sett, t, h1, h2, h3⟩ := ih _ h
      exact ⟨kv, List.mem_cons_of_mem _ hkv, sett, t, h1, h2, h3⟩
    | some sett =>
      rw [hg] at h
      simp only [World.call] at h
      cases hf : env.fails (Call.settingLoad this key sett value) w.trace.length with
      | some x =>
        rw [hf] at h
        simp only [Except.error.injEq] at h
        exact ⟨(key, value), List.mem_cons_self _ _, sett, w.trace.length, hg,
          by rw [hf]; simp, h.symm⟩
      | none =>
        rw [hf] at h
        simp only at h
        obtain ⟨kv, hkv, sett2, t, h1, h2, h3⟩ := ih _ h
        exact ⟨kv, List.mem_cons_of_mem _ hkv, sett2, t, h1, h2, h3⟩

/-- C14, as the code has it: let `settings.json` be read and parsed into the
document `data`.  If every member whose key is a declared setting has a value
the setting accepts, the loop over the document adds to the trace, for every
member in order, the `load` of the setting with the value or the warning about
the unknown key, changes nothing else, and `loadData` goes on with the saved
values and returns what that step returns.  And whenever the loop returns an
error, it is the error of a member whose key is a declared setting and whose
value the setting rejected. -/
theorem loadData_skips_unknown_settings (env : Env) (this : Nat) (w : World) (text : String)
    (data : Json)
    (hfile : w.readFile (pathJoin (w.mod this).m_saveDirPath "settings.json") = some text)
    (hread : env.fails (Call.readString (pathJoin (w.mod this).m_saveDirPath "settings.json"))
      (w.trace.length + 1) = none)
    (hparse : env.parse text = .ok data) :
    ((∀ kv ∈ data.items, ∀ sett, (w.mod this).getSetting kv.1 = some sett →
        ∀ t, env.fails (Call.settingLoad this kv.1 sett kv.2) t = none) →
      ∃ w2, w2.mods = w.mods ∧ w2.files = w.files ∧
        w2.trace = w.trace ++
          [Effect.post this ModEventType.DataLoaded (w.mod this),
            Effect.call (Call.readString (pathJoin (w.mod this).m_saveDirPath "settings.json"))
              none] ++ data.items.map ((w.mod this).settingEffect this) ∧
        Mod.loadData env this w = Mod.loadSaved env this w2) ∧
      ∀ e, (Mod.loadSettings env this data.items
          ((w.post this ModEventType.DataLoaded).emit (Effect.call (Call.readString
            (pathJoin (w.mod this).m_saveDirPath "settings.json")) none))).1 = Err e →
        ∃ kv ∈ data.items, ∃ sett t, (w.mod this).getSetting kv.1 = some sett ∧
          env.fails (Call.settingLoad this kv.1 sett kv.2) t ≠ none ∧
          e = "Unable to load value for setting \"" ++ kv.1 ++ "\"" := by
  refine ⟨fun hacc => ?_, fun e he => Mod.loadSettings_error env this data.items
    ((w.post this ModEventType.DataLoaded).emit (Effect.call (Call.readString
      (pathJoin (w.mod this).m_saveDirPath "settings.json")) none)) e he⟩
  have hl := Mod.loadSettings_ok env this data.items
    ((w.post this ModEventType.DataLoaded).emit (Effect.call (Call.readString
      (pathJoin (w.mod this).m_saveDirPath "settings.json")) none)) hacc
  refine ⟨{ w with trace := (w.trace ++
    [Effect.post this ModEventType.DataLoaded (w.mod this),
      Effect.call (Call.readString (pathJoin (w.mod this).m_saveDirPath "settings.json"))
        none] ++ data.items.map ((w.mod this).settingEffect this)) }, rfl, rfl, rfl, ?_⟩
  unfold Mod.loadData
  have hf : (w.post this ModEventType.DataLoaded).readFile
      (pathJoin ((w.post this ModEventType.DataLoaded).mod this).m_saveDirPath "settings.json")
      = some text := hfile
  have hr : env.fails (Call.readString
      (pathJoin ((w.post this ModEventType.DataLoaded).mod this).m_saveDirPath "settings.json"))
      (w.post this ModEventType.DataLoaded).trace.length = none := by
    simpa using hread
  simp only [hf, World.call, hr, hparse]
  rw [World.post_mod, hl]
  simp only [World.emit_mod, World.emit_trace, World.emit_mods, World.emit_files,
    World.post_mod, World.post_trace, World.post_mods, World.post_files, List.append_assoc,
    List.cons_append, List.nil_append]

theorem loadData_skips_unknown_settings_witness :
    (Scenario.configured.mod 0).getSetting "theme" = none ∧
    (Scenario.configured.mod 0).getSetting "volume" = some ⟨7⟩ ∧
    (∃ w2, w2.mods = Scenario.configured.mods ∧ w2.files = Scenario.configured.files ∧
      w2.trace = Scenario.configured.trace ++
        [Effect.post 0 ModEventType.DataLoaded (Scenario.configured.mod 0),
          Effect.call (Call.readString
            (pathJoin (Scenario.configured.mod 0).m_saveDirPath "settings.json")) none] ++
        [Effect.log Severity.Warning 0
            "Encountered unknown setting \"theme\" while loading settings",
          Effect.call (Call.settingLoad 0 "volume" ⟨7⟩ (Json.number 3)) none] ∧
      Mod.loadData Scenario.envSettings 0 Scenario.configured =
        Mod.loadSaved Scenario.envSettings 0 w2) ∧
    (Mod.loadData Scenario.envSettings 0 Scenario.configured).1 = Ok ∧
    ∀ e, (Mod.loadSettings Scenario.envSettings 0
        (Json.object [("theme", Json.string "dark"), ("volume", Json.number 3)]).items
        ((Scenario.configured.post 0 ModEventType.DataLoaded).emit (Effect.call (Call.readString
          (pathJoin (Scenario.configured.mod 0).m_saveDirPath "settings.json")) none))).1 =
          Err e →
      ∃ kv ∈ (Json.object [("theme", Json.string "dark"), ("volume", Json.number 3)]).items,
        ∃ sett t, (Scenario.configured.mod 0).getSetting kv.1 = some sett ∧
          Scenario.envSettings.fails (Call.settingLoad 0 kv.1 sett kv.2) t ≠ none ∧
          e = "Unable to load value for setting \"" ++ kv.1 ++ "\"" :=
  ⟨rfl, rfl,
    (loadData_skips_unknown_settings Scenario.envSettings 0 Scenario.configured "theme volume"
      (Json.object [("theme", Json.string "dark"), ("volume", Json.number 3)]) rfl rfl rfl).1
      (fun _ _ _ _ _ => rfl),
    rfl,
    (loadData_skips_unknown_settings Scenario.envSettings 0 Scenario.configured "theme volume"
      (Json.object [("theme", Json.string "dark"), ("volume", Json.number 3)]) rfl rfl rfl).2⟩

/-- C14 fails as stated: the settings document holds one unknown key and no
rejected value, and `loadData` returns an error, that of the saved values. -/
theorem loadData_fails_on_saved_values :
    Scenario.envStrict.parse "\x7b\x7d" = .ok (Json.object [("volume", Json.number 3)]) ∧
      (Scenario.stored.mod 0).getSetting "volume" = none ∧
      (Mod.loadData Scenario.envStrict 0 Scenario.stored).1 =
        Err "Unable to parse saved values: syntax error" :=
  ⟨rfl, rfl, rfl⟩

/-! ## Persisted data is written before deactivation (C16) -/

theorem World.readFile_writeFile (w : World) (p x : String) :
    (w.writeFile p x).readFile p = some x := by
  simp [World.readFile, World.writeFile, List.find?_cons]

/-- A successful `saveData` ends with the successful write of `saved.json`,
which then holds the dump of `m_saved`. -/
theorem Mod.saveData_ok_writes {env : Env} {this : Nat} {w ws : World} {a : Unit}
    (h : Mod.saveData env this w = (Except.ok a, ws)) :
    (∃ l, ws.trace = w.trace ++ l ++
        [Effect.call (Call.writeString (pathJoin (w.mod this).m_saveDirPath "saved.json")
          (env.dump (w.mod this).m_saved)) none]) ∧
      ws.readFile (pathJoin (w.mod this).m_saveDirPath "saved.json") =
        some (env.dump (w.mod this).m_saved) := by
  obtain ⟨l0, hl0, -⟩ := (Mod.saveSettings_quiet env this
    ((w.post this ModEventType.DataSaved).mod this).m_info.m_settings []
    (w.post this ModEventType.DataSaved)).2.2
  have hm0 := (Mod.saveSettings_quiet env this
    ((w.post this ModEventType.DataSaved).mod this).m_info.m_settings []
    (w.post this ModEventType.DataSaved)).1
  unfold Mod.saveData at h
  simp only at h
  split at h
  · simp at h
  · rename_i json w1 h1
    rw [h1] at hl0 hm0
    simp only at hl0 hm0
    have hmod : ∀ j, w1.mod j = w.mod j := fun j => by
      unfold World.mod
      rw [hm0]
      rfl
    split at h
    · simp at h
    · rename_i w2 h2
      obtain ⟨-, rfl⟩ := World.call_eq _ h2
      split at h
      · simp at h
      · rename_i w4 h4
        obtain ⟨-, rfl⟩ := World.call_eq _ h4
        simp only [Prod.mk.injEq, true_and] at h
        subst h
        simp only [World.writeFile_mod, World.emit_mod, hmod]
        refine ⟨⟨[Effect.post this ModEventType.DataSaved (w.mod this)] ++ l0 ++
          [Effect.call (Call.writeString (pathJoin (w.mod this).m_saveDirPath "settings.json")
            (env.dump (Json.object json))) none], ?_⟩, World.readFile_writeFile _ _ _⟩
        simp only [World.writeFile_trace, World.emit_trace, hl0, World.post_trace,
          List.append_assoc]

/-- What `unloadBinary` does after `saveData` only adds to the trace. -/
theorem Mod.unloadBinary_after_save {env : Env} {go : Methods} (hs : go.Sound) {this : Nat}
    {w w' : World} {r : Result}
    (hl : (w.mod this).m_binaryLoaded = true)
    (hu : (w.mod this).m_info.m_supportsUnloading = true)
    (h : Mod.unloadBinary env go this w = some (r, w')) :
    Steps (Mod.saveData env this w).2 w' ∧
      ((Mod.saveData env this w).1.isOk = false → w' = (Mod.saveData env this w).2) := by
  unfold Mod.unloadBinary at h
  rw [if_neg (by simp [hl]), if_neg (by simp [hu])] at h
  split at h
  · rename_i h1
    simp only [Option.some.injEq, Prod.mk.injEq] at h
    obtain ⟨-, rfl⟩ := h
    rw [h1]
    exact ⟨Relation.ReflTransGen.refl, fun _ => rfl⟩
  · rename_i x1 a1 w1 h1
    rw [h1]
    refine ⟨?_, fun hx => absurd hx (by simp [Result.isOk])⟩
    simp only
    split at h
    · rename_i h2
      simp only [Option.some.injEq, Prod.mk.injEq] at h
      obtain ⟨-, rfl⟩ := h
      exact Mod.disable_steps_of_eq h2
    · rename_i x2 a2 w2 h2
      have he := Mod.disable_enabled env this w1 w2 a2 h2
      have s2 := (Mod.disable_steps_of_eq h2).trans (Mod.destroyHandles_steps this w2 he)
      obtain ⟨he3, hh3, hp3⟩ := Mod.destroyHandles_mod this w2 he
      split at h
      · rename_i h3
        simp only [Option.some.injEq, Prod.mk.injEq] at h
        obtain ⟨-, rfl⟩ := h
        exact s2.trans (Steps.frame_steps (Frame.of_call h3))
      · rename_i x3 w3 h3
        have f3 := Frame.of_call h3
        have s3 : Steps w1 (w3.setMod this { w3.mod this with m_binaryLoaded := false }) := by
          refine (s2.trans (Steps.frame_steps f3)).trans
            (Relation.ReflTransGen.single (Step.flag (FlagStep.unload this ?_ ?_ ?_ rfl rfl)))
          · rw [(f3.core this).enabled]; exact he3
          · rw [(f3.core this).hooks]; exact hh3
          · rw [(f3.core this).patches]; exact hp3
        split at h
        · exact absurd h (by simp)
        · rename_i w4 h4
          simp only [Option.some.injEq, Prod.mk.injEq] at h
          obtain ⟨-, rfl⟩ := h
          exact s3.trans (Loader.updateAllDependencies_steps hs h4)

/-- C16, as the code has it, for `unloadBinary`: on a loaded module that supports
unloading, the effects of `unloadBinary` are those of `saveData`, none of which
deactivates anything, followed by the rest; and the rest is empty unless
`saveData` has succeeded, in which case the successful write of `saved.json`
comes before it.  So every hook disable and every patch restore of the
sequence comes after the write of the persisted data. -/
theorem unloadBinary_saves_first (env : Env) (n this : Nat) (w w' : World) (r : Result)
    (hl : (w.mod this).m_binaryLoaded = true)
    (hu : (w.mod this).m_info.m_supportsUnloading = true)
    (h : (methods env (n + 1)).unloadBinary this w = some (r, w')) :
    ∃ ls lr, w'.trace = w.trace ++ ls ++ lr ∧
      (∀ x ∈ ls, x.deactivates = false) ∧
      (lr ≠ [] →
        Effect.call (Call.writeString (pathJoin (w.mod this).m_saveDirPath "saved.json")
          (env.dump (w.mod this).m_saved)) none ∈ ls) := by
  obtain ⟨-, ls, hls, hq⟩ := Mod.saveData_quiet env this w
  obtain ⟨hst, herr⟩ := Mod.unloadBinary_after_save (methods_sound env n) hl hu h
  obtain ⟨lr, hlr⟩ := hst.trace
  refine ⟨ls, lr, by rw [hlr, hls], fun x hx => Effect.savesData_deactivates (hq x hx),
    fun hne => ?_⟩
  rcases hsd : Mod.saveData env this w with ⟨res, ws⟩
  cases res with
  | error e =>
    have := herr (by rw [hsd]; rfl)
    rw [this] at hlr
    exact absurd (by simpa using hlr) hne
  | ok a =>
    obtain ⟨⟨l, hl2⟩, -⟩ := Mod.saveData_ok_writes hsd
    rw [hsd] at hls
    simp only at hls
    rw [hls, List.append_assoc] at hl2
    have := List.append_cancel_left hl2
    rw [this]
    exact List.mem_append_right _ (List.mem_singleton.2 rfl)

theorem unloadBinary_saves_first_witness :
    ((methods Scenario.env (2 + 1)).unloadBinary 0 (Scenario.single true true)).map
        (fun p => (p.2.trace.findIdx? Effect.writesData,
          p.2.trace.findIdx? Effect.releasesHandle)) = some (some 1, some 4) ∧
      ∃ r w', (methods Scenario.env (2 + 1)).unloadBinary 0 (Scenario.single true true) =
          some (r, w') ∧
        ∃ ls lr, w'.trace = (Scenario.single true true).trace ++ ls ++ lr ∧
          (∀ x ∈ ls, x.deactivates = false) ∧
          (lr ≠ [] →
            Effect.call (Call.writeString
              (pathJoin ((Scenario.single true true).mod 0).m_saveDirPath "saved.json")
              (Scenario.env.dump ((Scenario.single true true).mod 0).m_saved)) none ∈ ls) :=
  have hs : ((methods Scenario.env (2 + 1)).unloadBinary 0
      (Scenario.single true true)).isSome = true := by decide!
  ⟨by decide!,
    (((methods Scenario.env (2 + 1)).unloadBinary 0 (Scenario.single true true)).get hs).1,
    (((methods Scenario.env (2 + 1)).unloadBinary 0 (Scenario.single true true)).get hs).2,
    (Option.some_get hs).symm,
    unloadBinary_saves_first Scenario.env 2 0 (Scenario.single true true)
      (((methods Scenario.env (2 + 1)).unloadBinary 0 (Scenario.single true true)).get hs).2
      (((methods Scenario.env (2 + 1)).unloadBinary 0 (Scenario.single true true)).get hs).1
      rfl rfl (Option.some_get hs).symm⟩

/-- C16 fails as stated for `uninstall`: on a loaded, enabled module that
supports disabling and unloading, `uninstall` disables the hook and restores
the patch (effects 1 and 2) before the data is written (effects 4 and 5); and
when the module supports disabling only, the hook is disabled and the patch
restored and the data is never written. -/
theorem uninstall_deactivates_first :
    (Mod.uninstall Scenario.env (methods Scenario.env 3) 0 (Scenario.single true true)).map
        (fun p => (p.1.isOk, p.2.trace.findIdx? Effect.releasesHandle,
          p.2.trace.findIdx? Effect.writesData)) = some (true, some 1, some 4) ∧
      (Mod.uninstall Scenario.env (methods Scenario.env 3) 0 (Scenario.single true false)).map
        (fun p => (p.1.isOk, p.2.trace.findIdx? Effect.releasesHandle,
          p.2.trace.findIdx? Effect.writesData)) = some (true, some 1, none) := by
  decide!

/-! ## A failure to load the data does not abort the load (C12) -/

theorem Mod.markLoaded_loaded (env : Env) (this : Nat) (w : World)
    (hr : this < w.mods.length) :
    ((Mod.markLoaded env this w).mod this).m_binaryLoaded = true := by
  unfold Mod.markLoaded
  rw [World.post_mod, World.setMod_mod_self _ _ _ (by
    unfold Mod.implicitLoadFunc
    simpa using hr)]

/-- On a loaded module whose hooks all enable and whose patches all apply,
`enable` succeeds and sets `m_enabled`. -/
theorem Mod.enable_ok (env : Env) (go : Methods) (this : Nat) (w wa wb : World)
    (hr : this < w.mods.length)
    (hl : (w.mod this).m_binaryLoaded = true)
    (hh : Mod.enableHooks env this (w.mod this).m_hooks w = (Ok, wa))
    (hp : Mod.applyPatches env this (wa.mod this).m_patches wa = (Ok, wb)) :
    ∃ w', Mod.enable env go this w = some (Ok, w') ∧ (w'.mod this).m_enabled = true := by
  unfold Mod.enable
  rw [if_neg (by simp [hl]), hh]
  simp only
  rw [hp]
  refine ⟨_, rfl, ?_⟩
  have f1 := Frame.of_eq (Frame.enableHooks env this (w.mod this).m_hooks w) hh
  have f2 := Frame.of_eq (Frame.applyPatches env this (wa.mod this).m_patches wa) hp
  rw [World.setMod_mod_self _ _ _ (by
    rw [World.post_mods, f2.length, f1.length]
    exact hr)]

/-- C12: on a registered module that is not loaded and has no unresolved
dependency, whose staging and platform load succeed, when `loadData` returns an
error `e`, `loadBinary` has set `m_binaryLoaded` in the state `w0` it hands to
`loadData`, logs the error as a warning, and goes on in the state `w1` with the
module still loaded: it notifies the registry and then calls `enable`, and it
returns what `enable` returns, which is success with `m_enabled` set whenever
the module is still loaded then and every hook enables and every patch
applies. -/
theorem loadBinary_data_failure (env : Env) (go : Methods) (this : Nat) (w : World)
    (e : String)
    (hr : this < w.mods.length)
    (hl : (w.mod this).m_binaryLoaded = false)
    (hu : (w.mod this).hasUnresolvedDependencies = false)
    (hstage : (Mod.createTempDir env this w).1 = Ok)
    (hplat : env.fails (Call.loadPlatformBinary this)
      (Mod.createTempDir env this w).2.trace.length = none)
    (hdata : (Mod.loadData env this (Mod.markLoaded env this
      ((Mod.createTempDir env this w).2.emit
        (Effect.call (Call.loadPlatformBinary this) none)))).1 = Err e) :
    ∃ w0 w1, (w0.mod this).m_binaryLoaded = true ∧
      w1 = (Mod.loadData env this w0).2.log Severity.Warning this
        ("Unable to load data for \"" ++ ((Mod.loadData env this w0).2.mod this).m_info.m_id ++
          "\": " ++ e) ∧
      (w1.mod this).m_binaryLoaded = true ∧
      Mod.loadBinary env go this w =
        (Loader.updateAllDependencies go w1).bind (fun w2 => Mod.enable env go this w2) ∧
      ∀ w2 wa wb, w2.mods.length = w.mods.length → (w2.mod this).m_binaryLoaded = true →
        Mod.enableHooks env this (w2.mod this).m_hooks w2 = (Ok, wa) →
        Mod.applyPatches env this (wa.mod this).m_patches wa = (Ok, wb) →
        ∃ w3, Mod.enable env go this w2 = some (Ok, w3) ∧ (w3.mod this).m_enabled = true := by
  have fs := Frame.createTempDir env this w
  have hlen : this < ((Mod.createTempDir env this w).2.emit
      (Effect.call (Call.loadPlatformBinary this) none)).mods.length := by
    rw [World.emit_mods, fs.length]
    exact hr
  have h0 := Mod.markLoaded_loaded env this _ hlen
  have fd := Frame.loadData env this (Mod.markLoaded env this
      ((Mod.createTempDir env this w).2.emit
        (Effect.call (Call.loadPlatformBinary this) none)))
  refine ⟨_, _, h0, rfl, ?_, ?_, fun w2 wa wb hlen2 hl2 hh hp =>
    Mod.enable_ok env go this w2 wa wb (hlen2 ▸ hr) hl2 hh hp⟩
  · rw [World.log_mod, (fd.core this).loaded]
    exact h0
  · unfold Mod.loadBinary
    rw [if_neg (by simp [hl])]
    rcases hc : Mod.createTempDir env this w with ⟨res, ws⟩
    rw [hc] at hstage hplat hdata fs
    simp only at hstage hplat hdata fs
    subst hstage
    simp only
    have hu2 : (ws.mod this).hasUnresolvedDependencies = false := by
      rw [Mod.hasUnresolvedDependencies_congr (fs.core this).info]
      exact hu
    rw [if_neg (by simp [hu2])]
    simp only [World.call, hplat]
    unfold Mod.loadDataOrWarn
    rcases hd : Mod.loadData env this (Mod.markLoaded env this
      (ws.emit (Effect.call (Call.loadPlatformBinary this) none))) with ⟨rd, wd⟩
    rw [hd] at hdata
    simp only at hdata
    subst hdata
    simp only
    cases Loader.updateAllDependencies go (wd.log Severity.Warning this
      ("Unable to load data for \"" ++ (wd.mod this).m_info.m_id ++ "\": " ++ e)) with
    | none => rfl
    | some w3 =>
      simp only [Option.some_bind]
      rcases Mod.enable env go this w3 with _ | ⟨r4, w4⟩
      · rfl
      · cases r4 <;> rfl

theorem loadBinary_data_failure_witness :
    ((methods Scenario.envNoParse 3).loadBinary 0 Scenario.fresh).map
        (fun p => (p.1.isOk, (p.2.mod 0).m_binaryLoaded, (p.2.mod 0).m_enabled)) =
        some (true, true, true) ∧
      ∃ w0 w1, (w0.mod 0).m_binaryLoaded = true ∧
        w1 = (Mod.loadData Scenario.envNoParse 0 w0).2.log Severity.Warning 0
          ("Unable to load data for \"" ++
            ((Mod.loadData Scenario.envNoParse 0 w0).2.mod 0).m_info.m_id ++
            "\": " ++ "Unable to parse saved values: syntax error") ∧
        (w1.mod 0).m_binaryLoaded = true ∧
        Mod.loadBinary Scenario.envNoParse (methods Scenario.envNoParse 2) 0 Scenario.fresh =
          (Loader.updateAllDependencies (methods Scenario.envNoParse 2) w1).bind
            (fun w2 => Mod.enable Scenario.envNoParse (methods Scenario.envNoParse 2) 0 w2) ∧
        ∀ w2 wa wb, w2.mods.length = Scenario.fresh.mods.length →
          (w2.mod 0).m_binaryLoaded = true →
          Mod.enableHooks Scenario.envNoParse 0 (w2.mod 0).m_hooks w2 = (Ok, wa) →
          Mod.applyPatches Scenario.envNoParse 0 (wa.mod 0).m_patches wa = (Ok, wb) →
          ∃ w3, Mod.enable Scenario.envNoParse (methods Scenario.envNoParse 2) 0 w2 =
            some (Ok, w3) ∧ (w3.mod 0).m_enabled = true :=
  ⟨by decide!,
    loadBinary_data_failure Scenario.envNoParse (methods Scenario.envNoParse 2) 0 Scenario.fresh
      "Unable to parse saved values: syntax error" (by decide) rfl rfl rfl rfl rfl⟩

/-! ## Round trip of the saved values (C15) -/

theorem World.SavedKept.same_saved (i : Nat) (w : World) : World.SavedKept i w w :=
  ⟨rfl, ⟨[], by simp⟩, Or.inl rfl⟩

theorem World.SavedKept.trans_saved {i : Nat} {w1 w2 w3 : World}
    (h1 : World.SavedKept i w1 w2) (h2 : World.SavedKept i w2 w3) : World.SavedKept i w1 w3 := by
  obtain ⟨l1, e1⟩ := h1.grown
  obtain ⟨l2, e2⟩ := h2.grown
  refine ⟨h2.saveDir.trans h1.saveDir, ⟨l1 ++ l2, by rw [e2, e1, List.append_assoc]⟩, ?_⟩
  rcases h2.saved with a2 | ⟨m2, r, t2, x2⟩
  · rcases h1.saved with a1 | ⟨m1, r, t1, x1⟩
    · exact Or.inl (a2.trans a1)
    · exact Or.inr ⟨m1 ++ l2, r, by rw [e2, t1, List.append_assoc], List.mem_append_left _ x1⟩
  · rw [h1.saveDir] at x2
    exact Or.inr ⟨l1 ++ m2, r, by rw [t2, e1, List.append_assoc], List.mem_append_right _ x2⟩

theorem World.SavedKept.of_mods_eq_saved {i : Nat} {w w' : World} {this : Nat} {m : Mod}
    (hm : w'.mods = w.mods.set this m) (ht : ∃ l, w'.trace = w.trace ++ l)
    (hd : m.m_saveDirPath = (w.mod this).m_saveDirPath)
    (hs : m.m_saved = (w.mod this).m_saved) : World.SavedKept i w w' := by
  refine ⟨?_, ht, Or.inl ?_⟩
  · rw [World.mod_of_mods_eq hm]
    split
    · rename_i hj
      rw [← hj.1]
      exact hd
    · rfl
  · rw [World.mod_of_mods_eq hm]
    split
    · rename_i hj
      rw [← hj.1]
      exact hs
    · rfl

theorem Step.saved_step {w w' : World} (h : Step w w') (i : Nat) : World.SavedKept i w w' := by
  cases h with
  | flag hf =>
    cases hf with
    | frame f =>
      obtain ⟨l, hl, -⟩ := f.trace
      exact ⟨(f.core i).saveDir, ⟨l, hl⟩, f.saved i⟩
    | load this hooks patches e _ _ _ hm ht =>
      exact World.SavedKept.of_mods_eq_saved hm ⟨_, ht⟩ rfl rfl
    | enable this _ hm ht => exact World.SavedKept.of_mods_eq_saved hm ⟨_, ht⟩ rfl rfl
    | disable this hm ht =>
      exact World.SavedKept.of_mods_eq_saved hm ⟨[], by simpa using ht⟩ rfl rfl
    | clear this _ hm ht =>
      exact World.SavedKept.of_mods_eq_saved hm ⟨[], by simpa using ht⟩ rfl rfl
    | unload this _ _ _ hm ht =>
      exact World.SavedKept.of_mods_eq_saved hm ⟨[], by simpa using ht⟩ rfl rfl
  | setResolved this b _ hm ht =>
    exact World.SavedKept.of_mods_eq_saved hm ⟨[], by simpa using ht⟩ rfl rfl
  | setDepMod this k _ hm ht =>
    exact World.SavedKept.of_mods_eq_saved hm ⟨[], by simpa using ht⟩ rfl rfl
  | setDepState this k s _ hm ht =>
    exact World.SavedKept.of_mods_eq_saved hm ⟨[], by simpa using ht⟩ rfl rfl

/-- Along atomic steps the saved values of a module are kept unless its
`saved.json` is read. -/
theorem Steps.saved {w w' : World} (h : Steps w w') (i : Nat) : World.SavedKept i w w' := by
  induction h with
  | refl => exact World.SavedKept.same_saved i w
  | tail _ hs ih => exact ih.trans_saved (hs.saved_step i)

theorem Mod.loadSettings_quiet (env : Env) (this : Nat) (items : List (String × Json))
    (w : World) :
    (Mod.loadSettings env this items w).2.mods = w.mods ∧
      (Mod.loadSettings env this items w).2.files = w.files := by
  induction items generalizing w with
  | nil => exact ⟨rfl, rfl⟩
  | cons kv rest ih =>
    obtain ⟨key, value⟩ := kv
    unfold Mod.loadSettings
    split
    · split
      · rename_i h
        obtain ⟨-, rfl⟩ := World.call_eq _ h
        exact ⟨rfl, rfl⟩
      · rename_i h
        obtain ⟨-, rfl⟩ := World.call_eq _ h
        exact ih _
    · exact ih _

theorem Mod.SameUnload.refl_unload (m : Mod) : Mod.SameUnload m m :=
  ⟨rfl, rfl, rfl, rfl, rfl, rfl, rfl, rfl, rfl⟩

theorem Mod.SameUnload.trans_unload {m m1 m2 : Mod} (h1 : Mod.SameUnload m m1)
    (h2 : Mod.SameUnload m1 m2) : Mod.SameUnload m m2 :=
  ⟨h2.loaded.trans h1.loaded, h2.enabled.trans h1.enabled,
    h2.supportsDisabling.trans h1.supportsDisabling,
    h2.supportsUnloading.trans h1.supportsUnloading, h2.settings.trans h1.settings,
    h2.saveDir.trans h1.saveDir, h2.saved.trans h1.saved, h2.hooks.trans h1.hooks,
    h2.patches.trans h1.patches⟩

theorem Mod.SameUnload.of_eq_unload {m m' : Mod} (h : m' = m) : Mod.SameUnload m m' :=
  h ▸ Mod.SameUnload.refl_unload m

theorem Mod.saveSettings_congr {env : Env} (hdet : env.Deterministic) (this : Nat)
    (setts : List (String × Setting)) :
    ∀ (json : List (String × Json)) (w w' : World),
      (Mod.saveSettings env this setts json w).1 = (Mod.saveSettings env this setts json w').1 := by
  induction setts with
  | nil => intro json w w'; rfl
  | cons kv rest ih =>
    intro json w w'
    obtain ⟨key, sett⟩ := kv
    unfold Mod.saveSettings
    simp only [World.call]
    rw [hdet.fails _ w'.trace.length w.trace.length, hdet.saved sett w'.trace.length w.trace.length]
    cases env.fails (Call.settingSave this key sett) w.trace.length with
    | some e => rfl
    | none => exact ih _ _ _

theorem Mod.disableHooks_congr {env : Env} (hdet : env.Deterministic) (this : Nat)
    (hooks : List Hook) :
    ∀ (w w' : World), (Mod.disableHooks env this hooks w).1 =
      (Mod.disableHooks env this hooks w').1 := by
  induction hooks with
  | nil => intro w w'; rfl
  | cons hook rest ih =>
    intro w w'
    unfold Mod.disableHooks
    simp only [World.call]
    rw [hdet.fails _ w'.trace.length w.trace.length]
    cases env.fails (Call.disableHook this hook) w.trace.length with
    | some e => rfl
    | none => exact ih _ _

theorem Mod.restorePatches_congr {env : Env} (hdet : env.Deterministic) (this : Nat)
    (patches : List Patch) :
    ∀ (w w' : World), (Mod.restorePatches env this patches w).1 =
      (Mod.restorePatches env this patches w').1 := by
  induction patches with
  | nil => intro w w'; rfl
  | cons patch rest ih =>
    intro w w'
    unfold Mod.restorePatches
    simp only [World.call]
    rw [hdet.fails _ w'.trace.length w.trace.length]
    cases env.fails (Call.patchRestore this patch) w.trace.length with
    | some e => rfl
    | none => exact ih _ _

theorem Mod.disableHooks_mods (env : Env) (this : Nat) (hooks : List Hook) :
    ∀ w : World, (Mod.disableHooks env this hooks w).2.mods = w.mods := by
  induction hooks with
  | nil => intro w; rfl
  | cons hook rest ih =>
    intro w
    unfold Mod.disableHooks
    simp only [World.call]
    cases env.fails (Call.disableHook this hook) w.trace.length with
    | some e => rfl
    | none => exact ih _

theorem Mod.restorePatches_mods (env : Env) (this : Nat) (patches : List Patch) :
    ∀ w : World, (Mod.restorePatches env this patches w).2.mods = w.mods := by
  induction patches with
  | nil => intro w; rfl
  | cons patch rest ih =>
    intro w
    unfold Mod.restorePatches
    simp only [World.call]
    cases env.fails (Call.patchRestore this patch) w.trace.length with
    | some e => rfl
    | none => exact ih _

theorem Mod.enableHooks_mods (env : Env) (this : Nat) (hooks : List Hook) :
    ∀ w : World, (Mod.enableHooks env this hooks w).2.mods = w.mods := by
  induction hooks with
  | nil => intro w; rfl
  | cons hook rest ih =>
    intro w
    unfold Mod.enableHooks
    simp only [World.call]
    cases env.fails (Call.enableHook this hook) w.trace.length with
    | some e => rfl
    | none => exact ih _

theorem Mod.applyPatches_mods (env : Env) (this : Nat) (patches : List Patch) :
    ∀ w : World, (Mod.applyPatches env this patches w).2.mods = w.mods := by
  induction patches with
  | nil => intro w; rfl
  | cons patch rest ih =>
    intro w
    unfold Mod.applyPatches
    simp only [World.call]
    cases env.fails (Call.patchApply this patch) w.trace.length with
    | some e => rfl
    | none => exact ih _

theorem World.mod_of_mods {w w' : World} (h : w'.mods = w.mods) (t : Nat) : w'.mod t = w.mod t := by
  simp only [World.mod, h]

theorem Mod.saveData_congr {env : Env} (hdet : env.Deterministic) (this : Nat) (w w' : World)
    (h : Mod.SameUnload (w.mod this) (w'.mod this)) :
    (Mod.saveData env this w).1 = (Mod.saveData env this w').1 := by
  have hs := Mod.saveSettings_congr hdet this (w.mod this).m_info.m_settings []
    (w.post this ModEventType.DataSaved) (w'.post this ModEventType.DataSaved)
  have hq := (Mod.saveSettings_quiet env this (w.mod this).m_info.m_settings []
    (w.post this ModEventType.DataSaved)).1
  have hq' := (Mod.saveSettings_quiet env this (w.mod this).m_info.m_settings []
    (w'.post this ModEventType.DataSaved)).1
  unfold Mod.saveData
  simp only [World.post_mod, h.settings]
  rcases hA : Mod.saveSettings env this (w.mod this).m_info.m_settings []
    (w.post this ModEventType.DataSaved) with ⟨r, w1⟩
  rcases hA' : Mod.saveSettings env this (w.mod this).m_info.m_settings []
    (w'.post this ModEventType.DataSaved) with ⟨r', w1'⟩
  rw [hA, hA'] at hs
  simp only at hs
  subst hs
  rw [hA] at hq
  rw [hA'] at hq'
  simp only [World.post_mods] at hq hq'
  have e1 : w1.mod this = w.mod this := World.mod_of_mods hq this
  have e1' : w1'.mod this = w'.mod this := World.mod_of_mods hq' this
  cases r with
  | error e => rfl
  | ok json =>
    simp only [World.call, World.writeFile_mod, World.emit_mod, World.emit_trace,
      World.writeFile_trace, e1, e1', h.saveDir, h.saved, hdet.fails _ _ 0]
    cases env.fails (Call.writeString (pathJoin (w.mod this).m_saveDirPath "settings.json")
        (env.dump (Json.object json))) 0 with
    | some e => rfl
    | none =>
      simp only [World.call, World.writeFile_mod, World.emit_mod, World.emit_trace,
        World.writeFile_trace, e1, e1', h.saveDir, h.saved, hdet.fails _ _ 0]
      cases env.fails (Call.writeString (pathJoin (w.mod this).m_saveDirPath "saved.json")
          (env.dump (w.mod this).m_saved)) 0 with
      | some e => rfl
      | none => rfl

theorem Mod.disable_congr {env : Env} (hdet : env.Deterministic) (this : Nat) (w w' : World)
    (h : Mod.SameUnload (w.mod this) (w'.mod this)) :
    (Mod.disable env this w).1 = (Mod.disable env this w').1 := by
  have hh := Mod.disableHooks_congr hdet this (w.mod this).m_hooks
    (w.post this ModEventType.Disabled) (w'.post this ModEventType.Disabled)
  have hm := Mod.disableHooks_mods env this (w.mod this).m_hooks
    (w.post this ModEventType.Disabled)
  have hm' := Mod.disableHooks_mods env this (w.mod this).m_hooks
    (w'.post this ModEventType.Disabled)
  unfold Mod.disable
  simp only [h.enabled, h.supportsDisabling, h.hooks]
  by_cases he : (!(w.mod this).m_enabled) = true
  · rw [if_pos he, if_pos he]
  · rw [if_neg he, if_neg he]
    by_cases hd : (!(w.mod this).m_info.m_supportsDisabling) = true
    · rw [if_pos hd, if_pos hd]
    · rw [if_neg hd, if_neg hd]
      rcases hA : Mod.disableHooks env this (w.mod this).m_hooks
        (w.post this ModEventType.Disabled) with ⟨r, w1⟩
      rcases hA' : Mod.disableHooks env this (w.mod this).m_hooks
        (w'.post this ModEventType.Disabled) with ⟨r', w1'⟩
      rw [hA, hA'] at hh
      simp only at hh
      subst hh
      rw [hA] at hm
      rw [hA'] at hm'
      simp only [World.post_mods] at hm hm'
      cases r with
      | error e => rfl
      | ok u =>
        simp only [World.mod_of_mods hm this, World.mod_of_mods hm' this, h.patches]
        have hp := Mod.restorePatches_congr hdet this (w.mod this).m_patches w1 w1'
        rcases hB : Mod.restorePatches env this (w.mod this).m_patches w1 with ⟨r2, w2⟩
        rcases hB' : Mod.restorePatches env this (w.mod this).m_patches w1' with ⟨r2', w2'⟩
        rw [hB, hB'] at hp
        simp only at hp
        subst hp
        cases r2 with
        | error e => rfl
        | ok u2 => rfl

theorem Mod.disable_cases (env : Env) (this : Nat) (w : World) :
    (Mod.disable env this w).2.mods = w.mods ∨ (Mod.disable env this w).1.isOk = true := by
  unfold Mod.disable
  split
  · exact Or.inl rfl
  · split
    · exact Or.inl rfl
    · split
      · rename_i e w1 h1
        have hm := Mod.disableHooks_mods env this (w.mod this).m_hooks
          (w.post this ModEventType.Disabled)
        rw [h1] at hm
        exact Or.inl hm
      · rename_i u w1 h1
        have hm := Mod.disableHooks_mods env this (w.mod this).m_hooks
          (w.post this ModEventType.Disabled)
        rw [h1] at hm
        split
        · rename_i e w2 h2
          have hp := Mod.restorePatches_mods env this (w1.mod this).m_patches w1
          rw [h2] at hp
          exact Or.inl (hp.trans hm)
        · exact Or.inr rfl

/-- A failing `disable` writes no field of any module. -/
theorem Mod.disable_mods_of_error (env : Env) (this : Nat) (w : World)
    (h : (Mod.disable env this w).1.isOk = false) : (Mod.disable env this w).2.mods = w.mods := by
  rcases Mod.disable_cases env this w with h1 | h1
  · exact h1
  · rw [h1] at h
    exact absurd h (by decide)

/-- What `disable` does to the other modules: nothing. -/
theorem Mod.disable_mod_ne (env : Env) (this : Nat) (w : World) (t : Nat) (ht : t ≠ this) :
    (Mod.disable env this w).2.mod t = w.mod t := by
  unfold Mod.disable
  split
  · rfl
  · split
    · rfl
    · split
      · rename_i e w1 h1
        have hm := Mod.disableHooks_mods env this (w.mod this).m_hooks
          (w.post this ModEventType.Disabled)
        rw [h1] at hm
        exact World.mod_of_mods hm t
      · rename_i u w1 h1
        have hm := Mod.disableHooks_mods env this (w.mod this).m_hooks
          (w.post this ModEventType.Disabled)
        rw [h1] at hm
        split
        · rename_i e w2 h2
          have hp := Mod.restorePatches_mods env this (w1.mod this).m_patches w1
          rw [h2] at hp
          exact World.mod_of_mods (hp.trans hm) t
        · rename_i u2 w2 h2
          have hp := Mod.restorePatches_mods env this (w1.mod this).m_patches w1
          rw [h2] at hp
          show (w2.setMod this _).mod t = w.mod t
          rw [World.setMod_mod_ne _ _ _ _ (Ne.symm ht)]
          exact World.mod_of_mods (hp.trans hm) t

theorem Mod.disable_not_enabled (env : Env) (this : Nat) (w : World)
    (h : (w.mod this).m_enabled = false) : Mod.disable env this w = (Ok, w) := by
  unfold Mod.disable
  simp [h]

theorem World.Stuck.congr {env : Env} (hdet : env.Deterministic) {w w' : World} {t : Nat}
    (h : Mod.SameUnload (w.mod t) (w'.mod t)) (hs : w.Stuck env t) : w'.Stuck env t := by
  unfold World.Stuck at hs ⊢
  rw [h.loaded, h.supportsUnloading, h.enabled, h.hooks, h.patches,
    ← Mod.saveData_congr hdet t w w' h, ← Mod.disable_congr hdet t w w' h]
  exact hs

theorem World.Kept.of_same {env : Env} {S : Nat → Bool} {w w' : World}
    (h : ∀ t, S t = false → Mod.SameUnload (w.mod t) (w'.mod t)) : World.Kept env S w w' :=
  fun hdet t hS hs => ⟨hs.congr hdet (h t hS), (h t hS).enabled, (h t hS).loaded⟩

theorem World.Kept.refl_kept (env : Env) (S : Nat → Bool) (w : World) : World.Kept env S w w :=
  World.Kept.of_same (fun _ _ => Mod.SameUnload.refl_unload _)

theorem World.Kept.trans_kept {env : Env} {S : Nat → Bool} {w w1 w2 : World}
    (h1 : World.Kept env S w w1) (h2 : World.Kept env S w1 w2) : World.Kept env S w w2 := by
  intro hdet t hS hs
  obtain ⟨a1, b1, c1⟩ := h1 hdet t hS hs
  obtain ⟨a2, b2, c2⟩ := h2 hdet t hS a1
  exact ⟨a2, b2.trans b1, c2.trans c1⟩

theorem World.Kept.of_mods_eq_kept {env : Env} {S : Nat → Bool} {w w' : World}
    (h : w'.mods = w.mods) : World.Kept env S w w' :=
  World.Kept.of_same (fun t _ => Mod.SameUnload.of_eq_unload (World.mod_of_mods h t))

theorem World.mod_of_call {w w1 : World} {env : Env} {c : Call} {r : Option String}
    (h : w.call env c = (r, w1)) (t : Nat) : w1.mod t = w.mod t := by
  obtain ⟨-, rfl⟩ := World.call_eq _ h
  rfl

/-- Staging writes no field of another module. -/
theorem Mod.createTempDir_mod_ne (env : Env) (this : Nat) (w : World) (t : Nat) (ht : t ≠ this) :
    (Mod.createTempDir env this w).2.mod t = w.mod t := by
  unfold Mod.createTempDir
  split
  · rfl
  · split
    · rename_i h
      exact World.mod_of_call h t
    · rename_i h1
      split
      · rename_i h
        exact (World.mod_of_call h t).trans (World.mod_of_call h1 t)
      · rename_i h2
        split
        · rename_i h
          exact (World.mod_of_call h t).trans
            ((World.mod_of_call h2 t).trans (World.mod_of_call h1 t))
        · rename_i h3
          split
          · rename_i h
            exact (World.mod_of_call h t).trans ((World.mod_of_call h3 t).trans
              ((World.mod_of_call h2 t).trans (World.mod_of_call h1 t)))
          · rename_i h4
            split
            · rename_i h
              exact (World.mod_of_call h t).trans ((World.mod_of_call h4 t).trans
                ((World.mod_of_call h3 t).trans
                  ((World.mod_of_call h2 t).trans (World.mod_of_call h1 t))))
            · rename_i h
              show (World.setMod _ this _).mod t = w.mod t
              rw [World.setMod_mod_ne _ _ _ _ (Ne.symm ht)]
              exact (World.mod_of_call h t).trans ((World.mod_of_call h4 t).trans
                ((World.mod_of_call h3 t).trans
                  ((World.mod_of_call h2 t).trans (World.mod_of_call h1 t))))

theorem Mod.loadSaved_mod_ne (env : Env) (this : Nat) (w : World) (t : Nat) (ht : t ≠ this) :
    (Mod.loadSaved env this w).2.mod t = w.mod t := by
  unfold Mod.loadSaved
  split
  · split
    · rename_i h
      exact World.mod_of_call h t
    · rename_i h
      split
      · show (World.setMod _ this _).mod t = w.mod t
        rw [World.setMod_mod_ne _ _ _ _ (Ne.symm ht)]
        exact World.mod_of_call h t
      · exact World.mod_of_call h t
  · rfl

/-- Loading the data of a module writes no field of another module. -/
theorem Mod.loadData_mod_ne (env : Env) (this : Nat) (w : World) (t : Nat) (ht : t ≠ this) :
    (Mod.loadData env this w).2.mod t = w.mod t := by
  unfold Mod.loadData
  simp only
  split
  · split
    · rename_i h
      exact World.mod_of_call h t
    · rename_i h
      split
      · exact World.mod_of_call h t
      · split
        · rename_i w1 _ data _ _ _ _ h2
          have hq := (Mod.loadSettings_quiet env this data.items w1).1
          rw [h2] at hq
          exact (World.mod_of_mods hq t).trans (World.mod_of_call h t)
        · rename_i w1 _ data _ _ _ _ h2
          have hq := (Mod.loadSettings_quiet env this data.items w1).1
          rw [h2] at hq
          exact (Mod.loadSaved_mod_ne env this _ t ht).trans
            ((World.mod_of_mods hq t).trans (World.mod_of_call h t))
  · exact Mod.loadSaved_mod_ne env this _ t ht

theorem Mod.loadDataOrWarn_mod_ne (env : Env) (this : Nat) (w : World) (t : Nat) (ht : t ≠ this) :
    (Mod.loadDataOrWarn env this w).mod t = w.mod t := by
  have h := Mod.loadData_mod_ne env this w t ht
  unfold Mod.loadDataOrWarn
  split
  · rename_i e w1 h1
    rw [h1] at h
    exact h
  · rename_i u w1 h1
    rw [h1] at h
    exact h

theorem Mod.markLoaded_mod_ne (env : Env) (this : Nat) (w : World) (t : Nat) (ht : t ≠ this) :
    (Mod.markLoaded env this w).mod t = w.mod t := by
  unfold Mod.markLoaded Mod.implicitLoadFunc
  rw [World.post_mod, World.setMod_mod_ne _ _ _ _ (Ne.symm ht),
    World.setMod_mod_ne _ _ _ _ (Ne.symm ht)]
  rfl

theorem World.Kept.of_others {env : Env} {S : Nat → Bool} {w w' : World} (this : Nat)
    (hS : S this = true) (h : ∀ t, t ≠ this → w'.mod t = w.mod t) : World.Kept env S w w' :=
  World.Kept.of_same (fun t ht => Mod.SameUnload.of_eq_unload
    (h t (fun he => by rw [he, hS] at ht; exact absurd ht (by decide))))

theorem World.Kept.setMod_kept {env : Env} {S : Nat → Bool} (w : World) (this : Nat) (m : Mod)
    (h : S this = false → Mod.SameUnload (w.mod this) m) : World.Kept env S w (w.setMod this m) := by
  refine World.Kept.of_same (fun t ht => ?_)
  rw [World.setMod_mod]
  split
  · rename_i hc
    obtain ⟨rfl, -⟩ := hc
    exact h ht
  · exact Mod.SameUnload.refl_unload _

theorem World.Kept.setDepState_kept {env : Env} {S : Nat → Bool} (w : World) (this k : Nat)
    (s : ModResolveState) : World.Kept env S w (w.setDepState this k s) :=
  World.Kept.setMod_kept w this _ (fun _ => ⟨rfl, rfl, rfl, rfl, rfl, rfl, rfl, rfl, rfl⟩)

theorem World.Kept.setResolved_kept {env : Env} {S : Nat → Bool} (w : World) (this : Nat)
    (b : Bool) : World.Kept env S w (w.setResolved this b) :=
  World.Kept.setMod_kept w this _ (fun _ => ⟨rfl, rfl, rfl, rfl, rfl, rfl, rfl, rfl, rfl⟩)

theorem World.Kept.findDependency_kept {env : Env} {S : Nat → Bool} (this k : Nat) (w : World) :
    World.Kept env S w (Mod.findDependency this k w) := by
  unfold Mod.findDependency
  split
  · exact World.Kept.setMod_kept w this _ (fun _ => ⟨rfl, rfl, rfl, rfl, rfl, rfl, rfl, rfl, rfl⟩)
  · exact World.Kept.refl_kept env S w

/-- What is left of an attempt to unload a stuck module once its data is saved
and it is disabled: it was disabled, without handles, and the platform refuses
to unload it. -/
theorem World.Stuck.attempt {env : Env} (hdet : env.Deterministic) {w w1 w2 : World}
    {this : Nat} {u u2 : Unit} (hs : w.Stuck env this)
    (hl : (w.mod this).m_binaryLoaded = true)
    (hu : (w.mod this).m_info.m_supportsUnloading = true)
    (h1 : Mod.saveData env this w = (Except.ok u, w1))
    (h2 : Mod.disable env this w1 = (Except.ok u2, w2)) :
    (w.mod this).m_enabled = false ∧ (w.mod this).m_hooks = [] ∧ (w.mod this).m_patches = [] ∧
      (env.fails (Call.unloadPlatformBinary this) 0).isSome = true := by
  have hm : w1.mods = w.mods := by
    have := (Mod.saveData_quiet env this w).1
    rw [h1] at this
    exact this
  rcases hs with h | h | h | h | h
  · rw [hl] at h
    exact absurd h (by decide)
  · rw [hu] at h
    exact absurd h (by decide)
  · rw [h1] at h
    exact absurd h (by simp [Result.isOk])
  · have hc := Mod.disable_congr hdet this w w1
      (Mod.SameUnload.of_eq_unload (World.mod_of_mods hm this))
    rw [hc, h2] at h
    exact absurd h.2 (by simp [Result.isOk])
  · exact h

theorem World.SameGraph.refl_graph (w : World) : World.SameGraph w w :=
  ⟨rfl, fun _ => rfl, fun _ _ => rfl, fun _ _ => rfl⟩

theorem World.SameGraph.trans_graph {w w1 w2 : World} (h1 : World.SameGraph w w1)
    (h2 : World.SameGraph w1 w2) : World.SameGraph w w2 :=
  ⟨h2.length.trans h1.length, fun t => (h2.deps t).trans (h1.deps t),
    fun t k => (h2.required t k).trans (h1.required t k),
    fun t k => (h2.target t k).trans (h1.target t k)⟩

theorem World.SameGraph.of_info {w w' : World}
    (hl : w'.mods.length = w.mods.length)
    (hi : ∀ t, (w'.mod t).m_info = (w.mod t).m_info)
    (hids : w'.mods.map (fun m => m.m_info.m_id) = w.mods.map (fun m => m.m_info.m_id)) :
    World.SameGraph w w' := by
  refine ⟨hl, fun t => by rw [hi], fun t k => by simp [Mod.dep, hi], fun t k => ?_⟩
  simp only [World.target, Mod.dep, hi, World.getLoadedMod_congr hids]

theorem World.SameGraph.of_frame_graph {w w' : World} (f : Frame w w') : World.SameGraph w w' :=
  World.SameGraph.of_info f.length (fun t => (f.core t).info) f.ids_frame

theorem World.SameGraph.setMod_graph (w : World) (this : Nat) (m : Mod)
    (hi : m.m_info = (w.mod this).m_info) : World.SameGraph w (w.setMod this m) := by
  refine World.SameGraph.of_info (by simp [World.setMod]) (fun t => ?_)
    (World.ids_of_mods_eq rfl (by rw [hi]))
  rw [World.setMod_mod]
  split
  · rename_i h
    rw [hi, h.1]
  · rfl

theorem World.Pass.refl_pass (E S R : Nat → Bool) (w : World) : World.Pass E S R w w :=
  ⟨World.SameGraph.refl_graph w, fun _ _ => rfl, fun _ => Or.inl rfl, fun _ h => h,
    fun _ _ => Or.inl rfl⟩

theorem World.Pass.trans_pass {E S R : Nat → Bool} {w w1 w2 : World} (h1 : World.Pass E S R w w1)
    (h2 : World.Pass E S R w1 w2) : World.Pass E S R w w2 := by
  refine ⟨h1.graph.trans_graph h2.graph, fun t hs => (h2.enabled t hs).trans (h1.enabled t hs),
    fun t => ?_, fun t h => h2.resolved t (h1.resolved t h), fun t k => ?_⟩
  · rcases h2.loaded t with h | h
    · rcases h1.loaded t with h' | h'
      · exact Or.inl (h.trans h')
      · exact Or.inr ⟨h.trans h'.1, h'.2⟩
    · exact Or.inr h
  · rcases h2.states t k with h | h
    · rcases h1.states t k with h' | h'
      · exact Or.inl (h.trans h')
      · exact Or.inr (h.trans h')
    · rw [h1.graph.target] at h
      exact Or.inr h

/-- A record state that is as the pass leaves it stays so. -/
theorem World.Pass.records {E S R : Nat → Bool} {w w' : World} (p : World.Pass E S R w w')
    (t k : Nat) (h : ((w.mod t).dep k).m_state = World.canonical E S (w.target t k)) :
    ((w'.mod t).dep k).m_state = World.canonical E S (w.target t k) := by
  rcases p.states t k with h' | h'
  · exact h'.trans h
  · exact h'

/-- A pass sets no record to `Resolved`. -/
theorem World.Pass.not_resolved {E S R : Nat → Bool} {w w' : World} (p : World.Pass E S R w w')
    (t k : Nat) (h : ((w.mod t).dep k).m_state ≠ ModResolveState.Resolved) :
    ((w'.mod t).dep k).m_state ≠ ModResolveState.Resolved := by
  rcases p.states t k with h' | h'
  · rw [h']
    exact h
  · rw [h']
    cases w.target t k with
    | none => simp [World.canonical]
    | some b => cases hs : S b <;> cases he : E b <;> simp [World.canonical, hs, he]

theorem World.Pass.of_eq_pass {E S R : Nat → Bool} {w w1 w2 : World} (h : World.Pass E S R w w1)
    (he : w1 = w2) : World.Pass E S R w w2 := he ▸ h

theorem World.Pass.of_frame_pass {E S R : Nat → Bool} {w w' : World} (f : Frame w w') :
    World.Pass E S R w w' := by
  refine ⟨World.SameGraph.of_frame_graph f, fun t _ => (f.core t).enabled,
    fun t => Or.inl (f.core t).loaded, fun t h => by rw [(f.core t).resolved]; exact h,
    fun t k => Or.inl ?_⟩
  have : (w'.mod t).dep k = (w.mod t).dep k := by simp [Mod.dep, (f.core t).info]
  rw [this]

theorem World.Pass.setMod_pass {E S R : Nat → Bool} (w : World) (this : Nat) (m : Mod)
    (hi : m.m_info = (w.mod this).m_info)
    (he : S this = true → m.m_enabled = (w.mod this).m_enabled)
    (hl : m.m_binaryLoaded = (w.mod this).m_binaryLoaded ∨
      (m.m_binaryLoaded = S this ∧ (S this = true → E this = true ∧ R this = false)))
    (hr : m.m_resolved = (w.mod this).m_resolved ∨ m.m_resolved = S this) :
    World.Pass E S R w (w.setMod this m) := by
  refine ⟨World.SameGraph.setMod_graph w this m hi, fun t hs => ?_, fun t => ?_, fun t h => ?_,
    fun t k => Or.inl ?_⟩
  · rw [World.setMod_mod]
    split
    · rename_i hc
      obtain ⟨rfl, -⟩ := hc
      exact he hs
    · rfl
  · rw [World.setMod_mod]
    split
    · rename_i hc
      obtain ⟨rfl, -⟩ := hc
      exact hl
    · exact Or.inl rfl
  · rw [World.setMod_mod]
    split
    · rename_i hc
      obtain ⟨rfl, -⟩ := hc
      rcases hr with hr | hr
      · rw [hr]; exact h
      · exact hr
    · exact h
  · rw [World.setMod_mod]
    split
    · rename_i hc
      obtain ⟨rfl, -⟩ := hc
      have : m.dep k = (w.mod this).dep k := by simp [Mod.dep, hi]
      rw [this]
    · rfl

theorem World.setMod_setDep_dep (w : World) (this k : Nat) (d : Dependency) (t j : Nat) :
    ((w.setMod this ((w.mod this).setDep k d)).mod t).dep j =
      if (this = t ∧ this < w.mods.length) ∧ (k = j ∧ k < (w.mod this).m_info.m_dependencies.length)
      then d else (w.mod t).dep j := by
  rw [World.setMod_mod]
  split
  · rename_i hc
    obtain ⟨rfl, hlt⟩ := hc
    rw [Mod.dep_setDep]
    simp [hlt]
  · rename_i hc
    simp [hc]

theorem World.target_setDep (w : World) (this k : Nat) (d : Dependency)
    (ht : (match d.m_mod with
      | some b => some b
      | none => w.getLoadedMod d.m_id) = w.target this k) (t j : Nat) :
    (w.setMod this ((w.mod this).setDep k d)).target t j = w.target t j := by
  have hids : (w.setMod this ((w.mod this).setDep k d)).mods.map (fun m => m.m_info.m_id) =
      w.mods.map (fun m => m.m_info.m_id) := World.ids_of_mods_eq rfl rfl
  unfold World.target
  rw [World.getLoadedMod_congr hids, World.setMod_setDep_dep]
  by_cases hc : (this = t ∧ this < w.mods.length) ∧
      (k = j ∧ k < (w.mod this).m_info.m_dependencies.length)
  · rw [if_pos hc]
    obtain ⟨⟨rfl, -⟩, rfl, -⟩ := hc
    exact ht
  · rw [if_neg hc]

theorem World.Pass.setDep {E S R : Nat → Bool} (w : World) (this k : Nat) (d : Dependency)
    (hreq : d.m_required = ((w.mod this).dep k).m_required)
    (ht : (match d.m_mod with
      | some b => some b
      | none => w.getLoadedMod d.m_id) = w.target this k)
    (hs : d.m_state = ((w.mod this).dep k).m_state ∨
      d.m_state = World.canonical E S (w.target this k)) :
    World.Pass E S R w (w.setMod this ((w.mod this).setDep k d)) := by
  have hdep := World.setMod_setDep_dep w this k d
  refine ⟨⟨by simp [World.setMod], fun t => ?_, fun t j => ?_, World.target_setDep w this k d ht⟩,
    fun t _ => ?_, fun t => Or.inl ?_, fun t h => ?_, fun t j => ?_⟩
  · rw [World.setMod_mod]
    split
    · rename_i hc
      obtain ⟨rfl, -⟩ := hc
      simp [Mod.setDep]
    · rfl
  · rw [hdep]
    split
    · rename_i hc
      obtain ⟨⟨rfl, -⟩, rfl, -⟩ := hc
      exact hreq
    · rfl
  · rw [World.setMod_mod]
    split
    · rename_i hc
      obtain ⟨rfl, -⟩ := hc
      rfl
    · rfl
  · rw [World.setMod_mod]
    split
    · rename_i hc
      obtain ⟨rfl, -⟩ := hc
      rfl
    · rfl
  · rw [World.setMod_mod]
    split
    · rename_i hc
      obtain ⟨rfl, -⟩ := hc
      exact h
    · exact h
  · rw [hdep]
    split
    · rename_i hc
      obtain ⟨⟨rfl, -⟩, rfl, -⟩ := hc
      exact hs
    · exact Or.inl rfl

theorem World.Pass.setDepState_pass {E S R : Nat → Bool} (w : World) (this k : Nat)
    (s : ModResolveState) (hs : s = World.canonical E S (w.target this k)) :
    World.Pass E S R w (w.setDepState this k s) :=
  World.Pass.setDep w this k _ rfl rfl (Or.inr hs)

theorem World.Pass.setResolved_pass {E S R : Nat → Bool} (w : World) (this : Nat) (b : Bool)
    (hb : b = S this) : World.Pass E S R w (w.setResolved this b) :=
  World.Pass.setMod_pass w this _ rfl (fun _ => rfl) (Or.inl rfl) (Or.inr hb)

theorem World.Pass.findDependency_pass {E S R : Nat → Bool} (this k : Nat) (w : World) :
    World.Pass E S R w (Mod.findDependency this k w) := by
  unfold Mod.findDependency
  split
  · rename_i h
    refine World.Pass.setDep w this k _ rfl ?_ (Or.inl rfl)
    have hn : ((w.mod this).dep k).m_mod = none := by
      cases hm : ((w.mod this).dep k).m_mod with
      | none => rfl
      | some b => rw [hm] at h; simp at h
    unfold World.target
    rw [hn]
    dsimp only
    split <;> simp_all
  · exact World.Pass.refl_pass E S R w

theorem World.satisfiedAt_graph {w w' : World} (g : World.SameGraph w w') (E S : Nat → Bool)
    (t k : Nat) : w'.satisfiedAt E S t k = w.satisfiedAt E S t k := by
  unfold World.satisfiedAt
  rw [g.required, g.target]

theorem World.satisfied_graph {w w' : World} (g : World.SameGraph w w') (E S : Nat → Bool)
    (t : Nat) : w'.satisfied E S t = w.satisfied E S t := by
  unfold World.satisfied
  rw [g.deps]
  simp only [World.satisfiedAt_graph g]

theorem World.Ranked.graph {w w' : World} {rank : Nat → Nat} {N : Nat} (h : w.Ranked rank N)
    (g : World.SameGraph w w') : w'.Ranked rank N := by
  refine ⟨h.bound, fun t k b hk ht => ?_⟩
  rw [g.deps] at hk
  rw [g.target] at ht
  rw [g.length]
  exact h.target t k b hk ht

theorem World.Base.pass {w w' : World} {rank : Nat → Nat} {N : Nat} {E S R : Nat → Bool}
    (h : w.Base rank N E S R) (p : World.Pass E S R w w') : w'.Base rank N E S R := by
  refine ⟨h.ranked.graph p.graph, fun t => by rw [World.satisfied_graph p.graph]; exact h.fix t,
    fun t hs => (p.enabled t hs).trans (h.enabled t hs), fun t hs hr => ?_⟩
  refine h.unresolved t hs ?_
  cases hw : (w.mod t).m_resolved with
  | false => rfl
  | true =>
    have := p.resolved t (by rw [hw, hs])
    rw [hr, hs] at this
    exact absurd this (by decide)

theorem World.Settled.keep {w w' : World} {env : Env} {E S R : Nat → Bool} {t : Nat}
    (h : w.Settled env E S t) (p : World.Pass E S R w w') (k : World.Kept env S w w') :
    w'.Settled env E S t := by
  refine ⟨fun k hk => ?_, p.resolved t h.resolved,
    fun hdet hS => (k hdet t hS (h.stuck hdet hS)).1⟩
  rw [p.graph.deps] at hk
  rw [p.graph.target]
  exact p.records t k (h.records k hk)

theorem World.misplaced_pass {w w' : World} {E S R : Nat → Bool} (p : World.Pass E S R w w')
    (t : Nat) (h : w'.misplaced E S t = true) : w.misplaced E S t = true := by
  unfold World.misplaced at h ⊢
  rcases p.loaded t with hl | hl
  · rw [hl] at h
    exact h
  · rw [hl.1] at h
    cases hs : S t <;> simp [hs] at h

theorem List.countP_lt_of_imp {α : Type} (p q : α → Bool) (l : List α) (a : α) (ha : a ∈ l)
    (h : ∀ x ∈ l, p x = true → q x = true) (hq : q a = true) (hp : p a = false) :
    l.countP p < l.countP q := by
  induction l with
  | nil => simp at ha
  | cons x l ih =>
    have hle : l.countP p ≤ l.countP q :=
      List.countP_mono_left (fun y hy => h y (List.mem_cons_of_mem _ hy))
    rcases List.mem_cons.1 ha with rfl | hmem
    · rw [List.countP_cons_of_neg _ _ (by simp [hp]), List.countP_cons_of_pos _ _ hq]
      omega
    · have := ih hmem (fun y hy => h y (List.mem_cons_of_mem _ hy))
      by_cases hx : p x = true
      · rw [List.countP_cons_of_pos _ _ hx, List.countP_cons_of_pos _ _ (h x (List.mem_cons_self _ _) hx)]
        omega
      · rw [List.countP_cons_of_neg _ _ hx]
        by_cases hx2 : q x = true
        · rw [List.countP_cons_of_pos _ _ hx2]
          omega
        · rw [List.countP_cons_of_neg _ _ hx2]
          exact this

theorem World.misplacedCount_le {w w' : World} {E S R : Nat → Bool} (p : World.Pass E S R w w') :
    w'.misplacedCount E S ≤ w.misplacedCount E S := by
  unfold World.misplacedCount
  rw [p.graph.length]
  exact List.countP_mono_left (fun t _ h => World.misplaced_pass p t h)

theorem World.misplacedCount_lt {w w' : World} {E S R : Nat → Bool} (p : World.Pass E S R w w')
    (t : Nat) (ht : t < w.mods.length) (h : w.misplaced E S t = true)
    (h' : w'.misplaced E S t = false) : w'.misplacedCount E S < w.misplacedCount E S := by
  unfold World.misplacedCount
  rw [p.graph.length]
  exact List.countP_lt_of_imp _ _ _ t (List.mem_range.2 ht)
    (fun x _ hx => World.misplaced_pass p x hx) h h'

theorem World.misplacedCount_le_length (w : World) (E S : Nat → Bool) :
    w.misplacedCount E S ≤ w.mods.length := by
  unfold World.misplacedCount
  exact (List.countP_le_length _).trans (by simp)

theorem World.isUnresolved_canonical (w : World) (E S : Nat → Bool) (t k : Nat)
    (h : ((w.mod t).dep k).m_state = World.canonical E S (w.target t k)) :
    ((w.mod t).dep k).isUnresolved = !w.satisfiedAt E S t k := by
  unfold Dependency.isUnresolved World.satisfiedAt
  rw [h]
  cases hr : ((w.mod t).dep k).m_required
  · simp
  · cases ht : w.target t k with
    | none => simp [World.canonical]
    | some b =>
      cases hs : S b <;> cases he : E b <;> simp [World.canonical, hs, he]

theorem Mod.hasUnresolvedDependencies_iff_dep (m : Mod) :
    m.hasUnresolvedDependencies = true ↔
      ∃ k, k < m.m_info.m_dependencies.length ∧ (m.dep k).isUnresolved = true := by
  unfold Mod.hasUnresolvedDependencies
  rw [Mod.hasUnresolvedDependenciesIn_iff]
  constructor
  · rintro ⟨d, hd, hu⟩
    obtain ⟨k, hk, rfl⟩ := List.getElem_of_mem hd
    refine ⟨k, hk, ?_⟩
    unfold Mod.dep
    rw [List.getD_eq_getElem _ _ hk]
    exact hu
  · rintro ⟨k, hk, hu⟩
    refine ⟨m.dep k, ?_, hu⟩
    unfold Mod.dep
    rw [List.getD_eq_getElem _ _ hk]
    exact List.getElem_mem hk

theorem World.satisfied_iff (w : World) (E S : Nat → Bool) (t : Nat) :
    w.satisfied E S t = true ↔
      ∀ k, k < (w.mod t).m_info.m_dependencies.length → w.satisfiedAt E S t k = true := by
  unfold World.satisfied
  simp [List.all_eq_true]

theorem World.Settled.hasUnresolved {w : World} {env : Env} {rank : Nat → Nat} {N : Nat}
    {E S R : Nat → Bool} {t : Nat} (h : w.Settled env E S t) (hb : w.Base rank N E S R) :
    (w.mod t).hasUnresolvedDependencies = !S t := by
  rw [hb.fix t]
  apply Bool.eq_iff_iff.2
  rw [Mod.hasUnresolvedDependencies_iff_dep]
  simp only [Bool.not_eq_true', ← Bool.not_eq_true, World.satisfied_iff, not_forall]
  constructor
  · rintro ⟨k, hk, hu⟩
    refine ⟨k, hk, ?_⟩
    rw [World.isUnresolved_canonical w E S t k (h.records k hk)] at hu
    simpa using hu
  · rintro ⟨k, hk, hu⟩
    refine ⟨k, hk, ?_⟩
    rw [World.isUnresolved_canonical w E S t k (h.records k hk)]
    simpa using hu

theorem World.satisfied_congr (w : World) (E S S' : Nat → Bool) (t : Nat)
    (h : ∀ k b, k < (w.mod t).m_info.m_dependencies.length → w.target t k = some b →
      S b = S' b) : w.satisfied E S t = w.satisfied E S' t := by
  have key : ∀ k, k < (w.mod t).m_info.m_dependencies.length →
      w.satisfiedAt E S t k = w.satisfiedAt E S' t k := by
    intro k hk
    unfold World.satisfiedAt
    cases ht : w.target t k with
    | none => rfl
    | some b => simp only [h k b hk ht]
  apply Bool.eq_iff_iff.2
  rw [World.satisfied_iff, World.satisfied_iff]
  exact ⟨fun h1 k hk => by rw [← key k hk]; exact h1 k hk,
    fun h1 k hk => by rw [key k hk]; exact h1 k hk⟩

theorem World.sat_stable {w : World} {rank : Nat → Nat} {N : Nat} (h : w.Ranked rank N)
    (E : Nat → Bool) (n : Nat) : ∀ m t, rank t < n → rank t < m → w.sat E n t = w.sat E m t := by
  induction n with
  | zero => intro m t h0; omega
  | succ n ih =>
    intro m t hn hm
    cases m with
    | zero => omega
    | succ m =>
      simp only [World.sat]
      apply World.satisfied_congr
      intro k b hk ht
      have := (h.target t k b hk ht).2
      exact ih m b (by omega) (by omega)

theorem World.Base.of_ranked {w : World} {rank : Nat → Nat} {N : Nat} (h : w.Ranked rank N) :
    w.Base rank N (fun b => (w.mod b).m_enabled) (w.sat (fun b => (w.mod b).m_enabled) N)
      (fun b => (w.mod b).m_resolved) := by
  refine ⟨h, fun t => ?_, fun t _ => rfl, fun t _ hr => hr⟩
  have := World.sat_stable h (fun b => (w.mod b).m_enabled) N (N + 1) t (h.bound t)
    (Nat.lt_succ_of_lt (h.bound t))
  rw [this]
  rfl

/-- A registry that agrees with `E` and `S` in a pass agrees with them at the
start of the next pass. -/
theorem World.Base.restart {w : World} {rank : Nat → Nat} {N : Nat} {E S R : Nat → Bool}
    (h : w.Base rank N E S R) : w.Base rank N E S (fun b => (w.mod b).m_resolved) :=
  ⟨h.ranked, h.fix, h.enabled, fun _ _ hr => hr⟩

/-! ### Landing: with succeeding collaborators a resolved module gets loaded -/

theorem World.Lands.refl_lands (env : Env) (S : Nat → Bool) (w : World) :
    World.Lands env S w w :=
  fun _ _ h => h

theorem World.Lands.trans_lands {env : Env} {S : Nat → Bool} {w w1 w2 : World}
    (h1 : World.Lands env S w w1) (h2 : World.Lands env S w1 w2) : World.Lands env S w w2 :=
  fun he t h => h2 he t (h1 he t h)

theorem World.Landed.of_flags {S : Nat → Bool} {w w' : World} {t : Nat} (h : w.Landed S t)
    (hl : (w'.mod t).m_binaryLoaded = (w.mod t).m_binaryLoaded)
    (he : (w'.mod t).m_enabled = (w.mod t).m_enabled)
    (hr : (w'.mod t).m_resolved = true → (w.mod t).m_resolved = true) : w'.Landed S t := by
  intro hS hen hres
  rw [hl]
  rw [he] at hen
  exact h hS hen (hr hres)

theorem World.Landed.of_mod_eq {S : Nat → Bool} {w w' : World} {t : Nat} (h : w.Landed S t)
    (hm : w'.mod t = w.mod t) : w'.Landed S t :=
  h.of_flags (by rw [hm]) (by rw [hm]) (fun hr => by rw [← hm]; exact hr)

theorem World.Landed.of_loaded {S : Nat → Bool} {w : World} {t : Nat}
    (h : (w.mod t).m_binaryLoaded = true) : w.Landed S t :=
  fun _ _ _ => h

theorem World.Landed.of_frame_landed {S : Nat → Bool} {w w' : World} {t : Nat}
    (h : w.Landed S t) (f : Frame w w') : w'.Landed S t :=
  h.of_flags (f.core t).loaded (f.core t).enabled
    (fun hr => by rw [← (f.core t).resolved]; exact hr)

theorem World.Lands.of_mods_eq_lands {env : Env} {S : Nat → Bool} {w w' : World}
    (h : w'.mods = w.mods) : World.Lands env S w w' :=
  fun _ t hl => hl.of_mod_eq (World.mod_of_mods h t)

theorem World.Lands.of_frame_lands {env : Env} {S : Nat → Bool} {w w' : World}
    (f : Frame w w') : World.Lands env S w w' :=
  fun _ _ hl => hl.of_frame_landed f

theorem World.Lands.setMod_lands {env : Env} {S : Nat → Bool} (w : World) (this : Nat) (m : Mod)
    (hl : m.m_binaryLoaded = (w.mod this).m_binaryLoaded)
    (he : m.m_enabled = (w.mod this).m_enabled)
    (hr : m.m_resolved = true → (w.mod this).m_resolved = true) :
    World.Lands env S w (w.setMod this m) := by
  intro _ t h
  by_cases hc : this = t ∧ this < w.mods.length
  · have ht := hc.1
    subst ht
    refine h.of_flags ?_ ?_ ?_
    · rw [World.setMod_mod, if_pos hc]; exact hl
    · rw [World.setMod_mod, if_pos hc]; exact he
    · rw [World.setMod_mod, if_pos hc]; exact hr
  · exact h.of_mod_eq (by rw [World.setMod_mod, if_neg hc])

theorem World.Lands.setDepState_lands {env : Env} {S : Nat → Bool} (w : World) (this k : Nat)
    (s : ModResolveState) : World.Lands env S w (w.setDepState this k s) :=
  World.Lands.setMod_lands w this _ rfl rfl (fun h => h)

theorem World.Lands.setResolved_lands {env : Env} {S : Nat → Bool} (w : World) (this : Nat) :
    World.Lands env S w (w.setResolved this false) :=
  World.Lands.setMod_lands w this _ rfl rfl (fun h => Bool.noConfusion h)

theorem World.Lands.findDependency_lands {env : Env} {S : Nat → Bool} (this k : Nat)
    (w : World) : World.Lands env S w (Mod.findDependency this k w) := by
  unfold Mod.findDependency
  split
  · exact World.Lands.setMod_lands w this _ rfl rfl (fun h => h)
  · exact World.Lands.refl_lands env S w

/-- A stretch that changes one module only, whose dependencies cannot be met,
leaves the modules landed. -/
theorem World.Lands.of_others_lands {env : Env} {S : Nat → Bool} {w w' : World} (this : Nat)
    (hS : S this = false) (h : ∀ t, t ≠ this → w'.mod t = w.mod t) :
    World.Lands env S w w' := by
  intro _ t hl
  by_cases ht : t = this
  · subst ht
    intro hS'
    rw [hS] at hS'
    exact Bool.noConfusion hS'
  · exact hl.of_mod_eq (h t ht)

/-- A module whose dependencies can be met and whose records have the states a
pass gives them has no unresolved dependency. -/
theorem World.hasUnresolved_of_records {w : World} {rank : Nat → Nat} {N : Nat}
    {E S R : Nat → Bool} {t : Nat} (hb : w.Base rank N E S R) (hS : S t = true)
    (h : ∀ k, k < (w.mod t).m_info.m_dependencies.length →
      ((w.mod t).dep k).m_state = World.canonical E S (w.target t k)) :
    (w.mod t).hasUnresolvedDependencies = false := by
  cases hx : (w.mod t).hasUnresolvedDependencies with
  | false => rfl
  | true =>
    rw [Mod.hasUnresolvedDependencies_iff_dep] at hx
    obtain ⟨k, hk, hu⟩ := hx
    rw [World.isUnresolved_canonical w E S t k (h k hk)] at hu
    have hsat := hb.fix t
    rw [hS] at hsat
    have := (World.satisfied_iff w E S t).1 hsat.symm k hk
    rw [this] at hu
    exact absurd hu (by simp)

theorem Mod.markResolved_info (this : Nat) (w : World) :
    ((Mod.markResolved this w).mod this).m_info = (w.mod this).m_info := by
  unfold Mod.markResolved World.setResolved
  rw [World.setMod_mod]
  split <;> rfl

theorem Mod.markResolved_mod_ne (this : Nat) (w : World) (t : Nat) (ht : t ≠ this) :
    (Mod.markResolved this w).mod t = w.mod t := by
  unfold Mod.markResolved World.setResolved
  rw [World.setMod_mod_ne _ _ _ _ (Ne.symm ht)]
  rfl

/-- With collaborators whose calls all succeed, staging succeeds. -/
theorem Mod.createTempDir_ok {env : Env} (henv : ∀ c x, env.fails c x = none) (this : Nat)
    (w : World) : (Mod.createTempDir env this w).1 = Ok := by
  unfold Mod.createTempDir
  split
  · rfl
  · simp only [World.call, henv]

theorem Mod.findDependency_mod (this k : Nat) (w : World) (ht : this < w.mods.length)
    (hk : k < (w.mod this).m_info.m_dependencies.length) :
    (((Mod.findDependency this k w).mod this).dep k).m_mod = w.target this k := by
  unfold Mod.findDependency World.target
  cases hm : ((w.mod this).dep k).m_mod with
  | none =>
    simp only [Option.isNone_none, if_true]
    rw [World.setMod_mod_self _ _ _ ht, Mod.dep_setDep, if_pos ⟨rfl, hk⟩]
  | some b =>
    simp only [Option.isNone_some, Bool.false_eq_true, if_false, hm]

theorem Mod.resolveDependency_pass {go : Methods} {env : Env} {rank : Nat → Nat} {N : Nat}
    {E S R : Nat → Bool} {M r : Nat} (hu : ∀ r', r' < r → go.Resolves env rank N E S R M r')
    (this k : Nat) (w : World) (hb : w.Base rank N E S R) (hc : w.misplacedCount E S ≤ M)
    (hr : rank this ≤ r) (ht : this < w.mods.length)
    (hk : k < (w.mod this).m_info.m_dependencies.length)
    (hm : ((w.mod this).dep k).m_mod = w.target this k) :
    ∃ w', Mod.resolveDependency go this k w = some w' ∧ World.Pass E S R w w' ∧
      World.Kept env S w w' ∧ World.Lands env S w w' ∧
      ((w'.mod this).dep k).m_state = World.canonical E S (w.target this k) := by
  unfold Mod.resolveDependency
  rw [hm]
  cases htar : w.target this k with
  | none =>
    refine ⟨_, rfl, World.Pass.setDepState_pass w this k _ (by rw [htar]; rfl),
      World.Kept.setDepState_kept w this k _, World.Lands.setDepState_lands w this k _, ?_⟩
    rw [World.setDepState_dep_self _ ht hk]
    rfl
  | some b =>
    obtain ⟨hbl, hrk⟩ := hb.ranked.target this k b hk htar
    obtain ⟨w1, h1, p1, k1, l1, s1⟩ := hu (rank b) (by omega) b w hb hc (le_refl _) hbl
    have hb1 := hb.pass p1
    have ht1 : this < w1.mods.length := by rw [p1.graph.length]; exact ht
    have hk1 : k < (w1.mod this).m_info.m_dependencies.length := by
      rw [p1.graph.deps]; exact hk
    have htar1 : w1.target this k = some b := by rw [p1.graph.target]; exact htar
    have hun := s1.hasUnresolved hb1
    simp only [h1]
    cases hS : S b with
    | false =>
      rw [hS] at hun
      simp only [hun, Bool.not_false, if_true]
      refine ⟨_, rfl, p1.trans_pass (World.Pass.setDepState_pass w1 this k _ ?_),
        k1.trans_kept (World.Kept.setDepState_kept w1 this k _),
        l1.trans_lands (World.Lands.setDepState_lands w1 this k _), ?_⟩
      · rw [htar1]; simp [World.canonical, hS]
      · rw [World.setDepState_dep_self _ ht1 hk1]
        simp [World.canonical, hS]
    | true =>
      rw [hS] at hun
      have hres : (w1.mod b).m_resolved = true := by rw [s1.resolved, hS]
      have hen : (w1.mod b).m_enabled = E b := hb1.enabled b hS
      simp only [hun, hres, Bool.not_true, Bool.false_eq_true, if_false, Mod.isEnabled, hen]
      cases hE : E b with
      | false =>
        simp only [Bool.false_eq_true, if_false]
        refine ⟨_, rfl, p1.trans_pass (World.Pass.setDepState_pass w1 this k _ ?_),
        k1.trans_kept (World.Kept.setDepState_kept w1 this k _),
        l1.trans_lands (World.Lands.setDepState_lands w1 this k _), ?_⟩
        · rw [htar1]; simp [World.canonical, hS, hE]
        · rw [World.setDepState_dep_self _ ht1 hk1]
          simp [World.canonical, hS, hE]
      | true =>
        simp only [if_true]
        refine ⟨_, rfl, p1.trans_pass (World.Pass.setDepState_pass w1 this k _ ?_),
        k1.trans_kept (World.Kept.setDepState_kept w1 this k _),
        l1.trans_lands (World.Lands.setDepState_lands w1 this k _), ?_⟩
        · rw [htar1]; simp [World.canonical, hS, hE]
        · rw [World.setDepState_dep_self _ ht1 hk1]
          simp [World.canonical, hS, hE]

theorem Mod.updateDependency_pass {go : Methods} {env : Env} {rank : Nat → Nat} {N : Nat}
    {E S R : Nat → Bool} {M r : Nat} (hu : ∀ r', r' < r → go.Resolves env rank N E S R M r')
    (hx : go.Unloads env rank N E S R M)
    (this k : Nat) (w : World) (hb : w.Base rank N E S R) (hc : w.misplacedCount E S ≤ M)
    (hr : rank this ≤ r) (ht : this < w.mods.length)
    (hk : k < (w.mod this).m_info.m_dependencies.length) :
    ∃ w', Mod.updateDependency go this k w = some (!w.satisfiedAt E S this k, w') ∧
      World.Pass E S R w w' ∧ World.Kept env S w w' ∧ World.Lands env S w w' ∧
      ((w'.mod this).dep k).m_state = World.canonical E S (w.target this k) ∧
      (w.satisfiedAt E S this k = false → S this = false ∧ (w'.mod this).m_resolved = S this ∧
        (env.Deterministic → w'.Stuck env this)) := by
  have p0 : World.Pass E S R w (Mod.findDependency this k w) := World.Pass.findDependency_pass this k w
  have hb0 := hb.pass p0
  have ht0 : this < (Mod.findDependency this k w).mods.length := by
    rw [p0.graph.length]; exact ht
  have hk0 : k < ((Mod.findDependency this k w).mod this).m_info.m_dependencies.length := by
    rw [p0.graph.deps]; exact hk
  have k0 : World.Kept env S w (Mod.findDependency this k w) :=
    World.Kept.findDependency_kept this k w
  have hm0 : (((Mod.findDependency this k w).mod this).dep k).m_mod =
      (Mod.findDependency this k w).target this k := by
    rw [p0.graph.target]; exact Mod.findDependency_mod this k w ht hk
  have l0 : World.Lands env S w (Mod.findDependency this k w) :=
    World.Lands.findDependency_lands this k w
  obtain ⟨w1, h1, p1, k1, l1, s1⟩ := Mod.resolveDependency_pass hu this k _ hb0
    ((World.misplacedCount_le p0).trans hc) hr ht0 hk0 hm0
  have p01 := p0.trans_pass p1
  have hb1 := hb.pass p01
  rw [p0.graph.target] at s1
  have hun : ((w1.mod this).dep k).isUnresolved = !w.satisfiedAt E S this k := by
    rw [World.isUnresolved_canonical w1 E S this k (by rw [p01.graph.target]; exact s1),
      World.satisfiedAt_graph p01.graph]
  unfold Mod.updateDependency
  simp only [h1, hun]
  cases hsat : w.satisfiedAt E S this k with
  | true =>
    simp only [Bool.not_true, Bool.false_eq_true, if_false]
    exact ⟨w1, rfl, p01, k0.trans_kept k1, l0.trans_lands l1, s1, fun h => absurd h (by simp)⟩
  | false =>
    simp only [Bool.not_false, if_true]
    have hS : S this = false := by
      rw [hb.fix this]
      cases hall : w.satisfied E S this with
      | false => rfl
      | true =>
        rw [World.satisfied_iff] at hall
        rw [hall k hk] at hsat
        exact absurd hsat (by simp)
    have p2 : World.Pass E S R w1 (w1.setResolved this false) :=
      World.Pass.setResolved_pass w1 this false hS.symm
    have ht1 : this < w1.mods.length := by rw [p01.graph.length]; exact ht
    obtain ⟨r3, w3, h3, p3, k3, l3, st3⟩ := hx this (w1.setResolved this false) (hb1.pass p2)
      ((World.misplacedCount_le (p01.trans_pass p2)).trans hc)
      (by rw [p2.graph.length]; exact ht1) hS
    simp only [h3]
    refine ⟨w3, rfl, p01.trans_pass (p2.trans_pass p3),
      (k0.trans_kept k1).trans_kept ((World.Kept.setResolved_kept w1 this false).trans_kept k3),
      (l0.trans_lands l1).trans_lands ((World.Lands.setResolved_lands w1 this).trans_lands l3),
      ?_, fun _ => ⟨hS, ?_, st3⟩⟩
    · have := (p2.trans_pass p3).records this k (by rw [p01.graph.target]; exact s1)
      rw [p01.graph.target] at this
      exact this
    · exact p3.resolved this (by rw [World.setResolved_self w1 this false ht1, hS])

theorem Mod.updateDependenciesFrom_pass {go : Methods} {env : Env} {rank : Nat → Nat} {N : Nat}
    {E S R : Nat → Bool} {M r : Nat} (hu : ∀ r', r' < r → go.Resolves env rank N E S R M r')
    (hx : go.Unloads env rank N E S R M) (this : Nat) (hr : rank this ≤ r) :
    ∀ (ks : List Nat) (acc : Bool) (w : World), w.Base rank N E S R →
      w.misplacedCount E S ≤ M →
      this < w.mods.length → (∀ k ∈ ks, k < (w.mod this).m_info.m_dependencies.length) →
      ∃ w', Mod.updateDependenciesFrom go this ks acc w =
          some (acc || !ks.all (fun k => w.satisfiedAt E S this k), w') ∧
        World.Pass E S R w w' ∧ World.Kept env S w w' ∧ World.Lands env S w w' ∧
        (∀ k ∈ ks, ((w'.mod this).dep k).m_state = World.canonical E S (w.target this k)) ∧
        ((acc = true → S this = false ∧ (w.mod this).m_resolved = S this ∧
            (env.Deterministic → w.Stuck env this)) →
          (acc || !ks.all (fun k => w.satisfiedAt E S this k)) = true →
          S this = false ∧ (w'.mod this).m_resolved = S this ∧
            (env.Deterministic → w'.Stuck env this)) := by
  intro ks
  induction ks with
  | nil =>
    intro acc w _ _ _ _
    refine ⟨w, by simp [Mod.updateDependenciesFrom], World.Pass.refl_pass E S R w,
      World.Kept.refl_kept env S w, World.Lands.refl_lands env S w, by simp, ?_⟩
    intro h1 h2
    simp at h2
    exact h1 h2
  | cons k rest ih =>
    intro acc w hb hc ht hks
    obtain ⟨w1, h1, p1, k1, l1, s1, r1⟩ := Mod.updateDependency_pass hu hx this k w hb hc hr ht
      (hks k (List.mem_cons_self _ _))
    have hks1 : ∀ j ∈ rest, j < (w1.mod this).m_info.m_dependencies.length := by
      intro j hj
      rw [p1.graph.deps]
      exact hks j (List.mem_cons_of_mem _ hj)
    obtain ⟨w2, h2, p2, k2, l2, s2, r2⟩ := ih (acc || !w.satisfiedAt E S this k) w1 (hb.pass p1)
      ((World.misplacedCount_le p1).trans hc) (by rw [p1.graph.length]; exact ht) hks1
    have hfun : (fun j => w1.satisfiedAt E S this j) = (fun j => w.satisfiedAt E S this j) :=
      funext (fun j => World.satisfiedAt_graph p1.graph E S this j)
    rw [hfun] at h2 r2
    have hbool : (acc || !(k :: rest).all (fun j => w.satisfiedAt E S this j)) =
        ((acc || !w.satisfiedAt E S this k) || !rest.all (fun j => w.satisfiedAt E S this j)) := by
      simp only [List.all_cons]
      cases acc <;> cases w.satisfiedAt E S this k <;> simp
    refine ⟨w2, ?_, p1.trans_pass p2, k1.trans_kept k2, l1.trans_lands l2, ?_, ?_⟩
    · simp only [Mod.updateDependenciesFrom, h1, h2, hbool]
    · intro j hj
      rcases List.mem_cons.1 hj with rfl | hj
      · have := p2.records this j (by rw [p1.graph.target]; exact s1)
        rw [p1.graph.target] at this
        exact this
      · have := s2 j hj
        rw [p1.graph.target] at this
        exact this
    · intro hacc hfin
      rw [hbool] at hfin
      refine r2 ?_ hfin
      intro h
      cases hacc' : acc with
      | true =>
        obtain ⟨hS, hres, hst⟩ := hacc hacc'
        exact ⟨hS, p1.resolved this hres, fun hdet => (k1 hdet this hS (hst hdet)).1⟩
      | false =>
        rw [hacc'] at h
        simp only [Bool.false_or, Bool.not_eq_true'] at h
        exact r1 h

theorem Mod.resolveSelf_pass {go : Methods} {env : Env} {rank : Nat → Nat} {N : Nat}
    {E S R : Nat → Bool} {M : Nat} (hl : go.Loads env rank N E S R M)
    (this : Nat) (w : World) (hb : w.Base rank N E S R) (hc : w.misplacedCount E S ≤ M)
    (ht : this < w.mods.length) (hres : S this = false → (w.mod this).m_resolved = S this)
    (hrec : S this = true → (w.mod this).hasUnresolvedDependencies = false) :
    ∃ w', Mod.resolveSelf go this (!S this) w = some (!S this, w') ∧ World.Pass E S R w w' ∧
      World.Kept env S w w' ∧ World.Lands env S w w' ∧ (w'.mod this).m_resolved = S this := by
  unfold Mod.resolveSelf
  cases hS : S this with
  | false =>
    simp only [Bool.not_false, Bool.not_true, Bool.false_and, Bool.false_eq_true, if_false]
    exact ⟨w, rfl, World.Pass.refl_pass E S R w, World.Kept.refl_kept env S w,
      World.Lands.refl_lands env S w, by rw [hres hS, hS]⟩
  | true =>
    simp only [Bool.not_true, Bool.not_false, Bool.true_and]
    cases hr : (w.mod this).m_resolved with
    | true =>
      simp only [Bool.not_true, Bool.false_eq_true, if_false]
      exact ⟨w, rfl, World.Pass.refl_pass E S R w, World.Kept.refl_kept env S w,
        World.Lands.refl_lands env S w, hr⟩
    | false =>
      simp only [Bool.not_false, if_true]
      have hR : R this = false := hb.unresolved this hS hr
      have p1 : World.Pass E S R w (Mod.markResolved this w) :=
        (World.Pass.of_frame_pass (Frame.log _ _ _ _)).trans_pass
          (World.Pass.setResolved_pass _ this true hS.symm)
      have k0 : World.Kept env S w (w.log Severity.Debug this
          ("All dependencies for " ++ (w.mod this).m_info.m_id ++ " found")) :=
        World.Kept.of_mods_eq_kept rfl
      have k1 : World.Kept env S w (Mod.markResolved this w) :=
        k0.trans_kept (World.Kept.setResolved_kept _ this true)
      have hb1 := hb.pass p1
      have ht1 : this < (Mod.markResolved this w).mods.length := by
        rw [p1.graph.length]; exact ht
      have hr1 : ((Mod.markResolved this w).mod this).m_resolved = true := by
        unfold Mod.markResolved
        exact World.setResolved_self _ this true (by simpa [World.log, World.emit] using ht)
      have hen : ((Mod.markResolved this w).mod this).m_enabled = E this := hb1.enabled this hS
      rw [hen]
      cases hE : E this with
      | false =>
        simp only [Bool.false_eq_true, if_false]
        have q : World.Pass E S R (Mod.markResolved this w) _ := World.Pass.of_frame_pass
          (Frame.log (Mod.markResolved this w) Severity.Debug this
            ("Resolved " ++ ((Mod.markResolved this w).mod this).m_info.m_id ++
              ", however not loading it as it is disabled"))
        refine ⟨_, rfl, p1.trans_pass q, k1.trans_kept (World.Kept.of_mods_eq_kept rfl), ?_,
          (q.resolved this (by rw [hr1, hS])).trans hS⟩
        intro _ u hu
        by_cases hne : u = this
        · subst hne
          intro _ hen'
          rw [(hb.pass (p1.trans_pass q)).enabled u hS, hE] at hen'
          exact Bool.noConfusion hen'
        · exact hu.of_mod_eq (Mod.markResolved_mod_ne this w u hne)
      | true =>
        simp only [if_true]
        have q : World.Pass E S R (Mod.markResolved this w) _ := World.Pass.of_frame_pass
          (Frame.log (Mod.markResolved this w) Severity.Debug this
            ("Resolved & loading " ++ ((Mod.markResolved this w).mod this).m_info.m_id))
        have kq : World.Kept env S (Mod.markResolved this w)
            ((Mod.markResolved this w).log Severity.Debug this
              ("Resolved & loading " ++ ((Mod.markResolved this w).mod this).m_info.m_id)) :=
          World.Kept.of_mods_eq_kept rfl
        obtain ⟨r2, w2, h2, p2, k2, lb2⟩ := hl this _ (hb1.pass q)
          ((World.misplacedCount_le (p1.trans_pass q)).trans hc)
          (by rw [q.graph.length]; exact ht1) hS hE hR
        have l2 : World.Lands env S w w2 := by
          intro henv u hu
          refine lb2 henv ?_ u (fun hne => hu.of_mod_eq (Mod.markResolved_mod_ne this w u hne))
          show ((Mod.markResolved this w).mod this).hasUnresolvedDependencies = false
          unfold Mod.hasUnresolvedDependencies
          rw [Mod.markResolved_info]
          exact hrec hS
        have hr2 : (w2.mod this).m_resolved = S this :=
          (q.trans_pass p2).resolved this (by rw [hr1, hS])
        rw [h2]
        cases r2 with
        | error e =>
          have q3 : World.Pass E S R w2 (w2.log Severity.Error this ("\x7b\x7d Error loading: " ++ e)) :=
            World.Pass.of_frame_pass (Frame.log _ _ _ _)
          exact ⟨_, rfl, p1.trans_pass (q.trans_pass (p2.trans_pass q3)),
            k1.trans_kept (kq.trans_kept (k2.trans_kept (World.Kept.of_mods_eq_kept rfl))),
            l2.trans_lands (World.Lands.of_mods_eq_lands rfl),
            (q3.resolved this hr2).trans hS⟩
        | ok u =>
          exact ⟨_, rfl, p1.trans_pass (q.trans_pass p2), k1.trans_kept (kq.trans_kept k2), l2,
            hr2.trans hS⟩

theorem Mod.updateDependencyStates_pass {go : Methods} {env : Env} {rank : Nat → Nat} {N : Nat}
    {E S R : Nat → Bool} {M r : Nat} (hu : ∀ r', r' < r → go.Resolves env rank N E S R M r')
    (hx : go.Unloads env rank N E S R M) (hl : go.Loads env rank N E S R M)
    (this : Nat) (w : World) (hb : w.Base rank N E S R) (hc : w.misplacedCount E S ≤ M)
    (hr : rank this ≤ r) (ht : this < w.mods.length) :
    ∃ w', Mod.updateDependencyStates go this w = some (!S this, w') ∧ World.Pass E S R w w' ∧
      World.Kept env S w w' ∧ World.Lands env S w w' ∧ w'.Settled env E S this := by
  obtain ⟨w1, h1, p1, k1, l1, s1, r1⟩ := Mod.updateDependenciesFrom_pass hu hx this hr
    (List.range (w.mod this).m_info.m_dependencies.length) false w hb hc ht
    (fun k hk => List.mem_range.1 hk)
  have hacc : (false || !(List.range (w.mod this).m_info.m_dependencies.length).all
      (fun k => w.satisfiedAt E S this k)) = !S this := by
    rw [hb.fix this]
    rfl
  rw [hacc] at h1 r1
  obtain ⟨w2, h2, p2, k2, l2, r2⟩ := Mod.resolveSelf_pass hl this w1 (hb.pass p1)
    ((World.misplacedCount_le p1).trans hc) (by rw [p1.graph.length]; exact ht)
    (fun hS => (r1 (by simp) (by simp [hS])).2.1)
    (fun hS => World.hasUnresolved_of_records (hb.pass p1) hS (fun k hk => by
      rw [p1.graph.deps] at hk
      rw [p1.graph.target]
      exact s1 k (List.mem_range.2 hk)))
  refine ⟨w2, ?_, p1.trans_pass p2, k1.trans_kept k2, l1.trans_lands l2,
    ⟨fun k hk => ?_, r2, fun hdet hS => ?_⟩⟩
  · simp only [Mod.updateDependencyStates, h1, h2]
  · rw [(p1.trans_pass p2).graph.deps] at hk
    rw [(p1.trans_pass p2).graph.target]
    have := p2.records this k (by rw [p1.graph.target]; exact s1 k (List.mem_range.2 hk))
    rw [p1.graph.target] at this
    exact this
  · exact (k2 hdet this hS ((r1 (by simp) (by simp [hS])).2.2 hdet)).1

theorem World.Pass.of_mods_eq_pass {E S R : Nat → Bool} {w w' : World} (h : w'.mods = w.mods) :
    World.Pass E S R w w' := by
  have hm : ∀ t, w'.mod t = w.mod t := fun t => by simp only [World.mod, h]
  refine ⟨World.SameGraph.of_info (by rw [h]) (fun t => by rw [hm]) (by rw [h]),
    fun t _ => by rw [hm], fun t => Or.inl (by rw [hm]), fun t hr => by rw [hm]; exact hr,
    fun t k => Or.inl (by rw [hm])⟩

theorem World.setMod_loaded (w : World) (this : Nat) (m : Mod)
    (hl : m.m_binaryLoaded = (w.mod this).m_binaryLoaded) (t : Nat) :
    ((w.setMod this m).mod t).m_binaryLoaded = (w.mod t).m_binaryLoaded := by
  rw [World.setMod_mod]
  split
  · rename_i hc
    obtain ⟨rfl, -⟩ := hc
    exact hl
  · rfl

theorem Mod.disable_pass {E S R : Nat → Bool} (env : Env) (this : Nat) (w : World)
    (hS : S this = false) :
    World.Pass E S R w (Mod.disable env this w).2 ∧
      ∀ t, ((Mod.disable env this w).2.mod t).m_binaryLoaded = (w.mod t).m_binaryLoaded := by
  unfold Mod.disable
  split
  · exact ⟨World.Pass.refl_pass E S R w, fun _ => rfl⟩
  · split
    · exact ⟨World.Pass.refl_pass E S R w, fun _ => rfl⟩
    · have f0 := Frame.post w this ModEventType.Disabled (by decide)
      split
      · rename_i h
        have f1 := f0.trans_frame (Frame.of_eq (Frame.disableHooks _ _ _ _) h)
        exact ⟨World.Pass.of_frame_pass f1, fun t => (f1.core t).loaded⟩
      · rename_i h
        have f1 := f0.trans_frame (Frame.of_eq (Frame.disableHooks _ _ _ _) h)
        split
        · rename_i h2
          have f2 := f1.trans_frame (Frame.of_eq (Frame.restorePatches _ _ _ _) h2)
          exact ⟨World.Pass.of_frame_pass f2, fun t => (f2.core t).loaded⟩
        · rename_i h2
          have f2 := f1.trans_frame (Frame.of_eq (Frame.restorePatches _ _ _ _) h2)
          rename_i w2
          have p3 : World.Pass E S R w2 (w2.setMod this { w2.mod this with m_enabled := false }) :=
            World.Pass.setMod_pass _ this _ rfl (fun h => absurd h (by simp [hS])) (Or.inl rfl)
              (Or.inl rfl)
          exact ⟨(World.Pass.of_frame_pass f2).trans_pass p3,
            fun t => (World.setMod_loaded _ this _ (by rfl) t).trans (f2.core t).loaded⟩

theorem Mod.destroyHandles_pass {E S R : Nat → Bool} (this : Nat) (w : World) :
    World.Pass E S R w (Mod.destroyHandles this w) ∧
      ∀ t, ((Mod.destroyHandles this w).mod t).m_binaryLoaded = (w.mod t).m_binaryLoaded := by
  have p1 : World.Pass E S R w (w.post this ModEventType.Unloaded) := World.Pass.of_mods_eq_pass rfl
  have p2 : World.Pass E S R (w.post this ModEventType.Unloaded) (Mod.destroyHandles this w) :=
    World.Pass.setMod_pass _ this _ rfl (fun _ => rfl) (Or.inl rfl) (Or.inl rfl)
  exact ⟨p1.trans_pass p2, fun t => World.setMod_loaded _ this _ (by rfl) t⟩

theorem Loader.updateAllDependenciesFrom_pass {go : Methods} {env : Env} {rank : Nat → Nat} {N : Nat}
    {E S R : Nat → Bool} {M : Nat} (hu : go.Resolves env rank N E S R M N) :
    ∀ (l : List Nat) (w : World), w.Base rank N E S R → w.misplacedCount E S ≤ M →
      (∀ i ∈ l, i < w.mods.length) →
      ∃ w', Loader.updateAllDependenciesFrom go l w = some w' ∧ World.Pass E S R w w' ∧
        World.Kept env S w w' ∧ World.Lands env S w w' ∧ ∀ i ∈ l, w'.Settled env E S i := by
  intro l
  induction l with
  | nil =>
    intro w _ _ _
    exact ⟨w, rfl, World.Pass.refl_pass E S R w, World.Kept.refl_kept env S w,
      World.Lands.refl_lands env S w, by simp⟩
  | cons i rest ih =>
    intro w hb hc hl
    obtain ⟨w1, h1, p1, k1, l1, s1⟩ := hu i w hb hc (Nat.le_of_lt (hb.ranked.bound i))
      (hl i (List.mem_cons_self _ _))
    obtain ⟨w2, h2, p2, k2, l2, s2⟩ := ih w1 (hb.pass p1) ((World.misplacedCount_le p1).trans hc)
      (fun j hj => by rw [p1.graph.length]; exact hl j (List.mem_cons_of_mem _ hj))
    refine ⟨w2, by simp only [Loader.updateAllDependenciesFrom, h1, h2], p1.trans_pass p2,
      k1.trans_kept k2, l1.trans_lands l2, ?_⟩
    intro j hj
    rcases List.mem_cons.1 hj with rfl | hj
    · exact s1.keep p2 k2
    · exact s2 j hj

theorem Loader.updateAllDependencies_pass {go : Methods} {env : Env} {rank : Nat → Nat} {N : Nat}
    {E S R : Nat → Bool} {M : Nat} (hu : go.Resolves env rank N E S R M N)
    (w : World) (hb : w.Base rank N E S R) (hc : w.misplacedCount E S ≤ M) :
    ∃ w', Loader.updateAllDependencies go w = some w' ∧ World.Pass E S R w w' ∧
      World.Kept env S w w' ∧ World.Lands env S w w' ∧
      ∀ i, i < w.mods.length → w'.Settled env E S i := by
  obtain ⟨w', h, p, k, l, s⟩ := Loader.updateAllDependenciesFrom_pass hu (List.range w.mods.length)
    w hb hc (fun i hi => List.mem_range.1 hi)
  exact ⟨w', h, p, k, l, fun i hi => s i (List.mem_range.2 hi)⟩

theorem World.misplacedCount_drop {E S R : Nat → Bool} {M : Nat}
    {w w1 w2 : World} (p1 : World.Pass E S R w w1) (p2 : World.Pass E S R w1 w2)
    (hc : w.misplacedCount E S ≤ M) (t : Nat) (ht : t < w1.mods.length)
    (h1 : w1.misplaced E S t = true) (h2 : w2.misplaced E S t = false) :
    w2.misplacedCount E S + 1 ≤ M := by
  have := World.misplacedCount_lt p2 t ht h1 h2
  have := World.misplacedCount_le p1
  omega

theorem Mod.destroyHandles_mod_ne (this : Nat) (w : World) (t : Nat) (ht : t ≠ this) :
    (Mod.destroyHandles this w).mod t = w.mod t := by
  unfold Mod.destroyHandles
  rw [World.setMod_mod_ne _ _ _ _ (Ne.symm ht)]
  rfl

/-- What an attempt to unload a module keeps: the other modules, and the
module itself if it was stuck; it leaves the module stuck. -/
theorem World.Kept.of_attempt {env : Env} {S : Nat → Bool} {w w' : World} (this : Nat)
    (h1 : ∀ t, t ≠ this → w'.mod t = w.mod t)
    (h2 : env.Deterministic → w'.Stuck env this)
    (h3 : env.Deterministic → w.Stuck env this →
      (w'.mod this).m_enabled = (w.mod this).m_enabled ∧
        (w'.mod this).m_binaryLoaded = (w.mod this).m_binaryLoaded) :
    World.Kept env S w w' := by
  intro hdet t _ hs
  by_cases hne : t = this
  · subst hne
    exact ⟨h2 hdet, h3 hdet hs⟩
  · have hsame := Mod.SameUnload.of_eq_unload (h1 t hne)
    exact ⟨hs.congr hdet hsame, hsame.enabled, hsame.loaded⟩

theorem Mod.unloadBinary_pass {env : Env} {go : Methods} {rank : Nat → Nat} {N : Nat}
    {E S R : Nat → Bool} {M : Nat}
    (hpass : ∀ w', w'.Base rank N E S R → w'.misplacedCount E S + 1 ≤ M →
      ∃ w'', Loader.updateAllDependencies go w' = some w'' ∧ World.Pass E S R w' w'' ∧
        World.Kept env S w' w'' ∧ World.Lands env S w' w'')
    (this : Nat) (w : World) (hb : w.Base rank N E S R) (hc : w.misplacedCount E S ≤ M)
    (ht : this < w.mods.length) (hS : S this = false) :
    ∃ r w', Mod.unloadBinary env go this w = some (r, w') ∧ World.Pass E S R w w' ∧
      World.Kept env S w w' ∧ World.Lands env S w w' ∧
      (env.Deterministic → w'.Stuck env this) := by
  unfold Mod.unloadBinary
  split
  · rename_i hl
    exact ⟨_, _, rfl, World.Pass.refl_pass E S R w, World.Kept.refl_kept env S w,
      World.Lands.refl_lands env S w, fun _ => Or.inl (by simpa using hl)⟩
  · rename_i hl
    have hl' : (w.mod this).m_binaryLoaded = true := by simpa using hl
    split
    · rename_i hu
      exact ⟨_, _, rfl, World.Pass.refl_pass E S R w, World.Kept.refl_kept env S w,
        World.Lands.refl_lands env S w, fun _ => Or.inr (Or.inl (by simpa using hu))⟩
    · rename_i hu
      have hu' : (w.mod this).m_info.m_supportsUnloading = true := by simpa using hu
      split
      · rename_i e w1 h1
        have hm : w1.mods = w.mods := by
          have := (Mod.saveData_quiet env this w).1
          rw [h1] at this
          exact this
        refine ⟨_, _, rfl, World.Pass.of_frame_pass (Frame.of_eq (Frame.saveData _ _ _) h1),
          World.Kept.of_mods_eq_kept hm, World.Lands.of_mods_eq_lands hm,
          fun hdet => Or.inr (Or.inr (Or.inl ?_))⟩
        rw [← Mod.saveData_congr hdet this w w1
          (Mod.SameUnload.of_eq_unload (World.mod_of_mods hm this)), h1]
        rfl
      · rename_i u w1 h1
        have hm : w1.mods = w.mods := by
          have := (Mod.saveData_quiet env this w).1
          rw [h1] at this
          exact this
        have f1 := Frame.of_eq (Frame.saveData _ _ _) h1
        have p1 : World.Pass E S R w w1 := World.Pass.of_frame_pass f1
        obtain ⟨pd, ld⟩ := Mod.disable_pass (E := E) (S := S) (R := R) env this w1 hS
        split
        · rename_i e w2 h2
          rw [h2] at pd
          have hm2 : w2.mods = w1.mods := by
            have := Mod.disable_mods_of_error env this w1 (by rw [h2]; rfl)
            rw [h2] at this
            exact this
          have he1 : (w1.mod this).m_enabled = true := by
            cases he : (w1.mod this).m_enabled with
            | true => rfl
            | false =>
              rw [Mod.disable_not_enabled env this w1 he] at h2
              exact absurd h2 (by simp [Ok, Err])
          refine ⟨_, _, rfl, p1.trans_pass pd, World.Kept.of_mods_eq_kept (hm2.trans hm),
            World.Lands.of_mods_eq_lands (hm2.trans hm),
            fun hdet => Or.inr (Or.inr (Or.inr (Or.inl ⟨?_, ?_⟩)))⟩
          · rw [World.mod_of_mods hm2 this]
            exact he1
          · rw [← Mod.disable_congr hdet this w1 w2
              (Mod.SameUnload.of_eq_unload (World.mod_of_mods hm2 this)), h2]
            rfl
        · rename_i u2 w2 h2
          rw [h2] at pd ld
          have he2 : (w2.mod this).m_enabled = false := Mod.disable_enabled env this w1 w2 u2 h2
          obtain ⟨ph, lh⟩ := Mod.destroyHandles_pass (E := E) (S := S) (R := R) this w2
          obtain ⟨hd1, hd2, hd3⟩ := Mod.destroyHandles_mod this w2 he2
          have p2 := p1.trans_pass (pd.trans_pass ph)
          have o2 : ∀ t, t ≠ this → (Mod.destroyHandles this w2).mod t = w.mod t := by
            intro t hne
            have hd := Mod.disable_mod_ne env this w1 t hne
            rw [h2] at hd
            rw [Mod.destroyHandles_mod_ne this w2 t hne, hd]
            exact World.mod_of_mods hm t
          have hl2 : ((Mod.destroyHandles this w2).mod this).m_binaryLoaded = true := by
            rw [lh, ld, World.mod_of_mods hm this]
            exact hl'
          split
          · rename_i e w3 h3
            have hm3 := World.mod_of_call h3
            obtain ⟨hf, -⟩ := World.call_eq _ h3
            refine ⟨_, _, rfl, p2.trans_pass (World.Pass.of_frame_pass (Frame.of_call h3)),
              World.Kept.of_attempt this (fun t hne => (hm3 t).trans (o2 t hne)) ?_ ?_,
              World.Lands.of_others_lands this hS (fun t hne => (hm3 t).trans (o2 t hne)),
              ?_⟩
            · intro hdet
              refine Or.inr (Or.inr (Or.inr (Or.inr ⟨?_, ?_, ?_, ?_⟩)))
              · rw [hm3]; exact hd1
              · rw [hm3]; exact hd2
              · rw [hm3]; exact hd3
              · rw [hdet.fails _ 0 (Mod.destroyHandles this w2).trace.length, ← hf]
                rfl
            · intro hdet hs
              obtain ⟨a, -, -, -⟩ := hs.attempt hdet hl' hu' h1 h2
              refine ⟨?_, ?_⟩
              · rw [hm3, hd1, a]
              · rw [hm3, hl2, hl']
            · intro hdet
              refine Or.inr (Or.inr (Or.inr (Or.inr ⟨?_, ?_, ?_, ?_⟩)))
              · rw [hm3]; exact hd1
              · rw [hm3]; exact hd2
              · rw [hm3]; exact hd3
              · rw [hdet.fails _ 0 (Mod.destroyHandles this w2).trace.length, ← hf]
                rfl
          · rename_i w3 h3
            have hm3 := World.mod_of_call h3
            obtain ⟨hf, -⟩ := World.call_eq _ h3
            have f3 := Frame.of_call h3
            have p3 := p2.trans_pass (World.Pass.of_frame_pass (E := E) (S := S) (R := R) f3)
            have hl3 : (w3.mod this).m_binaryLoaded = true := by
              rw [hm3]
              exact hl2
            have p4 : World.Pass E S R w3
                (w3.setMod this { w3.mod this with m_binaryLoaded := false }) :=
              World.Pass.setMod_pass _ this _ rfl (fun _ => rfl)
                (Or.inr ⟨hS.symm, fun h => absurd h (by simp [hS])⟩) (Or.inl rfl)
            have ht3 : this < w3.mods.length := by rw [p3.graph.length]; exact ht
            have hc4 := World.misplacedCount_drop p3 p4 hc this ht3
              (by simp [World.misplaced, hl3, hS])
              (by rw [World.misplaced, World.setMod_mod_self _ _ _ ht3]; simp [hS])
            have hst4 : (w3.setMod this { w3.mod this with m_binaryLoaded := false }).Stuck
                env this := by
              refine Or.inl ?_
              rw [World.setMod_mod_self _ _ _ ht3]
            have k4 : World.Kept env S w
                (w3.setMod this { w3.mod this with m_binaryLoaded := false }) := by
              refine World.Kept.of_attempt this (fun t hne => ?_) (fun _ => hst4) ?_
              · rw [World.setMod_mod_ne _ _ _ _ (Ne.symm hne)]
                exact (hm3 t).trans (o2 t hne)
              · intro hdet hs
                obtain ⟨-, -, -, a⟩ := hs.attempt hdet hl' hu' h1 h2
                rw [hdet.fails _ 0 (Mod.destroyHandles this w2).trace.length, ← hf] at a
                exact absurd a (by decide)
            have l4 : World.Lands env S w
                (w3.setMod this { w3.mod this with m_binaryLoaded := false }) := by
              refine World.Lands.of_others_lands this hS (fun t hne => ?_)
              rw [World.setMod_mod_ne _ _ _ _ (Ne.symm hne)]
              exact (hm3 t).trans (o2 t hne)
            obtain ⟨w4, h4, p5, k5, l5⟩ := hpass _ (hb.pass (p3.trans_pass p4)) hc4
            rw [h4]
            exact ⟨_, _, rfl, p3.trans_pass (p4.trans_pass p5), k4.trans_kept k5,
              l4.trans_lands l5, fun hdet => (k5 hdet this hS hst4).1⟩

theorem Mod.markLoaded_pass {E S R : Nat → Bool} (env : Env) (this : Nat) (w : World)
    (hS : S this = true) (hE : E this = true) (hR : R this = false) :
    World.Pass E S R w (Mod.markLoaded env this w) := by
  have p1 : World.Pass E S R w (w.emit (Effect.call (Call.implicitLoadFunc this) none)) :=
    World.Pass.of_mods_eq_pass rfl
  have p2 : World.Pass E S R (w.emit (Effect.call (Call.implicitLoadFunc this) none))
      (Mod.implicitLoadFunc env this w) :=
    World.Pass.setMod_pass _ this _ rfl (fun _ => rfl) (Or.inl rfl) (Or.inl rfl)
  have p3 : World.Pass E S R (Mod.implicitLoadFunc env this w)
      ((Mod.implicitLoadFunc env this w).setMod this
        { (Mod.implicitLoadFunc env this w).mod this with m_binaryLoaded := true }) :=
    World.Pass.setMod_pass _ this _ rfl (fun _ => rfl) (Or.inr ⟨hS.symm, fun _ => ⟨hE, hR⟩⟩)
      (Or.inl rfl)
  have p4 : World.Pass E S R ((Mod.implicitLoadFunc env this w).setMod this
        { (Mod.implicitLoadFunc env this w).mod this with m_binaryLoaded := true })
      (Mod.markLoaded env this w) := World.Pass.of_mods_eq_pass rfl
  exact p1.trans_pass (p2.trans_pass (p3.trans_pass p4))

theorem Mod.enable_pass (env : Env) (go : Methods) {rank : Nat → Nat} {N : Nat}
    {E S R : Nat → Bool} (this : Nat) (w : World) (hb : w.Base rank N E S R)
    (hS : S this = true) (hE : E this = true)
    (hload : (w.mod this).m_binaryLoaded = true) :
    ∃ r w', Mod.enable env go this w = some (r, w') ∧ World.Pass E S R w w' ∧
      World.Kept env S w w' ∧ World.Lands env S w w' := by
  unfold Mod.enable
  split
  · rename_i hl
    rw [hload] at hl
    exact absurd hl (by simp)
  · split
    · rename_i e w1 h1
      have hm := Mod.enableHooks_mods env this (w.mod this).m_hooks w
      rw [h1] at hm
      exact ⟨_, _, rfl, World.Pass.of_frame_pass (Frame.of_eq (Frame.enableHooks _ _ _ _) h1),
        World.Kept.of_mods_eq_kept hm, World.Lands.of_mods_eq_lands hm⟩
    · rename_i u w1 h1
      have hm := Mod.enableHooks_mods env this (w.mod this).m_hooks w
      rw [h1] at hm
      have f1 := Frame.of_eq (Frame.enableHooks _ _ _ _) h1
      split
      · rename_i e w2 h2
        have hm2 := Mod.applyPatches_mods env this (w1.mod this).m_patches w1
        rw [h2] at hm2
        exact ⟨_, _, rfl, World.Pass.of_frame_pass
          (f1.trans_frame (Frame.of_eq (Frame.applyPatches _ _ _ _) h2)),
          World.Kept.of_mods_eq_kept (hm2.trans hm), World.Lands.of_mods_eq_lands (hm2.trans hm)⟩
      · rename_i u2 w2 h2
        have hm2 := Mod.applyPatches_mods env this (w1.mod this).m_patches w1
        rw [h2] at hm2
        have f2 := f1.trans_frame (Frame.of_eq (Frame.applyPatches _ _ _ _) h2)
        have p2 : World.Pass E S R w (w2.post this ModEventType.Enabled) :=
          (World.Pass.of_frame_pass f2).trans_pass (World.Pass.of_mods_eq_pass rfl)
        have hen : ((w2.post this ModEventType.Enabled).mod this).m_enabled = true := by
          rw [(hb.pass p2).enabled this hS, hE]
        have p3 : World.Pass E S R (w2.post this ModEventType.Enabled)
            ((w2.post this ModEventType.Enabled).setMod this
              { (w2.post this ModEventType.Enabled).mod this with m_enabled := true }) :=
          World.Pass.setMod_pass _ this _ rfl (fun _ => hen.symm) (Or.inl rfl) (Or.inl rfl)
        have o3 : ∀ t, t ≠ this → ((w2.post this ModEventType.Enabled).setMod this
            { (w2.post this ModEventType.Enabled).mod this with m_enabled := true }).mod t =
              w.mod t := by
          intro t hne
          rw [World.setMod_mod_ne _ _ _ _ (Ne.symm hne)]
          exact World.mod_of_mods (hm2.trans hm) t
        refine ⟨_, _, rfl, p2.trans_pass p3, World.Kept.of_others this hS o3, ?_⟩
        intro _ t hlt
        by_cases hne : t = this
        · subst hne
          refine World.Landed.of_loaded ?_
          rcases (p2.trans_pass p3).loaded t with h | h
          · rw [h]; exact hload
          · rw [h.1]; exact hS
        · exact hlt.of_mod_eq (o3 t hne)

theorem Mod.loadBinary_pass {env : Env} {go : Methods} {rank : Nat → Nat} {N : Nat}
    {E S R : Nat → Bool} {M : Nat}
    (hpass : ∀ w', w'.Base rank N E S R → w'.misplacedCount E S + 1 ≤ M →
      ∃ w'', Loader.updateAllDependencies go w' = some w'' ∧ World.Pass E S R w' w'' ∧
        World.Kept env S w' w'' ∧ World.Lands env S w' w'')
    (this : Nat)
    (w : World) (hb : w.Base rank N E S R) (hc : w.misplacedCount E S ≤ M)
    (ht : this < w.mods.length) (hS : S this = true) (hE : E this = true)
    (hR : R this = false) :
    ∃ r w', Mod.loadBinary env go this w = some (r, w') ∧ World.Pass E S R w w' ∧
      World.Kept env S w w' ∧ World.LandsBut env S this w w' := by
  unfold Mod.loadBinary
  split
  · rename_i hl
    refine ⟨_, _, rfl, World.Pass.refl_pass E S R w, World.Kept.refl_kept env S w, ?_⟩
    intro _ _ u hu
    by_cases hne : u = this
    · subst hne
      exact World.Landed.of_loaded hl
    · exact hu hne
  · rename_i hl
    have o1 : ∀ t, t ≠ this → (Mod.createTempDir env this w).2.mod t = w.mod t :=
      fun t hne => Mod.createTempDir_mod_ne env this w t hne
    split
    · rename_i e w1 h1
      rw [h1] at o1
      refine ⟨_, _, rfl, World.Pass.of_frame_pass (Frame.of_eq (Frame.createTempDir _ _ _) h1),
        World.Kept.of_others this hS o1, ?_⟩
      intro henv
      have := Mod.createTempDir_ok henv this w
      rw [h1] at this
      exact absurd this (by simp [Ok])
    · rename_i u w1 h1
      rw [h1] at o1
      have f1 := Frame.of_eq (Frame.createTempDir _ _ _) h1
      split
      · rename_i hun1
        refine ⟨_, _, rfl, World.Pass.of_frame_pass f1, World.Kept.of_others this hS o1, ?_⟩
        intro _ hun
        unfold Mod.hasUnresolvedDependencies at hun hun1
        rw [(f1.core this).info, hun] at hun1
        exact absurd hun1 (by simp)
      · split
        · rename_i e w2 h2
          refine ⟨_, _, rfl, World.Pass.of_frame_pass (f1.trans_frame (Frame.of_call h2)),
            World.Kept.of_others this hS
              (fun t hne => (World.mod_of_call h2 t).trans (o1 t hne)), ?_⟩
          intro henv
          have := (World.call_eq _ h2).1
          rw [henv] at this
          exact absurd this (by simp)
        · rename_i w2 h2
          have f2 := f1.trans_frame (Frame.of_call h2)
          have p2 : World.Pass E S R w w2 := World.Pass.of_frame_pass f2
          have ht2 : this < w2.mods.length := by rw [f2.length]; exact ht
          have hl2 : (w2.mod this).m_binaryLoaded = false := by
            rw [(f2.core this).loaded]
            simpa using hl
          have p3 : World.Pass E S R w2 (Mod.markLoaded env this w2) :=
            Mod.markLoaded_pass env this w2 hS hE hR
          have p4 : World.Pass E S R (Mod.markLoaded env this w2)
              (Mod.loadDataOrWarn env this (Mod.markLoaded env this w2)) :=
            World.Pass.of_frame_pass (Frame.loadDataOrWarn _ _ _)
          have k4 : World.Kept env S w
              (Mod.loadDataOrWarn env this (Mod.markLoaded env this w2)) :=
            World.Kept.of_others this hS (fun t hne =>
              (Mod.loadDataOrWarn_mod_ne env this _ t hne).trans
                ((Mod.markLoaded_mod_ne env this w2 t hne).trans
                  ((World.mod_of_call h2 t).trans (o1 t hne))))
          have hc4 := World.misplacedCount_drop p2 (p3.trans_pass p4) hc this ht2
            (by simp [World.misplaced, hl2, hS, hE])
            (by
              have : ((Mod.loadDataOrWarn env this (Mod.markLoaded env this w2)).mod
                  this).m_binaryLoaded = true := by
                rw [((Frame.loadDataOrWarn env this (Mod.markLoaded env this w2)).core
                  this).loaded]
                exact Mod.markLoaded_loaded env this w2 ht2
              simp [World.misplaced, this, hS])
          have p24 := p2.trans_pass (p3.trans_pass p4)
          have hl4 : ((Mod.loadDataOrWarn env this (Mod.markLoaded env this w2)).mod
              this).m_binaryLoaded = true := by
            rw [((Frame.loadDataOrWarn env this (Mod.markLoaded env this w2)).core
              this).loaded]
            exact Mod.markLoaded_loaded env this w2 ht2
          obtain ⟨w5, h5, p5, k5, l5⟩ := hpass _ (hb.pass p24) hc4
          rw [h5]
          have p25 := p24.trans_pass p5
          have hl5 : (w5.mod this).m_binaryLoaded = true := by
            rcases p5.loaded this with h | h
            · rw [h]; exact hl4
            · rw [h.1]; exact hS
          obtain ⟨r6, w6, h6, p6, k6, l6⟩ := Mod.enable_pass env go this w5
            (hb.pass p25) hS hE hl5
          have lb : World.LandsBut env S this w w6 := by
            intro henv _ u hu
            refine l6 henv u (l5 henv u ?_)
            by_cases hne : u = this
            · subst hne
              exact World.Landed.of_loaded hl4
            · exact (hu hne).of_mod_eq ((Mod.loadDataOrWarn_mod_ne env this _ u hne).trans
                ((Mod.markLoaded_mod_ne env this w2 u hne).trans
                  ((World.mod_of_call h2 u).trans (o1 u hne))))
          simp only [h6]
          cases r6 with
          | error e => exact ⟨_, _, rfl, p25.trans_pass p6, k4.trans_kept (k5.trans_kept k6), lb⟩
          | ok u => exact ⟨_, _, rfl, p25.trans_pass p6, k4.trans_kept (k5.trans_kept k6), lb⟩

/-- With calls nested deep enough, the three functions return in every registry
that agrees with `E` and `S`: `M * (N + 2) + 1` deep for `loadBinary` and
`unloadBinary` with `M` misplaced modules, and `r + 1` deeper for
`updateDependencyStates` on a module of rank `r`. -/
theorem methods_resolve (env : Env) (rank : Nat → Nat) (N : Nat) (E S R : Nat → Bool)
    (n : Nat) :
    ∀ M, (M * (N + 2) + 1 ≤ n →
        (methods env n).Unloads env rank N E S R M ∧ (methods env n).Loads env rank N E S R M) ∧
      (∀ r, M * (N + 2) + r + 2 ≤ n → (methods env n).Resolves env rank N E S R M r) := by
  induction n with
  | zero =>
    intro M
    exact ⟨fun h => absurd h (by omega), fun r h => absurd h (by omega)⟩
  | succ n ih =>
    intro M
    have hpass : M * (N + 2) + 1 ≤ n + 1 → ∀ w', w'.Base rank N E S R →
        w'.misplacedCount E S + 1 ≤ M →
        ∃ w'', Loader.updateAllDependencies (methods env n) w' = some w'' ∧
          World.Pass E S R w' w'' ∧ World.Kept env S w' w'' ∧ World.Lands env S w' w'' := by
      intro h w' hb hc
      cases M with
      | zero => omega
      | succ M =>
        rw [Nat.succ_mul] at h
        obtain ⟨w'', h1, p1, k1, l1, -⟩ := Loader.updateAllDependencies_pass
          ((ih M).2 N (by omega)) w' hb (by omega)
        exact ⟨w'', h1, p1, k1, l1⟩
    refine ⟨fun h => ⟨?_, ?_⟩, fun r h => ?_⟩
    · intro t w hb hc ht hS
      exact Mod.unloadBinary_pass (hpass h) t w hb hc ht hS
    · intro t w hb hc ht hS hE hR
      exact Mod.loadBinary_pass (hpass h) t w hb hc ht hS hE hR
    · intro t w hb hc hr ht
      exact Mod.updateDependencyStates_pass (fun r' hr' => (ih M).2 r' (by omega))
        ((ih M).1 (by omega)).1 ((ih M).1 (by omega)).2 t w hb hc hr ht

/-- In a registry with an acyclic dependency graph, `updateDependencyStates`
on a module returns when calls may nest `(length + 1) * (N + 2)` deep: it tells
whether the dependencies of the module cannot be met and leaves the module
settled. -/
theorem methods_resolve_ranked (env : Env) {rank : Nat → Nat} {N : Nat} {E S R : Nat → Bool}
    {w : World} (hb : w.Base rank N E S R) (n : Nat) (hn : (w.mods.length + 1) * (N + 2) ≤ n)
    (t : Nat) (ht : t < w.mods.length) :
    ∃ w', (methods env n).updateDependencyStates t w = some (!S t, w') ∧
      World.Pass E S R w w' ∧ World.Kept env S w w' ∧ World.Lands env S w w' ∧
      w'.Settled env E S t := by
  rw [Nat.succ_mul] at hn
  exact (methods_resolve env rank N E S R n w.mods.length).2 N (by omega) t w hb
    (World.misplacedCount_le_length w E S) (Nat.le_of_lt (hb.ranked.bound t)) ht

theorem Loader.updateAllDependenciesFrom_below {go go' : Methods} (h : go.Below go') :
    ∀ (l : List Nat) (w x : World), Loader.updateAllDependenciesFrom go l w = some x →
      Loader.updateAllDependenciesFrom go' l w = some x := by
  intro l
  induction l with
  | nil => intro w x hx; exact hx
  | cons i rest ih =>
    intro w x hx
    unfold Loader.updateAllDependenciesFrom at hx ⊢
    cases hc : go.updateDependencyStates i w with
    | none => rw [hc] at hx; exact absurd hx (by simp)
    | some p =>
      obtain ⟨f, w1⟩ := p
      rw [hc] at hx
      rw [h.updateDependencyStates _ _ _ hc]
      exact ih _ _ hx

theorem Loader.updateAllDependencies_below {go go' : Methods} (h : go.Below go')
    (w x : World) (hx : Loader.updateAllDependencies go w = some x) :
    Loader.updateAllDependencies go' w = some x :=
  Loader.updateAllDependenciesFrom_below h _ w x hx

theorem Mod.enable_below {env : Env} {go go' : Methods} (h : go.Below go') (this : Nat)
    (w : World) (x : Result × World) (hx : Mod.enable env go this w = some x) :
    Mod.enable env go' this w = some x := by
  unfold Mod.enable at hx ⊢
  by_cases hl : (!(w.mod this).m_binaryLoaded) = true
  · rw [if_pos hl] at hx ⊢
    exact h.loadBinary _ _ _ hx
  · rw [if_neg hl] at hx ⊢
    exact hx

theorem Mod.loadBinary_below {env : Env} {go go' : Methods} (h : go.Below go') (this : Nat)
    (w : World) (x : Result × World) (hx : Mod.loadBinary env go this w = some x) :
    Mod.loadBinary env go' this w = some x := by
  unfold Mod.loadBinary at hx ⊢
  by_cases hl : (w.mod this).m_binaryLoaded = true
  · rw [if_pos hl] at hx ⊢
    exact hx
  · rw [if_neg hl] at hx ⊢
    rcases h1 : Mod.createTempDir env this w with ⟨r1, w1⟩
    rw [h1] at hx
    cases r1 with
    | error e => exact hx
    | ok u =>
      dsimp only at hx ⊢
      by_cases hu : (w1.mod this).hasUnresolvedDependencies = true
      · rw [if_pos hu] at hx ⊢
        exact hx
      · rw [if_neg hu] at hx ⊢
        rcases h2 : w1.call env (Call.loadPlatformBinary this) with ⟨r2, w2⟩
        rw [h2] at hx
        cases r2 with
        | some e => exact hx
        | none =>
          dsimp only at hx ⊢
          cases h3 : Loader.updateAllDependencies go
              (Mod.loadDataOrWarn env this (Mod.markLoaded env this w2)) with
          | none => rw [h3] at hx; exact absurd hx (by simp)
          | some w3 =>
            rw [h3] at hx
            rw [Loader.updateAllDependencies_below h _ _ h3]
            dsimp only at hx ⊢
            cases h4 : Mod.enable env go this w3 with
            | none => rw [h4] at hx; exact absurd hx (by simp)
            | some p =>
              rw [h4] at hx
              rw [Mod.enable_below h _ _ _ h4]
              exact hx

theorem Mod.unloadBinary_below {env : Env} {go go' : Methods} (h : go.Below go') (this : Nat)
    (w : World) (x : Result × World) (hx : Mod.unloadBinary env go this w = some x) :
    Mod.unloadBinary env go' this w = some x := by
  unfold Mod.unloadBinary at hx ⊢
  by_cases hl : (!(w.mod this).m_binaryLoaded) = true
  · rw [if_pos hl] at hx ⊢
    exact hx
  · rw [if_neg hl] at hx ⊢
    by_cases hu : (!(w.mod this).m_info.m_supportsUnloading) = true
    · rw [if_pos hu] at hx ⊢
      exact hx
    · rw [if_neg hu] at hx ⊢
      rcases h1 : Mod.saveData env this w with ⟨r1, w1⟩
      rw [h1] at hx
      cases r1 with
      | error e => exact hx
      | ok u =>
        dsimp only at hx ⊢
        rcases h2 : Mod.disable env this w1 with ⟨r2, w2⟩
        rw [h2] at hx
        cases r2 with
        | error e => exact hx
        | ok u2 =>
          dsimp only at hx ⊢
          rcases h3 : (Mod.destroyHandles this w2).call env (Call.unloadPlatformBinary this)
            with ⟨r3, w3⟩
          rw [h3] at hx
          cases r3 with
          | some e => exact hx
          | none =>
            dsimp only at hx ⊢
            cases h4 : Loader.updateAllDependencies go
                (w3.setMod this { w3.mod this with m_binaryLoaded := false }) with
            | none => rw [h4] at hx; exact absurd hx (by simp)
            | some w4 =>
              rw [h4] at hx
              rw [Loader.updateAllDependencies_below h _ _ h4]
              exact hx

theorem Mod.resolveDependency_below {go go' : Methods} (h : go.Below go') (this k : Nat)
    (w x : World) (hx : Mod.resolveDependency go this k w = some x) :
    Mod.resolveDependency go' this k w = some x := by
  unfold Mod.resolveDependency at hx ⊢
  cases hm : ((w.mod this).dep k).m_mod with
  | none => rw [hm] at hx; exact hx
  | some target =>
    rw [hm] at hx
    dsimp only at hx ⊢
    cases h1 : go.updateDependencyStates target w with
    | none => rw [h1] at hx; exact absurd hx (by simp)
    | some p =>
      obtain ⟨f, w1⟩ := p
      rw [h1] at hx
      rw [h.updateDependencyStates _ _ _ h1]
      dsimp only at hx ⊢
      by_cases hu : (w1.mod target).hasUnresolvedDependencies = true
      · rw [if_pos hu] at hx ⊢
        exact hx
      · rw [if_neg hu] at hx ⊢
        by_cases hr : (!(w1.mod target).m_resolved) = true
        · rw [if_pos hr] at hx ⊢
          cases h2 : go.loadBinary target
              ((w1.setResolved target true).setDepState this k ModResolveState.Resolved) with
          | none => rw [h2] at hx; exact absurd hx (by simp)
          | some q =>
            rw [h2] at hx
            rw [h.loadBinary _ _ _ h2]
            exact hx
        · rw [if_neg hr] at hx ⊢
          exact hx

theorem Mod.updateDependency_below {go go' : Methods} (h : go.Below go') (this k : Nat)
    (w : World) (x : Bool × World) (hx : Mod.updateDependency go this k w = some x) :
    Mod.updateDependency go' this k w = some x := by
  unfold Mod.updateDependency at hx ⊢
  cases h1 : Mod.resolveDependency go this k (Mod.findDependency this k w) with
  | none => rw [h1] at hx; exact absurd hx (by simp)
  | some w1 =>
    rw [h1] at hx
    rw [Mod.resolveDependency_below h _ _ _ _ h1]
    dsimp only at hx ⊢
    by_cases hu : ((w1.mod this).dep k).isUnresolved = true
    · rw [if_pos hu] at hx ⊢
      cases h2 : go.unloadBinary this (w1.setResolved this false) with
      | none => rw [h2] at hx; exact absurd hx (by simp)
      | some q =>
        rw [h2] at hx
        rw [h.unloadBinary _ _ _ h2]
        exact hx
    · rw [if_neg hu] at hx ⊢
      exact hx

theorem Mod.updateDependenciesFrom_below {go go' : Methods} (h : go.Below go') (this : Nat) :
    ∀ (ks : List Nat) (acc : Bool) (w : World) (x : Bool × World),
      Mod.updateDependenciesFrom go this ks acc w = some x →
      Mod.updateDependenciesFrom go' this ks acc w = some x := by
  intro ks
  induction ks with
  | nil => intro acc w x hx; exact hx
  | cons k rest ih =>
    intro acc w x hx
    unfold Mod.updateDependenciesFrom at hx ⊢
    cases h1 : Mod.updateDependency go this k w with
    | none => rw [h1] at hx; exact absurd hx (by simp)
    | some p =>
      obtain ⟨f, w1⟩ := p
      rw [h1] at hx
      rw [Mod.updateDependency_below h _ _ _ _ h1]
      exact ih _ _ _ hx

theorem Mod.resolveSelf_below {go go' : Methods} (h : go.Below go') (this : Nat) (f : Bool)
    (w : World) (x : Bool × World) (hx : Mod.resolveSelf go this f w = some x) :
    Mod.resolveSelf go' this f w = some x := by
  unfold Mod.resolveSelf at hx ⊢
  by_cases h1 : (!f && !(w.mod this).m_resolved) = true
  · rw [if_pos h1] at hx ⊢
    by_cases h2 : ((Mod.markResolved this w).mod this).m_enabled = true
    · rw [if_pos h2] at hx ⊢
      cases h3 : go.loadBinary this
          ((Mod.markResolved this w).log Severity.Debug this
            ("Resolved & loading " ++ ((Mod.markResolved this w).mod this).m_info.m_id)) with
      | none => rw [h3] at hx; exact absurd hx (by simp)
      | some q =>
        rw [h3] at hx
        rw [h.loadBinary _ _ _ h3]
        exact hx
    · rw [if_neg h2] at hx ⊢
      exact hx
  · rw [if_neg h1] at hx ⊢
    exact hx

theorem Mod.updateDependencyStates_below {go go' : Methods} (h : go.Below go') (this : Nat)
    (w : World) (x : Bool × World) (hx : Mod.updateDependencyStates go this w = some x) :
    Mod.updateDependencyStates go' this w = some x := by
  unfold Mod.updateDependencyStates at hx ⊢
  cases h1 : Mod.updateDependenciesFrom go this
      (List.range (w.mod this).m_info.m_dependencies.length) false w with
  | none => rw [h1] at hx; exact absurd hx (by simp)
  | some p =>
    obtain ⟨f, w1⟩ := p
    rw [h1] at hx
    rw [Mod.updateDependenciesFrom_below h _ _ _ _ _ h1]
    exact Mod.resolveSelf_below h _ _ _ _ hx

theorem methods_below_succ (env : Env) (n : Nat) : (methods env n).Below (methods env (n + 1)) := by
  induction n with
  | zero =>
    exact ⟨fun _ _ _ h => absurd h (by simp [methods, Methods.bottom]),
      fun _ _ _ h => absurd h (by simp [methods, Methods.bottom]),
      fun _ _ _ h => absurd h (by simp [methods, Methods.bottom])⟩
  | succ n ih =>
    exact ⟨fun t w x h => Mod.loadBinary_below ih t w x h,
      fun t w x h => Mod.unloadBinary_below ih t w x h,
      fun t w x h => Mod.updateDependencyStates_below ih t w x h⟩

/-- A call that returns with calls nested `n` deep returns the same with calls
nested deeper. -/
theorem methods_below (env : Env) {n m : Nat} (h : n ≤ m) :
    (methods env n).Below (methods env m) := by
  induction m with
  | zero =>
    have : n = 0 := by omega
    subst this
    exact ⟨fun _ _ _ h => h, fun _ _ _ h => h, fun _ _ _ h => h⟩
  | succ m ih =>
    by_cases hn : n = m + 1
    · subst hn
      exact ⟨fun _ _ _ h => h, fun _ _ _ h => h, fun _ _ _ h => h⟩
    · have h1 := ih (by omega)
      have h2 := methods_below_succ env m
      exact ⟨fun t w x h => h2.loadBinary t w x (h1.loadBinary t w x h),
        fun t w x h => h2.unloadBinary t w x (h1.unloadBinary t w x h),
        fun t w x h => h2.updateDependencyStates t w x (h1.updateDependencyStates t w x h)⟩

/-- Whenever `updateDependencyStates` returns in a registry that agrees with
`E` and `S`, at whatever depth of nested calls, it tells whether the
dependencies of the module cannot be met and leaves the module settled. -/
theorem methods_settled (env : Env) {rank : Nat → Nat} {N : Nat} {E S R : Nat → Bool}
    {w : World} (hb : w.Base rank N E S R) (n t : Nat) (ht : t < w.mods.length) (f : Bool)
    (w' : World) (h : (methods env n).updateDependencyStates t w = some (f, w')) :
    f = !S t ∧ World.Pass E S R w w' ∧ World.Kept env S w w' ∧ w'.Settled env E S t := by
  obtain ⟨w'', h2, p, k, -, s⟩ := methods_resolve_ranked env hb
    (max n ((w.mods.length + 1) * (N + 2))) (le_max_right _ _) t ht
  have h3 := (methods_below env (le_max_left n ((w.mods.length + 1) * (N + 2)))).updateDependencyStates
    t w _ h
  rw [h3] at h2
  simp only [Option.some.injEq, Prod.mk.injEq] at h2
  obtain ⟨rfl, rfl⟩ := h2
  exact ⟨rfl, p, k, s⟩

theorem World.canonical_ne_resolved (E S : Nat → Bool) (o : Option Nat) :
    World.canonical E S o ≠ ModResolveState.Resolved := by
  cases o with
  | none => simp [World.canonical]
  | some b => cases hs : S b <;> cases he : E b <;> simp [World.canonical, hs, he]

theorem World.canonical_some (E S : Nat → Bool) (b : Nat) :
    World.canonical E S (some b) = ModResolveState.Unresolved ∨
      World.canonical E S (some b) = ModResolveState.Loaded ∨
      World.canonical E S (some b) = ModResolveState.Disabled := by
  cases hs : S b <;> cases he : E b <;> simp [World.canonical, hs, he]

theorem World.target_of_mod {w : World} {t k b : Nat} (h : ((w.mod t).dep k).m_mod = some b) :
    w.target t k = some b := by
  unfold World.target
  rw [h]

theorem Mod.dep_mod_lt {m : Mod} {k b : Nat} (h : (m.dep k).m_mod = some b) :
    k < m.m_info.m_dependencies.length := by
  by_contra hk
  unfold Mod.dep at h
  rw [List.getD_eq_default _ _ (Nat.le_of_not_lt hk)] at h
  cases h

/-- C18: in a registry whose dependency graph is acyclic and whose dependency
targets are modules of the registry, whatever the collaborators answer,
`updateDependencyStates` on any module returns, and so does the registry-wide
pass, once calls may nest `(length + 1) * (N + 2)` deep, `N` bounding the
ranks; the nested passes that `loadBinary` and `unloadBinary` start are part of
the calls that return. -/
theorem updateDependencyStates_terminates (env : Env) (rank : Nat → Nat) (N : Nat) (w : World)
    (hr : w.Ranked rank N) (n : Nat) (hn : (w.mods.length + 1) * (N + 2) ≤ n) :
    (∀ this, this < w.mods.length →
      ∃ f w', (methods env n).updateDependencyStates this w = some (f, w')) ∧
    ∃ w', Loader.updateAllDependencies (methods env n) w = some w' := by
  have hb := World.Base.of_ranked hr
  refine ⟨fun this ht => ?_, ?_⟩
  · obtain ⟨w', h, -, -, -⟩ := methods_resolve_ranked env hb n hn this ht
    exact ⟨_, w', h⟩
  · rw [Nat.succ_mul] at hn
    obtain ⟨w', h, -, -, -⟩ := Loader.updateAllDependencies_pass
      ((methods_resolve env rank N _ _ _ n w.mods.length).2 N (by omega)) w hb
      (World.misplacedCount_le_length w _ _)
    exact ⟨w', h⟩

/-- C19: in a registry whose dependency graph is acyclic, the derivation of the
state of a record does not depend on what `loadBinary` does (the branch that
marks the target resolved, sets the record to `Resolved` and loads the target
is not taken); and when `updateDependencyStates` on a module returns, the
module has `m_resolved` set if it has no unresolved dependency, none of its
records has state `Resolved`, a record of it with a target is `Unresolved`,
`Loaded` or `Disabled`, and no record of any module has become `Resolved`. -/
theorem resolved_branch_never_taken (env : Env) (n : Nat) (rank : Nat → Nat) (N : Nat)
    (w : World) (hr : w.Ranked rank N) (this : Nat) (ht : this < w.mods.length) :
    (∀ k L, Mod.resolveDependency { methods env n with loadBinary := L } this k w =
      Mod.resolveDependency (methods env n) this k w) ∧
    ∀ f w', (methods env n).updateDependencyStates this w = some (f, w') →
      ((w'.mod this).hasUnresolvedDependencies = false → (w'.mod this).m_resolved = true) ∧
      (∀ k, k < (w'.mod this).m_info.m_dependencies.length →
        ((w'.mod this).dep k).m_state ≠ ModResolveState.Resolved ∧
        ∀ target, ((w'.mod this).dep k).m_mod = some target →
          ((w'.mod this).dep k).m_state = ModResolveState.Unresolved ∨
          ((w'.mod this).dep k).m_state = ModResolveState.Loaded ∨
          ((w'.mod this).dep k).m_state = ModResolveState.Disabled) ∧
      ∀ t k, ((w.mod t).dep k).m_state ≠ ModResolveState.Resolved →
        ((w'.mod t).dep k).m_state ≠ ModResolveState.Resolved := by
  have hb := World.Base.of_ranked hr
  refine ⟨fun k L => ?_, fun f w' h => ?_⟩
  · unfold Mod.resolveDependency
    cases hm : ((w.mod this).dep k).m_mod with
    | none => rfl
    | some target =>
      dsimp only
      obtain ⟨hlt, -⟩ := hr.target this k target (Mod.dep_mod_lt hm) (World.target_of_mod hm)
      cases h1 : (methods env n).updateDependencyStates target w with
      | none => rfl
      | some p =>
        obtain ⟨f, w1⟩ := p
        obtain ⟨-, p1, -, s1⟩ := methods_settled env hb n target hlt f w1 h1
        have hun := s1.hasUnresolved (hb.pass p1)
        have hres := s1.resolved
        dsimp only
        cases hS : w.sat (fun b => (w.mod b).m_enabled) N target with
        | false =>
          rw [hS] at hun
          simp only [hun, Bool.not_false, if_true]
        | true =>
          rw [hS] at hres
          simp only [hres, Bool.not_true, Bool.false_eq_true, if_false]
  · obtain ⟨-, p, -, s⟩ := methods_settled env hb n this ht f w' h
    refine ⟨fun hu => ?_, fun k hk => ?_, fun t k hne => p.not_resolved t k hne⟩
    · rw [s.hasUnresolved (hb.pass p)] at hu
      rw [s.resolved]
      simpa using hu
    · rw [s.records k hk]
      refine ⟨World.canonical_ne_resolved _ _ _, fun target hm => ?_⟩
      rw [World.target_of_mod hm]
      exact World.canonical_some _ _ _

/-- The registry `Scenario.pair` is acyclic: `a` has rank 1 and `b` rank 0. -/
theorem Scenario.pair_ranked (supportsUnloading : Bool) :
    (Scenario.pair supportsUnloading).Ranked (fun t => 1 - t) 2 := by
  refine ⟨fun t => by omega, fun t k b hk htar => ?_⟩
  rcases t with _ | _ | t
  · change k < 1 at hk
    have hk0 : k = 0 := by omega
    subst hk0
    change some 1 = some b at htar
    simp only [Option.some.injEq] at htar
    subst htar
    exact ⟨Nat.lt_succ_self 1, Nat.lt_succ_self 0⟩
  · change k < 0 at hk
    omega
  · change k < 0 at hk
    omega

theorem updateDependencyStates_terminates_witness :
    (Scenario.pair true).Ranked (fun t => 1 - t) 2 ∧
    ((Scenario.pair true).mods.length + 1) * (2 + 2) ≤ 12 ∧
    (∀ this, this < (Scenario.pair true).mods.length →
      ∃ f w', (methods Scenario.env 12).updateDependencyStates this (Scenario.pair true) =
        some (f, w')) ∧
    ∃ w', Loader.updateAllDependencies (methods Scenario.env 12) (Scenario.pair true) = some w' :=
  ⟨Scenario.pair_ranked true, by decide,
    updateDependencyStates_terminates Scenario.env _ 2 _ (Scenario.pair_ranked true) 12
      (by decide)⟩

/-- The chain in the order `a`, `b`, `c` is acyclic: `a` has rank 2, `b` rank 1
and `c` rank 0. -/
theorem Scenario.chain_ranked (da ua db ub dc uc enabled : Bool) :
    (Scenario.chain [0, 1, 2] da ua db ub dc uc enabled).Ranked (fun t => 2 - t) 3 := by
  refine ⟨fun t => by omega, fun t k b hk htar => ?_⟩
  rcases t with _ | _ | _ | t
  · change k < 1 at hk
    have hk0 : k = 0 := by omega
    subst hk0
    change some 1 = some b at htar
    simp only [Option.some.injEq] at htar
    subst htar
    exact ⟨show 1 < 3 by decide, by decide⟩
  · change k < 1 at hk
    have hk0 : k = 0 := by omega
    subst hk0
    change some 2 = some b at htar
    simp only [Option.some.injEq] at htar
    subst htar
    exact ⟨show 2 < 3 by decide, by decide⟩
  · change k < 0 at hk
    omega
  · change k < 0 at hk
    omega

theorem resolved_branch_never_taken_witness :
    (Scenario.chain [0, 1, 2] true true true true true true true).Ranked (fun t => 2 - t) 3 ∧
    0 < (Scenario.chain [0, 1, 2] true true true true true true true).mods.length ∧
    ((Scenario.chain [0, 1, 2] true true true true true true true).mod 1).m_resolved = false ∧
    ((methods Scenario.env 12).updateDependencyStates 0
        (Scenario.chain [0, 1, 2] true true true true true true true)).map
      (fun p => ((p.2.mod 1).m_resolved, (p.2.mod 1).m_binaryLoaded,
        ((p.2.mod 0).dep 0).m_mod, ((p.2.mod 0).dep 0).m_state)) =
      some (true, true, some 1, ModResolveState.Loaded) ∧
    (∀ k L, Mod.resolveDependency { methods Scenario.env 12 with loadBinary := L } 0 k
        (Scenario.chain [0, 1, 2] true true true true true true true) =
      Mod.resolveDependency (methods Scenario.env 12) 0 k
        (Scenario.chain [0, 1, 2] true true true true true true true)) ∧
    ∀ f w', (methods Scenario.env 12).updateDependencyStates 0
        (Scenario.chain [0, 1, 2] true true true true true true true) = some (f, w') →
      ((w'.mod 0).hasUnresolvedDependencies = false → (w'.mod 0).m_resolved = true) ∧
      (∀ k, k < (w'.mod 0).m_info.m_dependencies.length →
        ((w'.mod 0).dep k).m_state ≠ ModResolveState.Resolved ∧
        ∀ target, ((w'.mod 0).dep k).m_mod = some target →
          ((w'.mod 0).dep k).m_state = ModResolveState.Unresolved ∨
          ((w'.mod 0).dep k).m_state = ModResolveState.Loaded ∨
          ((w'.mod 0).dep k).m_state = ModResolveState.Disabled) ∧
      ∀ t k, (((Scenario.chain [0, 1, 2] true true true true true true true).mod t).dep
          k).m_state ≠ ModResolveState.Resolved →
        ((w'.mod t).dep k).m_state ≠ ModResolveState.Resolved :=
  ⟨Scenario.chain_ranked true true true true true true true, by decide, rfl, by decide!,
    resolved_branch_never_taken Scenario.env 12 _ 3 _
      (Scenario.chain_ranked true true true true true true true) 0 (by decide)⟩

/-- Whenever the registry-wide pass returns in a registry that agrees with `E`,
`S` and `R`, at whatever depth of nested calls, it leaves every module
settled. -/
theorem methods_pass_settled (env : Env) {rank : Nat → Nat} {N : Nat} {E S R : Nat → Bool}
    {w : World} (hb : w.Base rank N E S R) (n : Nat) (w' : World)
    (h : Loader.updateAllDependencies (methods env n) w = some w') :
    World.Pass E S R w w' ∧ World.Kept env S w w' ∧
      ∀ t, t < w.mods.length → w'.Settled env E S t := by
  have hn : w.mods.length * (N + 2) + N + 2 ≤ max n (w.mods.length * (N + 2) + N + 2) :=
    le_max_right _ _
  obtain ⟨w'', h2, p, k, -, s⟩ := Loader.updateAllDependencies_pass
    ((methods_resolve env rank N E S R _ w.mods.length).2 N hn) w hb
    (World.misplacedCount_le_length w E S)
  have h3 := Loader.updateAllDependencies_below
    (methods_below env (le_max_left n (w.mods.length * (N + 2) + N + 2))) w w' h
  rw [h3] at h2
  simp only [Option.some.injEq] at h2
  subst h2
  exact ⟨p, k, s⟩

theorem Mod.dep_of_le (m : Mod) (k : Nat) (h : m.m_info.m_dependencies.length ≤ k) :
    m.dep k = default := by
  unfold Mod.dep
  exact List.getD_eq_default _ _ h

/-- C13: in a registry with an acyclic dependency graph and with deterministic
collaborators, a registry-wide resolution pass that runs right after another
changes no `m_binaryLoaded`, `m_enabled` or `m_resolved` and no state of a
dependency record; the first pass loads the binary of a module only if it set
the `m_resolved` of the module, which was `false`, to `true`; and each of the
two blocks that set `m_resolved` of a module to `true` (the end of
`updateDependencyStates` on the module, and the handling of a record that
points to it) calls `loadBinary` at most once, on that module: what the block
returns depends on `loadBinary` through one call only. -/
theorem resolution_fixed_point (env : Env) (hdet : env.Deterministic) (rank : Nat → Nat)
    (N : Nat) (w w1 w2 : World) (hr : w.Ranked rank N) (n1 n2 : Nat)
    (h1 : Loader.updateAllDependencies (methods env n1) w = some w1)
    (h2 : Loader.updateAllDependencies (methods env n2) w1 = some w2) :
    (∀ t, (w2.mod t).m_binaryLoaded = (w1.mod t).m_binaryLoaded ∧
      (w2.mod t).m_enabled = (w1.mod t).m_enabled ∧
      (w2.mod t).m_resolved = (w1.mod t).m_resolved ∧
      ∀ k, ((w2.mod t).dep k).m_state = ((w1.mod t).dep k).m_state) ∧
    (∀ t, (w1.mod t).m_binaryLoaded = true → (w.mod t).m_binaryLoaded = true ∨
      ((w.mod t).m_resolved = false ∧ (w1.mod t).m_resolved = true)) ∧
    (∀ (go go' : Methods) (this : Nat) (f : Bool) (w0 : World),
      go'.loadBinary this ((Mod.markResolved this w0).log Severity.Debug this
          ("Resolved & loading " ++ ((Mod.markResolved this w0).mod this).m_info.m_id)) =
        go.loadBinary this ((Mod.markResolved this w0).log Severity.Debug this
          ("Resolved & loading " ++ ((Mod.markResolved this w0).mod this).m_info.m_id)) →
      Mod.resolveSelf go' this f w0 = Mod.resolveSelf go this f w0) ∧
    ∀ (go go' : Methods) (this k : Nat) (w0 : World),
      go'.updateDependencyStates = go.updateDependencyStates →
      (∀ target f w3, go.updateDependencyStates target w0 = some (f, w3) →
        go'.loadBinary target
            ((w3.setResolved target true).setDepState this k ModResolveState.Resolved) =
          go.loadBinary target
            ((w3.setResolved target true).setDepState this k ModResolveState.Resolved)) →
      Mod.resolveDependency go' this k w0 = Mod.resolveDependency go this k w0 := by
  have hb := World.Base.of_ranked hr
  obtain ⟨p1, -, s1⟩ := methods_pass_settled env hb n1 w1 h1
  have hb1 := (hb.pass p1).restart
  obtain ⟨p2, k2, s2⟩ := methods_pass_settled env hb1 n2 w2 h2
  refine ⟨fun t => ?_, fun t hl1 => ?_, fun go go' this f w0 h => ?_,
    fun go go' this k w0 hu hl => ?_⟩
  · by_cases ht : t < w.mods.length
    · have ht1 : t < w1.mods.length := by rw [p1.graph.length]; exact ht
      have st1 := s1 t ht
      have st2 := s2 t ht1
      have hflags : (w2.mod t).m_binaryLoaded = (w1.mod t).m_binaryLoaded ∧
          (w2.mod t).m_enabled = (w1.mod t).m_enabled := by
        cases hS : w.sat (fun b => (w.mod b).m_enabled) N t with
        | true =>
          refine ⟨?_, p2.enabled t hS⟩
          rcases p2.loaded t with hl | hl
          · exact hl
          · have := (hl.2 hS).2
            simp only at this
            rw [st1.resolved, hS] at this
            exact absurd this (by decide)
        | false =>
          obtain ⟨-, a, b⟩ := k2 hdet t hS (st1.stuck hdet hS)
          exact ⟨b, a⟩
      refine ⟨hflags.1, hflags.2, st2.resolved.trans st1.resolved.symm, fun k => ?_⟩
      by_cases hk : k < (w1.mod t).m_info.m_dependencies.length
      · rw [p2.records t k (st1.records k hk), st1.records k hk]
      · rw [Mod.dep_of_le _ k (by rw [p2.graph.deps]; exact Nat.le_of_not_lt hk),
          Mod.dep_of_le _ k (Nat.le_of_not_lt hk)]
    · have e1 : w1.mod t = default :=
        World.mod_of_le _ _ (by rw [p1.graph.length]; exact Nat.le_of_not_lt ht)
      have e2 : w2.mod t = default :=
        World.mod_of_le _ _ (by rw [p2.graph.length, p1.graph.length]; exact Nat.le_of_not_lt ht)
      rw [e1, e2]
      exact ⟨rfl, rfl, rfl, fun _ => rfl⟩
  · by_cases ht : t < w.mods.length
    · rcases p1.loaded t with hl | hl
      · exact Or.inl (hl.symm.trans hl1)
      · have hS : w.sat (fun b => (w.mod b).m_enabled) N t = true := hl.1.symm.trans hl1
        refine Or.inr ⟨(hl.2 hS).2, ?_⟩
        rw [(s1 t ht).resolved]
        exact hS
    · have e1 : w1.mod t = default :=
        World.mod_of_le _ _ (by rw [p1.graph.length]; exact Nat.le_of_not_lt ht)
      rw [e1] at hl1
      exact absurd hl1 (by decide)
  · unfold Mod.resolveSelf
    rw [h]
  · unfold Mod.resolveDependency
    rw [hu]
    cases hm : ((w0.mod this).dep k).m_mod with
    | none => rfl
    | some target =>
      dsimp only
      cases h1 : go.updateDependencyStates target w0 with
      | none => rfl
      | some p =>
        obtain ⟨f, w3⟩ := p
        dsimp only
        rw [hl target f w3 h1]

theorem Scenario.env_deterministic : Scenario.env.Deterministic :=
  ⟨fun _ _ _ => rfl, fun _ _ _ => rfl⟩

theorem Option.eq_some_getD {α : Type} (o : Option α) (d : α) (h : o.isSome = true) :
    o = some (o.getD d) := by
  cases o with
  | none => cases h
  | some a => rfl

theorem resolution_fixed_point_witness :
    Scenario.env.Deterministic ∧ (Scenario.pair true).Ranked (fun t => 1 - t) 2 ∧
    Loader.updateAllDependencies (methods Scenario.env 6) (Scenario.pair true) =
      some Scenario.settled ∧
    ∃ w2, Loader.updateAllDependencies (methods Scenario.env 6) Scenario.settled = some w2 ∧
      (∀ t, (w2.mod t).m_binaryLoaded = (Scenario.settled.mod t).m_binaryLoaded ∧
        (w2.mod t).m_enabled = (Scenario.settled.mod t).m_enabled ∧
        (w2.mod t).m_resolved = (Scenario.settled.mod t).m_resolved ∧
        ∀ k, ((w2.mod t).dep k).m_state = ((Scenario.settled.mod t).dep k).m_state) ∧
      (∀ t, (Scenario.settled.mod t).m_binaryLoaded = true →
        ((Scenario.pair true).mod t).m_binaryLoaded = true ∨
        (((Scenario.pair true).mod t).m_resolved = false ∧
          (Scenario.settled.mod t).m_resolved = true)) ∧
      (∀ (go go' : Methods) (this : Nat) (f : Bool) (w0 : World),
        go'.loadBinary this ((Mod.markResolved this w0).log Severity.Debug this
            ("Resolved & loading " ++ ((Mod.markResolved this w0).mod this).m_info.m_id)) =
          go.loadBinary this ((Mod.markResolved this w0).log Severity.Debug this
            ("Resolved & loading " ++ ((Mod.markResolved this w0).mod this).m_info.m_id)) →
        Mod.resolveSelf go' this f w0 = Mod.resolveSelf go this f w0) ∧
      ∀ (go go' : Methods) (this k : Nat) (w0 : World),
        go'.updateDependencyStates = go.updateDependencyStates →
        (∀ target f w3, go.updateDependencyStates target w0 = some (f, w3) →
          go'.loadBinary target
              ((w3.setResolved target true).setDepState this k ModResolveState.Resolved) =
            go.loadBinary target
              ((w3.setResolved target true).setDepState this k ModResolveState.Resolved)) →
        Mod.resolveDependency go' this k w0 = Mod.resolveDependency go this k w0 :=
  have hs2 : (Loader.updateAllDependencies (methods Scenario.env 6)
      Scenario.settled).isSome = true := by decide!
  ⟨Scenario.env_deterministic, Scenario.pair_ranked true,
    Option.eq_some_getD _ _ (by decide!), _, (Option.some_get hs2).symm,
    resolution_fixed_point Scenario.env Scenario.env_deterministic _ 2 _ _ _
      (Scenario.pair_ranked true) 6 6 (Option.eq_some_getD _ _ (by decide!))
      (Option.some_get hs2).symm⟩

/-! ## Unloading returns (C7) -/

theorem World.SameGraph.setDep_graph (w : World) (this k : Nat) (d : Dependency)
    (hreq : d.m_required = ((w.mod this).dep k).m_required)
    (ht : (match d.m_mod with
      | some b => some b
      | none => w.getLoadedMod d.m_id) = w.target this k) :
    World.SameGraph w (w.setMod this ((w.mod this).setDep k d)) := by
  have hdep := World.setMod_setDep_dep w this k d
  refine ⟨by simp [World.setMod], fun t => ?_, fun t j => ?_, World.target_setDep w this k d ht⟩
  · rw [World.setMod_mod]
    split
    · rename_i hc
      obtain ⟨rfl, -⟩ := hc
      simp [Mod.setDep]
    · rfl
  · rw [hdep]
    split
    · rename_i hc
      obtain ⟨⟨rfl, -⟩, rfl, -⟩ := hc
      exact hreq
    · rfl

theorem World.SameGraph.of_mods_graph {w w1 w' : World} (h : w'.mods = w1.mods)
    (g : World.SameGraph w w1) : World.SameGraph w w' := by
  have hm : ∀ t, w'.mod t = w1.mod t := World.mod_of_mods h
  have hg : ∀ id, w'.getLoadedMod id = w1.getLoadedMod id := fun id => by
    simp only [World.getLoadedMod, h]
  refine ⟨by rw [h]; exact g.length, fun t => by rw [hm]; exact g.deps t,
    fun t k => by rw [hm]; exact g.required t k, fun t k => ?_⟩
  rw [← g.target t k]
  simp only [World.target, hm, hg]

theorem World.SameGraph.of_set {w w' : World} {this : Nat} {m : Mod}
    (hm : w'.mods = w.mods.set this m) (hi : m.m_info = (w.mod this).m_info) :
    World.SameGraph w w' :=
  World.SameGraph.of_mods_graph hm
    (show World.SameGraph w (w.setMod this m) from World.SameGraph.setMod_graph w this m hi)

theorem World.SameGraph.of_setDep {w w' : World} {this k : Nat} {d : Dependency}
    (hm : w'.mods = w.mods.set this ((w.mod this).setDep k d))
    (hreq : d.m_required = ((w.mod this).dep k).m_required)
    (ht : (match d.m_mod with
      | some b => some b
      | none => w.getLoadedMod d.m_id) = w.target this k) :
    World.SameGraph w w' :=
  World.SameGraph.of_mods_graph hm
    (show World.SameGraph w (w.setMod this ((w.mod this).setDep k d)) from
      World.SameGraph.setDep_graph w this k d hreq ht)

/-- An atomic step keeps the graph of the registry. -/
theorem Step.graph_step {w w' : World} (h : Step w w') : World.SameGraph w w' := by
  cases h with
  | flag hf =>
    cases hf with
    | frame f => exact World.SameGraph.of_frame_graph f
    | load this hooks patches e _ _ _ hm _ => exact World.SameGraph.of_set hm rfl
    | enable this _ hm _ => exact World.SameGraph.of_set hm rfl
    | disable this hm _ => exact World.SameGraph.of_set hm rfl
    | clear this _ hm _ => exact World.SameGraph.of_set hm rfl
    | unload this _ _ _ hm _ => exact World.SameGraph.of_set hm rfl
  | setResolved this b _ hm _ => exact World.SameGraph.of_set hm rfl
  | setDepMod this k hn hm _ =>
    refine World.SameGraph.of_setDep hm rfl ?_
    unfold World.target
    rw [hn]
    cases w.getLoadedMod ((w.mod this).dep k).m_id <;> rfl
  | setDepState this k s _ hm _ => exact World.SameGraph.of_setDep hm rfl rfl

/-- A sequence of atomic steps keeps the graph of the registry. -/
theorem Steps.sameGraph {w w' : World} (h : Steps w w') : World.SameGraph w w' :=
  Steps.induct (P := fun x => World.SameGraph w x)
    (fun _ _ hs hw => hw.trans_graph hs.graph_step) h (World.SameGraph.refl_graph w)

/-- An atomic step keeps a module that is not loaded disabled and without
handles. -/
theorem Step.unloaded_step {w w' : World} (h : Step w w') (t : Nat)
    (hw : (w.mod t).m_binaryLoaded = false → (w.mod t).Unloaded)
    (hl : (w'.mod t).m_binaryLoaded = false) : (w'.mod t).Unloaded := by
  have key : ∀ {this : Nat} {m : Mod}, w'.mods = w.mods.set this m →
      (m.m_binaryLoaded = false → (w.mod this).m_binaryLoaded = false → (w.mod this).Unloaded →
        m.Unloaded) →
      (m.m_binaryLoaded = false → (w.mod this).m_binaryLoaded = true → m.Unloaded) →
      (w'.mod t).Unloaded := by
    intro this m hm h1 h2
    have hmod := World.mod_of_mods_eq hm t
    split at hmod
    · rename_i hc
      obtain ⟨rfl, -⟩ := hc
      rw [hmod] at hl ⊢
      cases hx : (w.mod this).m_binaryLoaded with
      | false => exact h1 hl hx (hw hx)
      | true => exact h2 hl hx
    · rw [hmod] at hl ⊢
      exact hw hl
  cases h with
  | flag hf =>
    cases hf with
    | frame f =>
      have c := f.core t
      have hl0 : (w.mod t).m_binaryLoaded = false := by rw [← c.loaded]; exact hl
      obtain ⟨a1, a2, a3, a4⟩ := hw hl0
      exact ⟨hl, by rw [c.enabled]; exact a2, by rw [c.hooks]; exact a3,
        by rw [c.patches]; exact a4⟩
    | load this hooks patches e _ _ _ hm _ =>
      exact key hm (fun h => absurd h (by simp)) (fun h => absurd h (by simp))
    | enable this hl1 hm _ =>
      refine key hm (fun _ h0 _ => ?_) (fun h _ => absurd h (by simp [hl1]))
      rw [hl1] at h0
      exact absurd h0 (by simp)
    | disable this hm _ =>
      exact key hm (fun _ _ u => ⟨u.notLoaded, rfl, u.noHooks, u.noPatches⟩)
        (fun h h1 => absurd (h.symm.trans h1) (by simp))
    | clear this _ hm _ =>
      exact key hm (fun _ _ u => ⟨u.notLoaded, u.notEnabled, rfl, rfl⟩)
        (fun h h1 => absurd (h.symm.trans h1) (by simp))
    | unload this he hh hp hm _ =>
      exact key hm (fun _ _ u => ⟨rfl, u.notEnabled, u.noHooks, u.noPatches⟩)
        (fun _ _ => ⟨rfl, he, hh, hp⟩)
  | setResolved this b _ hm _ =>
    exact key hm (fun _ _ u => ⟨u.notLoaded, u.notEnabled, u.noHooks, u.noPatches⟩)
      (fun h h1 => absurd (h.symm.trans h1) (by simp))
  | setDepMod this k _ hm _ =>
    exact key hm (fun _ _ u => ⟨u.notLoaded, u.notEnabled, u.noHooks, u.noPatches⟩)
      (fun h h1 => absurd (h.symm.trans h1) (by simp))
  | setDepState this k s _ hm _ =>
    exact key hm (fun _ _ u => ⟨u.notLoaded, u.notEnabled, u.noHooks, u.noPatches⟩)
      (fun h h1 => absurd (h.symm.trans h1) (by simp))

/-- Along atomic steps a module that is not loaded stays disabled and without
handles whenever it is not loaded. -/
theorem Steps.unloaded {w w' : World} (h : Steps w w') (t : Nat)
    (hw : (w.mod t).m_binaryLoaded = false → (w.mod t).Unloaded) :
    (w'.mod t).m_binaryLoaded = false → (w'.mod t).Unloaded :=
  Steps.induct (P := fun x => (x.mod t).m_binaryLoaded = false → (x.mod t).Unloaded)
    (fun _ _ hs hx => hs.unloaded_step t hx) h hw

/-- What `unloadBinary` does before it notifies the registry: on a registered,
loaded module that supports unloading and, if it is enabled, disabling, when
the calls of its unloading succeed, it reaches by atomic steps a state where
the module is unloaded, disabled and owns no hook and no patch, and returns
success in the state the registry-wide pass from there ends in. -/
theorem Mod.unloadBinary_prefix (env : Env) (this : Nat) (w : World)
    (hr : this < w.mods.length)
    (hl : (w.mod this).m_binaryLoaded = true)
    (hu : (w.mod this).m_info.m_supportsUnloading = true)
    (hd : (w.mod this).m_enabled = true → (w.mod this).m_info.m_supportsDisabling = true)
    (henv : ∀ c t, c.unloads this = true → env.fails c t = none) :
    ∃ w1 : World, (w1.mod this).Unloaded ∧ Steps w w1 ∧
      ∀ go, Mod.unloadBinary env go this w =
        (Loader.updateAllDependencies go w1).map (fun w2 => (Ok, w2)) := by
  obtain ⟨wa, h1⟩ := Mod.saveData_ok env this henv w
  have f1 := Frame.of_eq (Frame.saveData _ _ _) h1
  have hd1 : (wa.mod this).m_enabled = true →
      (wa.mod this).m_info.m_supportsDisabling = true := by
    rw [(f1.core this).enabled, (f1.core this).info]
    exact hd
  obtain ⟨wb, h2⟩ := Mod.disable_ok env this henv wa hd1
  have he := Mod.disable_enabled env this wa wb () h2
  obtain ⟨he3, hh3, hp3⟩ := Mod.destroyHandles_mod this wb he
  have s0 : Steps w (Mod.destroyHandles this wb) :=
    (Steps.frame_steps f1).trans ((Mod.disable_steps_of_eq h2).trans
      (Mod.destroyHandles_steps this wb he))
  have hlen : this < (Mod.destroyHandles this wb).mods.length := by
    rw [s0.length]
    exact hr
  have hc : env.fails (Call.unloadPlatformBinary this)
      (Mod.destroyHandles this wb).trace.length = none := henv _ _ (by simp [Call.unloads])
  have hU : ((((Mod.destroyHandles this wb).emit
      (Effect.call (Call.unloadPlatformBinary this) none)).setMod this
      { ((Mod.destroyHandles this wb).emit
          (Effect.call (Call.unloadPlatformBinary this) none)).mod this with
        m_binaryLoaded := false }).mod this).Unloaded := by
    rw [World.setMod_mod_self _ _ _ (by simpa using hlen)]
    exact ⟨rfl, he3, hh3, hp3⟩
  have s1 : Steps (Mod.destroyHandles this wb)
      (((Mod.destroyHandles this wb).emit
        (Effect.call (Call.unloadPlatformBinary this) none)).setMod this
        { ((Mod.destroyHandles this wb).emit
            (Effect.call (Call.unloadPlatformBinary this) none)).mod this with
          m_binaryLoaded := false }) :=
    (Steps.frame_steps (Frame.emit _ (Effect.call (Call.unloadPlatformBinary this) none)
      rfl)).trans (Relation.ReflTransGen.single
        (Step.flag (FlagStep.unload this he3 hh3 hp3 rfl rfl)))
  refine ⟨_, hU, s0.trans s1, fun go => ?_⟩
  unfold Mod.unloadBinary
  simp only [hl, hu, Bool.not_true, Bool.false_eq_true, if_false, h1, h2, World.call, hc]
  cases Loader.updateAllDependencies go _ <;> rfl

/-- C7 (corrected): in a registry whose dependency graph is acyclic, on a
registered, loaded module that supports unloading and, if it is enabled,
supports disabling, when the calls that save its data, disable its hooks,
restore its patches and unload its binary succeed, `unloadBinary` returns
success once calls may nest deep enough, and leaves the module unloaded,
disabled and without hook or patch. -/
theorem unloadBinary_unloads (env : Env) (rank : Nat → Nat) (N : Nat) (this : Nat) (w : World)
    (hk : w.Ranked rank N)
    (hr : this < w.mods.length)
    (hl : (w.mod this).m_binaryLoaded = true)
    (hu : (w.mod this).m_info.m_supportsUnloading = true)
    (hd : (w.mod this).m_enabled = true → (w.mod this).m_info.m_supportsDisabling = true)
    (henv : ∀ c t, c.unloads this = true → env.fails c t = none)
    (n : Nat) (hn : (w.mods.length + 1) * (N + 2) < n) :
    ∃ w2, (methods env n).unloadBinary this w = some (Ok, w2) ∧
      (w2.mod this).m_binaryLoaded = false ∧ (w2.mod this).m_enabled = false ∧
      (w2.mod this).m_hooks = [] ∧ (w2.mod this).m_patches = [] := by
  obtain ⟨w1, hU, st, heq⟩ := Mod.unloadBinary_prefix env this w hr hl hu hd henv
  have hb1 := World.Base.of_ranked (hk.graph st.sameGraph)
  cases n with
  | zero => exact absurd hn (Nat.not_lt_zero _)
  | succ m =>
    rw [Nat.succ_mul] at hn
    obtain ⟨w2, h2, p2, -, -⟩ := Loader.updateAllDependencies_pass
      ((methods_resolve env rank N _ _ _ m w1.mods.length).2 N (by
        rw [st.length]
        omega)) w1 hb1 (World.misplacedCount_le_length w1 _ _)
    have hl2 : (w2.mod this).m_binaryLoaded = false := by
      rcases p2.loaded this with h | ⟨h, hx⟩
      · exact h.trans hU.notLoaded
      · cases hS : w1.sat (fun b => (w1.mod b).m_enabled) N this with
        | false => exact h.trans hS
        | true =>
          have := (hx hS).1
          rw [hU.notEnabled] at this
          exact absurd this (by simp)
    obtain ⟨-, a2, a3, a4⟩ := (Loader.updateAllDependencies_steps (methods_sound env m)
      h2).unloaded this (fun _ => hU) hl2
    refine ⟨w2, ?_, hl2, a2, a3, a4⟩
    show Mod.unloadBinary env (methods env m) this w = _
    rw [heq, h2]
    rfl

/-- The registry `Scenario.single` is acyclic: its module has no dependency. -/
theorem Scenario.single_ranked (supportsDisabling supportsUnloading : Bool) :
    (Scenario.single supportsDisabling supportsUnloading).Ranked (fun _ => 0) 1 := by
  refine ⟨fun _ => Nat.lt_succ_self 0, fun t k b hk _ => ?_⟩
  rcases t with _ | t
  · change k < 0 at hk
    omega
  · change k < 0 at hk
    omega

theorem unloadBinary_unloads_witness :
    (Scenario.single true true).Ranked (fun _ => 0) 1 ∧
      0 < (Scenario.single true true).mods.length ∧
      ((Scenario.single true true).mods.length + 1) * (1 + 2) < 7 ∧
      ((Scenario.single true true).mod 0).m_enabled = true ∧
      ∃ w2, (methods Scenario.env 7).unloadBinary 0 (Scenario.single true true) =
          some (Ok, w2) ∧
        (w2.mod 0).m_binaryLoaded = false ∧ (w2.mod 0).m_enabled = false ∧
        (w2.mod 0).m_hooks = [] ∧ (w2.mod 0).m_patches = [] :=
  ⟨Scenario.single_ranked true true, by decide, by decide, rfl,
    unloadBinary_unloads Scenario.env _ 1 0 (Scenario.single true true)
      (Scenario.single_ranked true true) (by decide) rfl rfl (fun _ => rfl) (fun _ _ _ => rfl)
      7 (by decide)⟩

/-- A pass of a module whose first record points to a module the pass of which
does not return does not return. -/
theorem Mod.updateDependencyStates_none (go : Methods) (x y : Nat) (w : World)
    (h : ((w.mod x).dep 0).m_mod = some y) (hy : go.updateDependencyStates y w = none) :
    Mod.updateDependencyStates go x w = none := by
  have hk := Mod.dep_mod_lt h
  obtain ⟨m, hm⟩ : ∃ m, (w.mod x).m_info.m_dependencies.length = m + 1 :=
    ⟨(w.mod x).m_info.m_dependencies.length - 1, by omega⟩
  unfold Mod.updateDependencyStates
  rw [hm, List.range_succ_eq_map]
  simp [Mod.updateDependenciesFrom, Mod.updateDependency, Mod.findDependency, h,
    Mod.resolveDependency, hy]

/-- In a registry where two modules point to each other, the pass of either
does not return, however deep calls may nest. -/
theorem methods_cycle (env : Env) (a b : Nat) (w : World)
    (ha : ((w.mod a).dep 0).m_mod = some b) (hb : ((w.mod b).dep 0).m_mod = some a) (n : Nat) :
    (methods env n).updateDependencyStates a w = none ∧
      (methods env n).updateDependencyStates b w = none := by
  induction n with
  | zero => exact ⟨rfl, rfl⟩
  | succ n ih =>
    exact ⟨Mod.updateDependencyStates_none _ a b w ha ih.2,
      Mod.updateDependencyStates_none _ b a w hb ih.1⟩

/-- C7 fails as stated, in two ways.  On an enabled module that supports
unloading but not disabling, with every collaborator call succeeding,
`unloadBinary` returns the error of `disable` and the module stays loaded and
enabled, with its hook and its patch.  And in a registry where two modules
require each other, `unloadBinary` on a loaded module that supports unloading
and disabling does not return, however deep calls may nest: the registry-wide
pass it starts does not end. -/
theorem unloadBinary_fails_without_disabling :
    (((Scenario.single false true).mod 0).m_binaryLoaded = true ∧
      ((Scenario.single false true).mod 0).m_info.m_supportsUnloading = true ∧
      ((methods Scenario.env 3).unloadBinary 0 (Scenario.single false true)).map
        (fun r => (r.1, (r.2.mod 0).m_binaryLoaded, (r.2.mod 0).m_enabled,
          (r.2.mod 0).m_hooks, (r.2.mod 0).m_patches)) =
        some (Err "Mod does not support disabling", true, true, [Hook.mk 1],
          [Patch.mk 4096])) ∧
      (Scenario.cycle.mod 0).m_binaryLoaded = true ∧
      (Scenario.cycle.mod 0).m_info.m_supportsUnloading = true ∧
      (Scenario.cycle.mod 0).m_info.m_supportsDisabling = true ∧
      ∀ n, (methods Scenario.env n).unloadBinary 0 Scenario.cycle = none := by
  refine ⟨⟨rfl, rfl, rfl⟩, rfl, rfl, rfl, fun n => ?_⟩
  cases n with
  | zero => rfl
  | succ m =>
    obtain ⟨w1, -, st, heq⟩ := Mod.unloadBinary_prefix Scenario.env 0 Scenario.cycle
      (by decide) rfl rfl (fun _ => rfl) (fun _ _ _ => rfl)
    show Mod.unloadBinary Scenario.env (methods Scenario.env m) 0 Scenario.cycle = none
    rw [heq]
    have h0 := (methods_cycle Scenario.env 0 1 w1 (st.dep_mod_some 0 0 1 rfl)
      (st.dep_mod_some 1 0 0 rfl) m).1
    have hlen : w1.mods.length = 2 := st.length
    simp [Loader.updateAllDependencies, hlen, List.range_succ_eq_map,
      Loader.updateAllDependenciesFrom, h0]

/-! ## Convergence on a chain (C3) -/

theorem World.mod_of_length_le {w : World} {t : Nat} (h : w.mods.length ≤ t) :
    w.mod t = default := by
  unfold World.mod
  exact List.getD_eq_default _ _ h

/-- The ranks of a chain: two for the module at `a`, one for the module at `b`,
none for the others. -/
theorem World.Chain.ranked {w : World} {a b c : Nat} (h : w.Chain a b c) :
    w.Ranked (fun t => if t = a then 2 else if t = b then 1 else 0) 3 := by
  obtain ⟨ha, hb, hc, hab, hac, hbc⟩ := h.positions
  refine ⟨fun t => ?_, fun t k x hk hx => ?_⟩
  · show (if t = a then 2 else if t = b then 1 else 0) < 3
    split
    · omega
    · split <;> omega
  · by_cases hta : t = a
    · subst hta
      rw [h.recordsA] at hk
      have hk0 : k = 0 := by omega
      subst hk0
      have : w.target t 0 = some b := by
        unfold World.target
        rw [h.pendingA]
        exact h.targetA
      rw [this] at hx
      cases hx
      refine ⟨by rw [h.length]; exact hb, ?_⟩
      show (if b = t then 2 else if b = b then 1 else 0) < (if t = t then 2 else _)
      rw [if_neg (Ne.symm hab), if_pos rfl, if_pos rfl]
      omega
    · by_cases htb : t = b
      · subst htb
        rw [h.recordsB] at hk
        have hk0 : k = 0 := by omega
        subst hk0
        have : w.target t 0 = some c := by
          unfold World.target
          rw [h.pendingB]
          exact h.targetB
        rw [this] at hx
        cases hx
        refine ⟨by rw [h.length]; exact hc, ?_⟩
        show (if c = a then 2 else if c = t then 1 else 0) <
          (if t = a then 2 else if t = t then 1 else 0)
        rw [if_neg (Ne.symm hac), if_neg (Ne.symm hbc), if_neg hta, if_pos rfl]
        omega
      · by_cases htc : t = c
        · subst htc
          rw [h.recordsC] at hk
          exact absurd hk (by simp)
        · have : 3 ≤ t := by omega
          rw [World.mod_of_length_le (by rw [h.length]; exact this)] at hk
          have hk0 : k < 0 := hk
          exact absurd hk0 (Nat.not_lt_zero _)

/-- The dependencies of the three modules of a chain can be met. -/
theorem World.Chain.sat_chain {w : World} {a b c : Nat} (h : w.Chain a b c)
    {rank : Nat → Nat} {N : Nat} {E S R : Nat → Bool} (hb : w.Base rank N E S R)
    (hE : ∀ t, t < 3 → E t = true) : ∀ t, t < 3 → S t = true := by
  obtain ⟨ha, hb', hc, hab, hac, hbc⟩ := h.positions
  have hSc : S c = true := by
    rw [hb.fix c]
    unfold World.satisfied
    rw [h.recordsC]
    rfl
  have hSb : S b = true := by
    rw [hb.fix b, World.satisfied_iff]
    intro k hk
    rw [h.recordsB] at hk
    have hk0 : k = 0 := by omega
    subst hk0
    unfold World.satisfiedAt World.target
    rw [h.pendingB, h.targetB]
    simp [hE c hc, hSc]
  have hSa : S a = true := by
    rw [hb.fix a, World.satisfied_iff]
    intro k hk
    rw [h.recordsA] at hk
    have hk0 : k = 0 := by omega
    subst hk0
    unfold World.satisfiedAt World.target
    rw [h.pendingA, h.targetA]
    simp [hE b hb', hSb]
  intro t ht
  have : t = a ∨ t = b ∨ t = c := by omega
  rcases this with rfl | rfl | rfl
  · exact hSa
  · exact hSb
  · exact hSc

/-- C3, as the code has it: for every registry of three modules `a`, `b` and
`c`, where `a` requires `b`, `b` requires `c` and `c` has no dependency, that
are unloaded and unresolved as right after registration and have `m_enabled`
set (the flag by which the resolver decides that a resolved module is to be
loaded), and for all collaborators whose every call succeeds, one pass calling
`updateDependencyStates` once on each module, in any of the six orders, returns
when calls may nest twenty deep, and leaves all three loaded and enabled. -/
theorem chain_converges_when_enabled (env : Env) (w : World) (a b c : Nat)
    (hchain : w.Chain a b c) (henv : ∀ call t, env.fails call t = none)
    (order : List Nat) (horder : order ∈ Scenario.orders) (n : Nat) (hn : 20 ≤ n) :
    (Loader.updateAllDependenciesFrom (methods env n) order w).map World.allLoadedEnabled =
      some true := by
  have hb := World.Base.of_ranked hchain.ranked
  have hS := hchain.sat_chain hb hchain.enabled
  have hmem : ∀ i ∈ order, i < 3 := by
    intro i hi
    simp only [Scenario.orders, List.mem_cons, List.mem_singleton, List.not_mem_nil,
      or_false] at horder
    rcases horder with rfl | rfl | rfl | rfl | rfl | rfl <;>
      · simp only [List.mem_cons, List.mem_singleton, List.not_mem_nil, or_false] at hi
        omega
  have hall : ∀ i, i < 3 → i ∈ order := by
    intro i hi
    simp only [Scenario.orders, List.mem_cons, List.mem_singleton, List.not_mem_nil,
      or_false] at horder
    have : i = 0 ∨ i = 1 ∨ i = 2 := by omega
    rcases horder with rfl | rfl | rfl | rfl | rfl | rfl <;>
      rcases this with rfl | rfl | rfl <;> simp
  obtain ⟨w', h, p, -, l, s⟩ := Loader.updateAllDependenciesFrom_pass
    ((methods_resolve env _ 3 _ _ _ n 3).2 3 (by omega)) order w hb
    (by
      have := World.misplacedCount_le_length w (fun b => (w.mod b).m_enabled)
        (w.sat (fun b => (w.mod b).m_enabled) 3)
      rw [hchain.length] at this
      exact this)
    (fun i hi => by rw [hchain.length]; exact hmem i hi)
  rw [h]
  have key : ∀ t, t < 3 → (w'.mod t).m_binaryLoaded = true ∧ (w'.mod t).m_enabled = true := by
    intro t ht
    have hen : (w'.mod t).m_enabled = true := by
      rw [p.enabled t (hS t ht)]
      exact hchain.enabled t ht
    have hres : (w'.mod t).m_resolved = true := by
      rw [(s t (hall t ht)).resolved]
      exact hS t ht
    have hland : w.Landed (w.sat (fun b => (w.mod b).m_enabled) 3) t := by
      intro _ _ hr
      rw [(hchain.fresh t ht).2] at hr
      exact Bool.noConfusion hr
    exact ⟨l henv t hland (hS t ht) hen hres, hen⟩
  show some (World.allLoadedEnabled w') = some true
  congr 1
  unfold World.allLoadedEnabled
  rw [List.all_eq_true]
  intro m hm
  obtain ⟨i, hi, rfl⟩ := List.getElem_of_mem hm
  have hi3 : i < 3 := by
    rw [p.graph.length, hchain.length] at hi
    exact hi
  have hmod : w'.mod i = w'.mods[i] := by
    unfold World.mod
    simp [hi]
  obtain ⟨h1, h2⟩ := key i hi3
  rw [hmod] at h1 h2
  simp [h1, h2]

/-- C3 fails from the initial state of the spec: with `m_enabled` false on the
three modules the pass returns with no module loaded, in each of the six
orders. -/
theorem chain_not_loaded_from_initial_state :
    Scenario.orders.map (fun order =>
      (Loader.updateAllDependenciesFrom (methods Scenario.env 12) order
          (Scenario.chain [0, 1, 2] true true true true true true false)).map
        (fun w => (w.allLoadedEnabled, w.noneLoaded))) =
      List.replicate 6 (some (false, true)) := by
  decide!

theorem Scenario.chain_chain : (Scenario.chain [2, 0, 1] true false true false false true
    true).Chain 1 2 0 :=
  ⟨rfl, by decide, rfl, rfl, rfl, by decide, rfl, rfl, rfl, by decide, rfl, by decide, by decide⟩

theorem chain_converges_when_enabled_witness :
    (Scenario.chain [2, 0, 1] true false true false false true true).Chain 1 2 0 ∧
      (∀ call t, Scenario.env.fails call t = none) ∧ [1, 2, 0] ∈ Scenario.orders ∧
      (Loader.updateAllDependenciesFrom (methods Scenario.env 20) [1, 2, 0]
        (Scenario.chain [2, 0, 1] true false true false false true true)).map
          World.allLoadedEnabled = some true :=
  ⟨Scenario.chain_chain, fun _ _ => rfl, by decide,
    chain_converges_when_enabled Scenario.env
      (Scenario.chain [2, 0, 1] true false true false false true true) 1 2 0
      Scenario.chain_chain (fun _ _ => rfl) [1, 2, 0] (by decide) 20 (by decide)⟩

end Geode
